import Mathlib

/-!
# x86 32-bit (non-PAE) memory model of MemProcFS: `vmm/mm/mm_x86.c`

A shallow embedding of the page-table walkers of `mm_x86.c` and a verification
of their specification.

Conventions of the embedding
* `DWORD`/`QWORD` values are natural numbers; a truncation `% 2 ^ w` is written
  wherever the C type can wrap.
* A cached page-table page (`PVMMOB_CACHE_MEM`) is a function from the slot index
  to the slot value; the accessor `pdw` truncates to 32 bits.
* `VmmTlbGetPageTable(H, pa, FALSE)` is external to the file: it is the parameter
  `tlb`, a partial map from physical addresses to pages.
* The C functions that call themselves (always from paging level 2 to paging
  level 1) carry a `fuel` argument that bounds the call depth; every theorem is
  stated for all fuel values `fuel + 2`, which is enough for both levels.
-/

namespace MmX86

/-- A cached page-table page: the slot values of `pObPTEs->pdw`. -/
abbrev Page := Nat → Nat

/-- The read `pOb->pdw[i]` of one 32-bit slot. -/
def pdw (pg : Page) (i : Nat) : Nat := pg i % 2 ^ 32

/-- The page-table cache `VmmTlbGetPageTable(H, pa, FALSE)`: `none` is a NULL result. -/
abbrev Tlb := Nat → Option Page

/-- The table `MMX86_PAGETABLEMAP_PML_REGION_SIZE[3] = { 0, 12, 22 }`. -/
def MMX86_PAGETABLEMAP_PML_REGION_SIZE (iPML : Nat) : Nat :=
  match iPML with
  | 1 => 12
  | 2 => 22
  | _ => 0

/-- The macro `MMX86_PTE_IS_VALID(pte, iPML)`, `(pte & 0x01)`. -/
def MMX86_PTE_IS_VALID (pte : Nat) : Nat := pte &&& 0x01

/-- The function `MmX86_Virt2Phys`. The result is the returned `BOOL` together with the
final content of `*ppa`; the argument `ppa` is the content of `*ppa` before the call. -/
def MmX86_Virt2Phys (tlb : Tlb) : Nat → Nat → Bool → Nat → Nat → Nat → Bool × Nat
  | 0, _, _, _, _, ppa => (false, ppa)
  | fuel + 1, paPT, fUserOnly, iPML, va, ppa =>
    if va > 0xffffffff then (false, ppa)
    else if paPT > 0xffffffff then (false, ppa)
    else
      let iPML := if iPML = 255 then 2 else iPML
      match tlb (paPT &&& 0xfffff000) with
      | none => (false, ppa)
      | some pObPTEs =>
        let i := 0x3ff &&& (va >>> MMX86_PAGETABLEMAP_PML_REGION_SIZE iPML)
        let pte := pdw pObPTEs i
        if MMX86_PTE_IS_VALID pte = 0 then
          (false, if iPML = 1 then pte else ppa)
        else if fUserOnly = true ∧ pte &&& 0x04 = 0 then (false, ppa)
        else if iPML = 2 ∧ pte &&& 0x80 = 0 then
          MmX86_Virt2Phys tlb fuel pte fUserOnly 1 va ppa
        else if iPML = 1 then (true, pte &&& 0xfffff000)
        else if pte &&& 0x003e0000 ≠ 0 then (false, ppa)
        else
          (true, ((pte &&& 0x0001e000) <<< (32 - 13)) + (pte &&& 0xffc00000)
            + (va &&& 0x003ff000))

/-- The success condition of a translation started at the directory level, as the
specification words it. -/
def Virt2PhysSucceeds (tlb : Tlb) (paPT : Nat) (fUserOnly : Bool) (va : Nat) : Prop :=
  va ≤ 0xffffffff ∧ paPT ≤ 0xffffffff ∧
  ∃ pd, tlb (paPT &&& 0xfffff000) = some pd ∧
    pdw pd ((va >>> 22) &&& 0x3ff) &&& 0x01 ≠ 0 ∧
    (fUserOnly = true → pdw pd ((va >>> 22) &&& 0x3ff) &&& 0x04 ≠ 0) ∧
    ((pdw pd ((va >>> 22) &&& 0x3ff) &&& 0x80 ≠ 0 ∧
        pdw pd ((va >>> 22) &&& 0x3ff) &&& 0x003e0000 = 0) ∨
     (pdw pd ((va >>> 22) &&& 0x3ff) &&& 0x80 = 0 ∧
        ∃ pt, tlb (pdw pd ((va >>> 22) &&& 0x3ff) &&& 0xfffff000) = some pt ∧
          pdw pt ((va >>> 12) &&& 0x3ff) &&& 0x01 ≠ 0 ∧
          (fUserOnly = true → pdw pt ((va >>> 12) &&& 0x3ff) &&& 0x04 ≠ 0)))

/-- The raw entry of the page table at `paPT` selected by `va`, when the table is reached
with in-range arguments and that entry is not present; `none` otherwise. -/
def tableNotPresent (tlb : Tlb) (paPT va : Nat) : Option Nat :=
  if va ≤ 0xffffffff ∧ paPT ≤ 0xffffffff then
    match tlb (paPT &&& 0xfffff000) with
    | none => none
    | some pt =>
      if pdw pt ((va >>> 12) &&& 0x3ff) &&& 0x01 = 0 then some (pdw pt ((va >>> 12) &&& 0x3ff))
      else none
  else none

/-- The raw leaf entry of a walk started at the directory `paPT`, when the walk gets to the
page-table level (the directory entry is present, passes the privilege filter and is not a
large page) and the page-table entry is not present; `none` in every other case. -/
def leafNotPresent (tlb : Tlb) (paPT : Nat) (fUserOnly : Bool) (va : Nat) : Option Nat :=
  if va ≤ 0xffffffff ∧ paPT ≤ 0xffffffff then
    match tlb (paPT &&& 0xfffff000) with
    | none => none
    | some pd =>
      if pdw pd ((va >>> 22) &&& 0x3ff) &&& 0x01 ≠ 0 ∧
          (fUserOnly = true → pdw pd ((va >>> 22) &&& 0x3ff) &&& 0x04 ≠ 0) ∧
          pdw pd ((va >>> 22) &&& 0x3ff) &&& 0x80 = 0 then
        tableNotPresent tlb (pdw pd ((va >>> 22) &&& 0x3ff)) va
      else none
  else none

/-- A page directory whose only entry, at index 5, is a 4MB page at physical `0x00c00000`
(present, writable, user, page-size bit set, no reserved bit set). -/
def dirLargeAt5 : Page := fun i => if i = 5 then 0x00c00087 else 0

/-- A cache that holds `dirLargeAt5` at physical address `0x1000` and nothing else. -/
def tlbLargeAt5 : Tlb := fun pa => if pa = 0x1000 then some dirLargeAt5 else none

/-- The batch request `VMM_V2P_ENTRY`: the table to consult next `paPT`, the virtual
address `va`, the resolved address `pa`, the raw leaf entry `pte`, the transient table
reference `pObPTE` (`none` is NULL) and the flags `fPhys` (resolved) and `fPaging`. -/
structure VMM_V2P_ENTRY where
  paPT : Nat
  va : Nat
  pa : Nat
  pte : Nat
  pObPTE : Option Page
  fPhys : Bool
  fPaging : Bool

/-- Modelled from the spec: `VmmTlbGetPageTableEx`, the batch fetch of the page-table
cache, is not part of `mm_x86.c`. Per the specification the batch translator shares the
cache fetches of the single translator and a later phase serves every request that
"produced a pending next-table address": a request whose `paPT` is non-zero receives in
`pObPTE` the page the cache holds for `paPT`, and a request with no pending table address
(`paPT = 0`, the value `MmX86_Virt2PhysEx` resets the field to) receives none. -/
def VmmTlbGetPageTableEx (tlb : Tlb) (e : VMM_V2P_ENTRY) : VMM_V2P_ENTRY :=
  { e with pObPTE := if e.paPT = 0 then none else tlb e.paPT }

/-- The body of the `for` loop of `MmX86_Virt2PhysEx` for one request. The result is the
updated request and whether this iteration assigns `fValidNextPT = TRUE`. -/
def Virt2PhysEx_Entry (fUserOnly : Bool) (iPML : Nat) (pV2P : VMM_V2P_ENTRY) :
    VMM_V2P_ENTRY × Bool :=
  let pV2P := { pV2P with paPT := 0 }
  match pV2P.pObPTE with
  | none => (pV2P, false)
  | some pObPTE =>
    if pV2P.pa ≠ 0 then ({ pV2P with pObPTE := none }, false)
    else
      let i := 0x3ff &&& (pV2P.va >>> MMX86_PAGETABLEMAP_PML_REGION_SIZE iPML)
      let pte := pdw pObPTE i
      let pV2P := { pV2P with pObPTE := none }
      if MMX86_PTE_IS_VALID pte = 0 then
        if iPML = 1 then ({ pV2P with pte := pte, fPaging := true }, false)
        else (pV2P, false)
      else if fUserOnly = true ∧ pte &&& 0x04 = 0 then (pV2P, false)
      else if iPML = 1 then
        ({ pV2P with pa := pte &&& 0xfffff000, fPhys := true }, false)
      else if pte &&& 0x80 ≠ 0 then
        if pte &&& 0x003e0000 ≠ 0 then (pV2P, false)
        else
          ({ pV2P with
              pa := ((pte &&& 0x0001e000) <<< (32 - 13)) + (pte &&& 0xffc00000)
                + (pV2P.va &&& 0x003ff000),
              fPhys := true }, false)
      else ({ pV2P with paPT := pte &&& 0xfffff000 }, true)

/-- The function `MmX86_Virt2PhysEx` on the request array `pV2Ps` (its length is
`cV2Ps`); the result is the array after the call. -/
def MmX86_Virt2PhysEx (tlb : Tlb) :
    Nat → List VMM_V2P_ENTRY → Bool → Nat → List VMM_V2P_ENTRY
  | 0, pV2Ps, _, _ => pV2Ps
  | fuel + 1, pV2Ps, fUserOnly, iPML =>
    let iPML := if iPML = 255 then 2 else iPML
    let fetched := pV2Ps.map (VmmTlbGetPageTableEx tlb)
    let walked := fetched.map (Virt2PhysEx_Entry fUserOnly iPML)
    let pV2Ps := walked.map Prod.fst
    let fValidNextPT := walked.any Prod.snd
    if fValidNextPT = true ∧ iPML = 2 then MmX86_Virt2PhysEx tlb fuel pV2Ps fUserOnly 1
    else pV2Ps

/-- A request that starts unresolved at the directory `paDTB`. -/
def V2PUnresolved (paDTB : Nat) (e : VMM_V2P_ENTRY) : Prop :=
  e.pa = 0 ∧ e.fPhys = false ∧ e.paPT = paDTB ∧ e.va ≤ 0xffffffff

/-- A page directory whose entry 0 is a 4MB page at physical `0x00400000`. -/
def dirLargeAt0 : Page := fun i => if i = 0 then 0x00400087 else 0

/-- A cache that holds `dirLargeAt0` at the physical address `2 ^ 32`, above the 32-bit
range. -/
def tlbAbove4G : Tlb := fun pa => if pa = 0x100000000 then some dirLargeAt0 else none

/-- One unresolved request for the virtual address 0 at the directory `2 ^ 32`. -/
def reqAbove4G : VMM_V2P_ENTRY :=
  { paPT := 0x100000000, va := 0, pa := 0, pte := 0, pObPTE := none, fPhys := false,
    fPaging := false }

/-- One unresolved request for the virtual address `0x01400123` at the directory
`0x1000`. -/
def reqLargeAt5 : VMM_V2P_ENTRY :=
  { paPT := 0x1000, va := 0x01400123, pa := 0, pte := 0, pObPTE := none, fPhys := false,
    fPaging := false }

/-- A page table whose entry 0 maps the 4KB page at physical `0x5000`. -/
def tableAt0 : Page := fun i => if i = 0 then 0x5007 else 0

/-- A page directory whose entry 0 points to a page table at physical address 0. -/
def dirTableAt0 : Page := fun i => if i = 0 then 0x007 else 0

/-- A cache that holds `dirTableAt0` at `0x1000` and serves physical page 0 as the page
table `tableAt0`. -/
def tlbPageZero : Tlb := fun pa =>
  if pa = 0x1000 then some dirTableAt0 else if pa = 0 then some tableAt0 else none

/-- The region record `VMM_MAP_PTEENTRY`, restricted to the fields `mm_x86.c` writes:
`vaBase`, `cPages` and `fPage` are `QWORD`, `cSoftware` is a `DWORD`. -/
structure VMM_MAP_PTEENTRY where
  vaBase : Nat
  cPages : Nat
  fPage : Nat
  cSoftware : Nat

/-- The region buffer `pMemMap` together with the entry count `*pcMemMap`. -/
structure MemMap where
  pMemMap : Nat → VMM_MAP_PTEENTRY
  cMemMap : Nat

/-- What the walkers read from `H` and `pProcess`, and the two constants of `vmm.h` that
`mm_x86.c` uses without defining them: the page-table cache, whether
`H->vmm.tpSystem == VMM_SYSTEM_WINDOWS_32`, `pProcess->fUserOnly`, the region cap
`VMM_MEMMAP_ENTRIES_MAX` and the flag mask `VMM_MEMMAP_PAGE_MASK`. -/
structure Env where
  tlb : Tlb
  fWindows32 : Bool
  fUserOnly : Bool
  VMM_MEMMAP_ENTRIES_MAX : Nat
  VMM_MEMMAP_PAGE_MASK : Nat

/-- The macro `MMX86_PTE_IS_TRANSITION(H, pte, iPML)`. -/
def MMX86_PTE_IS_TRANSITION (fWindows32 : Bool) (pte iPML : Nat) : Nat :=
  if pte &&& 0x0c01 = 0x0800 ∧ iPML = 1 ∧ fWindows32 = true then
    (pte &&& 0xfffff000) ||| 0x005
  else 0

/-- Lines 59-71 of `MmX86_MapInitialize_Index`: the decoding of one raw entry. `none` is a
`continue`; otherwise the result is the rewritten `pte` and the flag `fPagedOut`. -/
def MapInitialize_Decode (env : Env) (paMax iPML : Nat) (fSupervisorPML : Bool)
    (pte : Nat) : Option (Nat × Bool) :=
  let decoded : Option (Nat × Bool) :=
    if MMX86_PTE_IS_VALID pte = 0 then
      if pte = 0 then none
      else if iPML ≠ 1 then none
      else
        let t := MMX86_PTE_IS_TRANSITION env.fWindows32 pte iPML
        some (0x00000005 ||| (if t ≠ 0 then t &&& 0xfffff000 else 0), true)
    else some (pte, false)
  match decoded with
  | none => none
  | some (pte, fPagedOut) =>
    if pte &&& 0xfffff000 > paMax then none
    else
      let pte := if fSupervisorPML = true then pte &&& 0xfffffffb else pte
      if env.fUserOnly = true ∧ pte &&& 0x04 = 0 then none
      else some (pte, fPagedOut)

/-- Number of 4KB pages of a leaf at paging level `iPML`:
`1ULL << (MMX86_PAGETABLEMAP_PML_REGION_SIZE[iPML] - 12)`. -/
def leafPages (iPML : Nat) : Nat := 1 <<< (MMX86_PAGETABLEMAP_PML_REGION_SIZE iPML - 12)

/-- Lines 73-92 of `MmX86_MapInitialize_Index`: a leaf page at `va` is merged into the
trailing region or starts a new one. The pointer `pMemMapEntry` always equals
`pMemMap + *pcMemMap - 1` when this code runs (it is assigned at lines 56, 78 and 99,
the only places around which `*pcMemMap` changes), and is not dereferenced when
`*pcMemMap == 0`. The comparison with `VMM_MEMMAP_ENTRIES_MAX - 1` at line 85 is only
reached after line 77 has found `*pcMemMap + 1 < VMM_MEMMAP_ENTRIES_MAX`, so the cap is
positive there and the subtraction does not wrap. The second component tells whether the
function returns. -/
def MapInitialize_Leaf (env : Env) (iPML va pte : Nat) (fPagedOut : Bool) (m : MemMap) :
    MemMap × Bool :=
  let pMemMapEntry := m.pMemMap (m.cMemMap - 1)
  let cPages := leafPages iPML % 2 ^ 64
  if m.cMemMap = 0 ∨
      (pMemMapEntry.fPage ≠ pte &&& env.VMM_MEMMAP_PAGE_MASK ∧ fPagedOut = false) ∨
      va ≠ (pMemMapEntry.vaBase + (pMemMapEntry.cPages <<< 12) % 2 ^ 64) % 2 ^ 64 then
    if (m.cMemMap + 1) % 2 ^ 32 ≥ env.VMM_MEMMAP_ENTRIES_MAX then (m, true)
    else
      let slot := m.pMemMap m.cMemMap
      let entry : VMM_MAP_PTEENTRY :=
        { vaBase := va
          fPage := pte &&& env.VMM_MEMMAP_PAGE_MASK
          cSoftware :=
            if fPagedOut = true then (slot.cSoftware + cPages % 2 ^ 32) % 2 ^ 32
            else slot.cSoftware
          cPages := cPages }
      let m' : MemMap :=
        { pMemMap := Function.update m.pMemMap m.cMemMap entry
          cMemMap := (m.cMemMap + 1) % 2 ^ 32 }
      (m', decide (m'.cMemMap ≥ env.VMM_MEMMAP_ENTRIES_MAX - 1))
  else
    let entry : VMM_MAP_PTEENTRY :=
      { pMemMapEntry with
        cSoftware :=
          if fPagedOut = true then (pMemMapEntry.cSoftware + cPages % 2 ^ 32) % 2 ^ 32
          else pMemMapEntry.cSoftware
        cPages := (pMemMapEntry.cPages + cPages) % 2 ^ 64 }
    ({ m with pMemMap := Function.update m.pMemMap (m.cMemMap - 1) entry }, false)

/-- The body of the `for` loop of `MmX86_MapInitialize_Index` for the index `i`; `recurse`
stands for the call of the function itself at line 97. The second component tells whether
the function returns. -/
def MapInitialize_Entry (env : Env) (paMax : Nat)
    (recurse : MemMap → Nat → Nat → Page → Bool → MemMap)
    (vaBase iPML : Nat) (PTEs : Page) (fSupervisorPML : Bool) (i : Nat) (m : MemMap) :
    MemMap × Bool :=
  match MapInitialize_Decode env paMax iPML fSupervisorPML (pdw PTEs i) with
  | none => (m, false)
  | some (pte, fPagedOut) =>
    let va := (vaBase + (i <<< MMX86_PAGETABLEMAP_PML_REGION_SIZE iPML) % 2 ^ 32) % 2 ^ 32
    if iPML = 1 ∨ pte &&& 0x80 ≠ 0 then MapInitialize_Leaf env iPML va pte fPagedOut m
    else
      let fNextSupervisorPML := decide (pte &&& 0x04 = 0)
      match env.tlb (pte &&& 0xfffff000) with
      | none => (m, false)
      | some pObNextPT => (recurse m va 1 pObNextPT fNextSupervisorPML, false)

/-- The loop `for(i = ...; i < ...; i++)` with a body that may return: `n` iterations
starting at the index `i`. -/
def MapInitialize_Loop (body : Nat → MemMap → MemMap × Bool) : Nat → Nat → MemMap → MemMap
  | 0, _, m => m
  | n + 1, i, m =>
    match body i m with
    | (m', true) => m'
    | (m', false) => MapInitialize_Loop body n (i + 1) m'

/-- The function `MmX86_MapInitialize_Index`: the state of `pMemMap`/`*pcMemMap` after the
call, from their state `m` before it. -/
def MmX86_MapInitialize_Index (env : Env) (paMax : Nat) :
    Nat → MemMap → Nat → Nat → Page → Bool → MemMap
  | 0, m, _, _, _, _ => m
  | fuel + 1, m, vaBase, iPML, PTEs, fSupervisorPML =>
    MapInitialize_Loop
      (MapInitialize_Entry env paMax (MmX86_MapInitialize_Index env paMax fuel)
        vaBase iPML PTEs fSupervisorPML) 1024 0 m

/-- The region list a buffer state holds: the first `cMemMap` slots. -/
def MemMap.regions (m : MemMap) : List VMM_MAP_PTEENTRY :=
  (List.range m.cMemMap).map m.pMemMap

/-- The zero-initialised buffer of `LocalAlloc(LMEM_ZEROINIT, ...)` with no entry. -/
def MemMap.empty : MemMap :=
  { pMemMap := fun _ => { vaBase := 0, cPages := 0, fPage := 0, cSoftware := 0 }
    cMemMap := 0 }

/-- The region of the buffer slot `k` covers the address `a`. -/
def MemMap.covers (m : MemMap) (k a : Nat) : Prop :=
  (m.pMemMap k).vaBase ≤ a ∧ a < (m.pMemMap k).vaBase + (m.pMemMap k).cPages * 4096

/-- The directory page of the privilege-narrowing scenario: a user entry 0 pointing to
the table at `0x2000` and a supervisor-only entry 1 pointing to the table at `0x3000`. -/
def dirNarrow : Page := fun i => if i = 0 then 0x2007 else if i = 1 then 0x3003 else 0

/-- Physical memory for the privilege-narrowing scenario: the directory `dirNarrow` at
`0x1000`; the table at `0x2000` maps its last page (present, writable, user); the table at
`0x3000` has a not-present, non-zero first entry. -/
def tlbNarrow : Tlb := fun pa =>
  if pa = 0x1000 then some dirNarrow
  else if pa = 0x2000 then some (fun i => if i = 1023 then 0x5007 else 0)
  else if pa = 0x3000 then some (fun i => if i = 0 then 0x00000002 else 0)
  else none

/-- The environment of the privilege-narrowing scenario: no privilege filter, the cap
`0x4000` and the flag mask `0x8000000000000006` (writable, user, no-execute). -/
def envNarrow : Env :=
  { tlb := tlbNarrow, fWindows32 := true, fUserOnly := false,
    VMM_MEMMAP_ENTRIES_MAX := 0x4000, VMM_MEMMAP_PAGE_MASK := 0x8000000000000006 }

/-- The regions of the buffer are in ascending order without overlap, each has at least
one page, the last one ends at or below the cursor `v`, and there are at most `v / 4096`
of them. -/
def MemMap.Sorted (m : MemMap) (v : Nat) : Prop :=
  (∀ k, k < m.cMemMap → 1 ≤ (m.pMemMap k).cPages) ∧
  (∀ k, k + 1 < m.cMemMap →
    (m.pMemMap k).vaBase + (m.pMemMap k).cPages * 4096 ≤ (m.pMemMap (k + 1)).vaBase) ∧
  (0 < m.cMemMap →
    (m.pMemMap (m.cMemMap - 1)).vaBase + (m.pMemMap (m.cMemMap - 1)).cPages * 4096 ≤ v) ∧
  m.cMemMap * 4096 ≤ v

/-- The leaf that the walk of the directory `PD` adds for the address `a`, if any: the
virtual base `va` of the leaf, the rewritten entry `pte`, the flag `fPagedOut` and the
paging level, exactly as `MmX86_MapInitialize_Index` computes them on its way to the slot
that holds `a` (directory entry `a >> 22` decoded without supervisor narrowing, then
either a large page or the entry `(a >> 12) & 0x3ff` of the page table it points to,
decoded with the narrowing of the directory entry). `none` means that the walk adds no
page for `a`. -/
def MapInitialize_LeafAt (env : Env) (paMax : Nat) (PD : Page) (a : Nat) :
    Option (Nat × Nat × Bool × Nat) :=
  match MapInitialize_Decode env paMax 2 false (pdw PD (a >>> 22)) with
  | none => none
  | some (pde, _) =>
    if pde &&& 0x80 ≠ 0 then some ((a >>> 22) <<< 22, pde, false, 2)
    else
      match env.tlb (pde &&& 0xfffff000) with
      | none => none
      | some pt =>
        match MapInitialize_Decode env paMax 1 (decide (pde &&& 0x04 = 0))
            (pdw pt ((a >>> 12) &&& 0x3ff)) with
        | none => none
        | some (pte, fPagedOut) => some ((a >>> 12) <<< 12, pte, fPagedOut, 1)

/-- What a property `I` of the buffer and the address cursor must satisfy to be an
invariant of the walk of the directory `PD`. The cursor may move over addresses for which
the walk adds nothing; it may move freely once the count is within one of the cap (the
walk then skips the rest of a table); and the leaf step for a leaf that the walk finds at
the cursor moves the cursor past that leaf. -/
def MapInitialize_Invariant (env : Env) (paMax : Nat) (PD : Page)
    (I : MemMap → Nat → Prop) : Prop :=
  (∀ m v v', v ≤ v' → v' ≤ 2 ^ 32 → 4096 ∣ v → 4096 ∣ v' →
    (∀ a, v ≤ a → a < v' → MapInitialize_LeafAt env paMax PD a = none) →
    m.Sorted v → I m v → I m v') ∧
  (∀ m v v', v ≤ v' → v' ≤ 2 ^ 32 → env.VMM_MEMMAP_ENTRIES_MAX ≤ m.cMemMap + 1 →
    m.Sorted v → I m v → I m v') ∧
  (∀ m va pte po lvl, (lvl = 1 ∨ lvl = 2) → va + leafPages lvl * 4096 ≤ 2 ^ 32 →
    4096 ∣ va →
    (∀ a, va ≤ a → a < va + leafPages lvl * 4096 →
      MapInitialize_LeafAt env paMax PD a = some (va, pte, po, lvl)) →
    m.Sorted va → I m va →
    I (MapInitialize_Leaf env lvl va pte po m).1 (va + leafPages lvl * 4096))

/-- No two neighbouring regions of the buffer are both virtually contiguous and of equal
page-type flags. -/
def MemMap.Unmergeable (m : MemMap) : Prop :=
  ∀ k, k + 1 < m.cMemMap →
    ¬ ((m.pMemMap k).vaBase + (m.pMemMap k).cPages * 4096 = (m.pMemMap (k + 1)).vaBase ∧
      (m.pMemMap k).fPage = (m.pMemMap (k + 1)).fPage)

/-- The merge step of the specification with `r` as the trailing region: a following
region that is contiguous with `r` and has identical flags is merged into it. -/
def mergeInto (r : VMM_MAP_PTEENTRY) : List VMM_MAP_PTEENTRY → List VMM_MAP_PTEENTRY
  | [] => [r]
  | s :: rest =>
    if r.vaBase + r.cPages * 4096 = s.vaBase ∧ r.fPage = s.fPage then
      mergeInto { r with cPages := r.cPages + s.cPages,
                         cSoftware := r.cSoftware + s.cSoftware } rest
    else r :: mergeInto s rest

/-- The merge of all adjacent regions with identical flags and contiguous virtual ranges,
as the specification describes it. -/
def mergeAdjacent : List VMM_MAP_PTEENTRY → List VMM_MAP_PTEENTRY
  | [] => []
  | r :: rest => mergeInto r rest

/-- The count is zero or below the cap, and no slot at or above the count differs from
the buffer `buf` the walk started with. -/
def MemMap.Capped (env : Env) (buf : Nat → VMM_MAP_PTEENTRY) (m : MemMap) : Prop :=
  (m.cMemMap = 0 ∨ m.cMemMap < env.VMM_MEMMAP_ENTRIES_MAX) ∧
  ∀ k, m.cMemMap ≤ k → m.pMemMap k = buf k

/-- Every address covered by a region of the buffer is one for which the walk finds a
leaf, and when that leaf is not a paged-out guess the flags of the region are the flags
of the leaf. -/
def MemMap.Provenance (env : Env) (paMax : Nat) (PD : Page) (m : MemMap) : Prop :=
  ∀ k a, k < m.cMemMap → m.covers k a →
    ∃ va pte po lvl, MapInitialize_LeafAt env paMax PD a = some (va, pte, po, lvl) ∧
      (po = false → (m.pMemMap k).fPage = pte &&& env.VMM_MEMMAP_PAGE_MASK)

/-- The leaf entry for the address `a` is a hardware-present one: the directory entry is
present and either has the page-size bit set or points to an available page table whose
entry for `a` is present. -/
def HardwarePresentAt (env : Env) (PD : Page) (a : Nat) : Prop :=
  pdw PD (a >>> 22) &&& 0x01 ≠ 0 ∧
  (pdw PD (a >>> 22) &&& 0x80 ≠ 0 ∨
    ∃ pt, env.tlb (pdw PD (a >>> 22) &&& 0xfffff000) = some pt ∧
      pdw pt ((a >>> 12) &&& 0x3ff) &&& 0x01 ≠ 0)

/-- A page directory whose only entry, at index 5, is a supervisor-only 4MB page at
physical `0x00c00000` (present, writable, page-size bit set, user bit clear). -/
def dirSupervisorLarge : Page := fun i => if i = 5 then 0x00c00083 else 0

/-- An environment without privilege filter whose cache holds nothing; the cap is `0x4000`
and the flag mask `0x8000000000000006`. -/
def envPlain : Env :=
  { tlb := fun _ => none, fWindows32 := true, fUserOnly := false,
    VMM_MEMMAP_ENTRIES_MAX := 0x4000, VMM_MEMMAP_PAGE_MASK := 0x8000000000000006 }

/-- A page directory whose only entry, at index 5, is a 4MB page with the reserved bit 17
set (present, writable, user, page-size bit set). -/
def dirReservedLarge : Page := fun i => if i = 5 then 0x00c20087 else 0

/-- An environment without privilege filter whose cache holds `dirReservedLarge` at
`0x1000`. -/
def envReservedLarge : Env :=
  { tlb := fun pa => if pa = 0x1000 then some dirReservedLarge else none,
    fWindows32 := true, fUserOnly := false,
    VMM_MEMMAP_ENTRIES_MAX := 0x4000, VMM_MEMMAP_PAGE_MASK := 0x8000000000000006 }

/-- An environment without privilege filter whose cache holds `dirLargeAt5` at `0x1000`. -/
def envLargeAt5 : Env :=
  { tlb := tlbLargeAt5, fWindows32 := true, fUserOnly := false,
    VMM_MEMMAP_ENTRIES_MAX := 0x4000, VMM_MEMMAP_PAGE_MASK := 0x8000000000000006 }

/-- The base of a 4MB page as `MmX86_Virt2Phys` composes it at line 227:
`(((QWORD)(pte & 0x0001e000)) << (32 - 13)) + (pte & 0xffc00000)`. -/
def Virt2Phys_LargePageBase (pte : Nat) : Nat :=
  ((pte &&& 0x0001e000) <<< (32 - 13)) + (pte &&& 0xffc00000)

/-- The base of a 4MB page as `MmX86_Phys2VirtGetInformation_Index` composes it at line
337: `(pte & 0xffc00000) | ((QWORD)(pte & 0x001fe000) << 19)`. -/
def Phys2Virt_LargePageBase (pte : Nat) : Nat :=
  (pte &&& 0xffc00000) ||| ((pte &&& 0x001fe000) <<< 19)

/-- A page directory whose only entry, at index 5, is a 4MB page with the extension bit 13
set and no reserved bit set (present, writable, user, page-size bit set). -/
def dirExtendedLarge : Page := fun i => if i = 5 then 0x00c02087 else 0

/-- A cache that holds `dirExtendedLarge` at `0x1000` and nothing else. -/
def tlbExtendedLarge : Tlb := fun pa => if pa = 0x1000 then some dirExtendedLarge else none

/-- The memory-model tag `VMM_MEMORYMODEL_TP`; `NA` is the value of zeroed memory. -/
inductive VMM_MEMORYMODEL_TP where
  | NA
  | X86
  | X86PAE
  | X64
  deriving DecidableEq

/-- The region map object `VMMOB_MAP_PTE` that `MmX86_PteMapInitialize` stores. -/
structure VMMOB_MAP_PTE where
  cMap : Nat
  pMap : List VMM_MAP_PTEENTRY
  fTagScan : Bool
  cbMultiText : Nat

/-- The fields of the process descriptor `VMM_PROCESS` that `mm_x86.c` uses: the
directory base `paDTB`, the privilege filter `fUserOnly`, the flag `fTlbSpiderDone` and
the stored region map `Map.pObPte` (`none` is NULL). -/
structure VMM_PROCESS where
  paDTB : Nat
  fUserOnly : Bool
  fTlbSpiderDone : Bool
  pObPte : Option VMMOB_MAP_PTE

/-- The trace structure `VMM_VIRT2PHYS_INFORMATION`: the model tag, the virtual address
and the per-level arrays `pas`, `PTEs` and `iPTEs`, indexed by the paging level. -/
structure VMM_VIRT2PHYS_INFORMATION where
  tpMemoryModel : VMM_MEMORYMODEL_TP
  va : Nat
  pas : Nat → Nat
  PTEs : Nat → Nat
  iPTEs : Nat → Nat

/-- The function `MmX86_Virt2PhysGetInformation_DoWork`: the trace structure after the
call. -/
def MmX86_Virt2PhysGetInformation_DoWork (tlb : Tlb) (fUserOnly : Bool) :
    Nat → VMM_VIRT2PHYS_INFORMATION → Nat → Nat → VMM_VIRT2PHYS_INFORMATION
  | 0, pVirt2PhysInfo, _, _ => pVirt2PhysInfo
  | fuel + 1, pVirt2PhysInfo, iPML, paPT =>
    match tlb paPT with
    | none => pVirt2PhysInfo
    | some pObPTEs =>
      let i := 0x3ff &&& (pVirt2PhysInfo.va >>> MMX86_PAGETABLEMAP_PML_REGION_SIZE iPML)
      let pte := pdw pObPTEs i
      let info : VMM_VIRT2PHYS_INFORMATION :=
        { pVirt2PhysInfo with
          pas := Function.update pVirt2PhysInfo.pas iPML paPT
          iPTEs := Function.update pVirt2PhysInfo.iPTEs iPML (i % 2 ^ 16)
          PTEs := Function.update pVirt2PhysInfo.PTEs iPML pte }
      if MMX86_PTE_IS_VALID pte = 0 then info
      else if fUserOnly = true ∧ pte &&& 0x04 = 0 then info
      else if iPML = 1 then
        { info with pas := Function.update info.pas 0 (pte &&& 0xfffff000) }
      else if pte &&& 0x80 ≠ 0 then
        if pte &&& 0x003e0000 ≠ 0 then info
        else
          { info with
            pas := Function.update info.pas 0
              ((pte &&& 0xffc00000) + ((pte &&& 0x0001e000) <<< (32 - 13))) }
      else MmX86_Virt2PhysGetInformation_DoWork tlb fUserOnly fuel info 1 (pte &&& 0xfffff000)

/-- The content of the trace structure after `ZeroMemory` and the two assignments of
lines 307-308. -/
def Virt2PhysInfo_reset (va : Nat) : VMM_VIRT2PHYS_INFORMATION :=
  { tpMemoryModel := VMM_MEMORYMODEL_TP.X86, va := va, pas := fun _ => 0,
    PTEs := fun _ => 0, iPTEs := fun _ => 0 }

/-- The function `MmX86_Virt2PhysGetInformation`: the trace structure after the call. -/
def MmX86_Virt2PhysGetInformation (tlb : Tlb) (fuel : Nat) (pProcess : VMM_PROCESS)
    (pVirt2PhysInfo : VMM_VIRT2PHYS_INFORMATION) : VMM_VIRT2PHYS_INFORMATION :=
  if pVirt2PhysInfo.va > 0xffffffff then pVirt2PhysInfo
  else
    MmX86_Virt2PhysGetInformation_DoWork tlb pProcess.fUserOnly fuel
      (Virt2PhysInfo_reset pVirt2PhysInfo.va) 2 (pProcess.paDTB &&& 0xfffff000)

/-- The walk of the diagnostic trace reaches the page-table level: the directory page is
available, the directory entry is present, passes the privilege filter and is not a large
page, and the page table it points to is available. -/
def InfoVisitsTable (tlb : Tlb) (pProcess : VMM_PROCESS) (va : Nat) : Prop :=
  ∃ pd, tlb (pProcess.paDTB &&& 0xfffff000) = some pd ∧
    pdw pd ((va >>> 22) &&& 0x3ff) &&& 0x01 ≠ 0 ∧
    (pProcess.fUserOnly = true → pdw pd ((va >>> 22) &&& 0x3ff) &&& 0x04 ≠ 0) ∧
    pdw pd ((va >>> 22) &&& 0x3ff) &&& 0x80 = 0 ∧
    ∃ pt, tlb (pdw pd ((va >>> 22) &&& 0x3ff) &&& 0xfffff000) = some pt

/-- A process without privilege filter whose directory base is `0x1000`. -/
def procPlain : VMM_PROCESS :=
  { paDTB := 0x1000, fUserOnly := false, fTlbSpiderDone := false, pObPte := none }

/-- A trace structure with stale content and a virtual address above the 32-bit range. -/
def infoStaleWide : VMM_VIRT2PHYS_INFORMATION :=
  { tpMemoryModel := VMM_MEMORYMODEL_TP.X64, va := 0x100000000, pas := fun _ => 0x7000,
    PTEs := fun _ => 0x7007, iPTEs := fun _ => 7 }

/-- A trace structure with stale content for the virtual address `0x00400000`, whose
directory entry in `dirLargeAt5` is zero. -/
def infoStale : VMM_VIRT2PHYS_INFORMATION :=
  { tpMemoryModel := VMM_MEMORYMODEL_TP.X64, va := 0x00400000, pas := fun _ => 0x7000,
    PTEs := fun _ => 0x7007, iPTEs := fun _ => 7 }

/-- The calls into the collaborators of `mm_x86.c` that a function makes, in order: the
per-process lock, the page-table cache fetch and the bulk prefetch. -/
inductive Event where
  | EnterCriticalSection
  | LeaveCriticalSection
  | TlbGetPageTable (pa : Nat)
  | TlbPrefetch (pages : Finset Nat)
  deriving DecidableEq

/-- Modelled from the spec: `ObSet_Push` is not part of `mm_x86.c`. Per the specification
the spider "collects every distinct ... next-level table physical address", so the page
set is a finite set of addresses and a push inserts the value. -/
def ObSet_Push (pObPageSet : Finset Nat) (value : Nat) : Finset Nat :=
  insert value pObPageSet

/-- The body of the `for` loop of `MmX86_TlbSpider` for the directory index `i`. -/
def TlbSpider_Entry (fUserOnly : Bool) (pObPD : Page) (pObPageSet : Finset Nat) (i : Nat) :
    Finset Nat :=
  let pte := pdw pObPD i
  if pte &&& 0x01 = 0 then pObPageSet
  else if pte &&& 0x80 ≠ 0 then pObPageSet
  else if fUserOnly = true ∧ pte &&& 0x04 = 0 then pObPageSet
  else ObSet_Push pObPageSet (pte &&& 0xfffff000)

/-- The function `MmX86_TlbSpider`: the process state after the call and the calls it
makes. `fObSetNew` tells whether `ObSet_New` returns a set (it returns NULL when the
allocation fails). -/
def MmX86_TlbSpider (tlb : Tlb) (fObSetNew : Bool) (pProcess : VMM_PROCESS) :
    VMM_PROCESS × List Event :=
  if pProcess.fTlbSpiderDone = true then (pProcess, [])
  else if fObSetNew = false then (pProcess, [])
  else
    match tlb (pProcess.paDTB &&& 0xfffff000) with
    | none => (pProcess, [Event.TlbGetPageTable (pProcess.paDTB &&& 0xfffff000)])
    | some pObPD =>
      let pObPageSet :=
        (List.range 1024).foldl (TlbSpider_Entry pProcess.fUserOnly pObPD) ∅
      ({ pProcess with fTlbSpiderDone := true },
        [Event.TlbGetPageTable (pProcess.paDTB &&& 0xfffff000),
         Event.TlbPrefetch pObPageSet])

/-- The set of page-table addresses the specification asks the spider to prefetch:
`pte & 0xfffff000` for every directory entry that is present, has the page-size bit clear
and, when the privilege filter is on, is user-accessible. -/
def TlbSpider_Pages (fUserOnly : Bool) (pd : Page) : Finset Nat :=
  ((Finset.range 1024).filter (fun i =>
    pdw pd i &&& 0x01 ≠ 0 ∧ pdw pd i &&& 0x80 = 0 ∧
    (fUserOnly = true → pdw pd i &&& 0x04 ≠ 0))).image (fun i => pdw pd i &&& 0xfffff000)

/-- A process with the privilege filter on, the spidered flag clear and the directory
base `0x1000`. -/
def procUser : VMM_PROCESS :=
  { paDTB := 0x1000, fUserOnly := true, fTlbSpiderDone := false, pObPte := none }

/-- The calls of `VmmTlbGetPageTable` at line 95 that `MmX86_MapInitialize_Index` makes
when it walks the directory `PTEs` (`iPML = 2`, `vaBase = 0`, `fSupervisorPML = FALSE`),
in order: `n` iterations of the loop starting at the index `i` with the buffer state `m`.
An iteration fetches the table of its entry when the entry passes lines 59-71 and is not a
leaf; the loop ends where the body returns. The walk of a page table (`iPML = 1`) makes no
fetch, since every entry that passes there is a leaf. -/
def MapInitialize_Fetches (env : Env) (paMax : Nat) (PTEs : Page) :
    Nat → Nat → MemMap → List Event
  | 0, _, _ => []
  | n + 1, i, m =>
    let fetched : List Event :=
      match MapInitialize_Decode env paMax 2 false (pdw PTEs i) with
      | none => []
      | some (pte, _) =>
        if pte &&& 0x80 ≠ 0 then [] else [Event.TlbGetPageTable (pte &&& 0xfffff000)]
    match MapInitialize_Entry env paMax (MmX86_MapInitialize_Index env paMax 1) 0 2 PTEs
        false i m with
    | (_, true) => fetched
    | (next, false) => fetched ++ MapInitialize_Fetches env paMax PTEs n (i + 1) next

/-- The function `MmX86_PteMapInitialize`: the returned `BOOL`, the process state after
the call and the calls it makes (the lock, the spider's calls, the fetch of the directory
at line 124 and the fetches of the walk at line 95). `VmmTlbSpider` is the external
warm-up it calls at line 123; `fLocalAlloc`, `fObAllocEx` and `fObAllocExEmpty` tell
whether the allocations of lines 126, 133 and 135 succeed. Line 116,
`if(pProcess->Map.pObPte) { TRUE; }`, evaluates the constant `TRUE` and goes on to line
117: it has no `return`. -/
def MmX86_PteMapInitialize (env : Env) (paMax : Nat)
    (VmmTlbSpider : VMM_PROCESS → VMM_PROCESS × List Event)
    (fLocalAlloc fObAllocEx fObAllocExEmpty : Bool) (pProcess : VMM_PROCESS) :
    Bool × VMM_PROCESS × List Event :=
  if pProcess.pObPte.isSome = true then
    (true, pProcess, [Event.EnterCriticalSection, Event.LeaveCriticalSection])
  else
    let spidered := VmmTlbSpider pProcess
    let pProcess := spidered.1
    let paPD := pProcess.paDTB &&& 0xfffff000
    let walked : MemMap :=
      match env.tlb paPD with
      | none => MemMap.empty
      | some pObPD =>
        if fLocalAlloc = true then
          MmX86_MapInitialize_Index { env with fUserOnly := pProcess.fUserOnly } paMax 2
            MemMap.empty 0 2 pObPD false
        else MemMap.empty
    let fetches : List Event :=
      match env.tlb paPD with
      | none => []
      | some pObPD =>
        if fLocalAlloc = true then
          MapInitialize_Fetches { env with fUserOnly := pProcess.fUserOnly } paMax pObPD
            1024 0 MemMap.empty
        else []
    let calls := [Event.EnterCriticalSection] ++ spidered.2 ++
      [Event.TlbGetPageTable paPD] ++ fetches ++ [Event.LeaveCriticalSection]
    if fObAllocEx = false then
      (true,
        { pProcess with
          pObPte :=
            if fObAllocExEmpty = true then
              some { cMap := 0, pMap := [], fTagScan := false, cbMultiText := 0 }
            else none },
        calls)
    else
      (true,
        { pProcess with
          pObPte := some { cMap := walked.cMemMap, pMap := walked.regions,
                           fTagScan := false, cbMultiText := 0 } },
        calls)

/-- A process whose region map is already built (an empty map). -/
def procBuilt : VMM_PROCESS :=
  { paDTB := 0x1000, fUserOnly := false, fTlbSpiderDone := true,
    pObPte := some { cMap := 0, pMap := [], fTagScan := false, cbMultiText := 0 } }

/-- The reverse-query state `VMMOB_PHYS2VIRT_INFORMATION`: the target physical address
`paTarget`, the count `cvaList` and the result array `pvaList`. The array has
`VMM_PHYS2VIRT_INFORMATION_MAX_PROCESS_RESULT` slots; that constant is not defined in
`mm_x86.c` and is a parameter of the functions below. -/
structure VMMOB_PHYS2VIRT_INFORMATION where
  paTarget : Nat
  cvaList : Nat
  pvaList : Nat → Nat

/-- The two statements `pP2V->pvaList[pP2V->cvaList] = va; pP2V->cvaList++;` of lines
330-331 and 339-340; the count is a `DWORD`. -/
def Phys2Virt_Append (pP2V : VMMOB_PHYS2VIRT_INFORMATION) (va : Nat) :
    VMMOB_PHYS2VIRT_INFORMATION :=
  { pP2V with
    pvaList := Function.update pP2V.pvaList pP2V.cvaList va
    cvaList := (pP2V.cvaList + 1) % 2 ^ 32 }

/-- The body of the `for` loop of `MmX86_Phys2VirtGetInformation_Index` for the index `i`;
`recurse` stands for the call of the function itself at line 349. The second component
tells whether the function returns. -/
def Phys2Virt_Entry (tlb : Tlb) (VMM_PHYS2VIRT_INFORMATION_MAX_PROCESS_RESULT : Nat)
    (fUserOnly : Bool) (paMax : Nat)
    (recurse : VMMOB_PHYS2VIRT_INFORMATION → Nat → Nat → Page → VMMOB_PHYS2VIRT_INFORMATION)
    (vaBase iPML : Nat) (PTEs : Page) (i : Nat) (pP2V : VMMOB_PHYS2VIRT_INFORMATION) :
    VMMOB_PHYS2VIRT_INFORMATION × Bool :=
  let pte := pdw PTEs i
  if MMX86_PTE_IS_VALID pte = 0 then (pP2V, false)
  else if pte &&& 0xfffff000 > paMax then (pP2V, false)
  else if fUserOnly = true ∧ pte &&& 0x04 = 0 then (pP2V, false)
  else
    let va := (vaBase + (i <<< MMX86_PAGETABLEMAP_PML_REGION_SIZE iPML) % 2 ^ 32) % 2 ^ 32
    if iPML = 1 then
      if pte &&& 0xfffff000 = pP2V.paTarget &&& 0xfffff000 then
        let next := Phys2Virt_Append pP2V (va ||| (pP2V.paTarget &&& 0xfff))
        (next, decide (next.cvaList = VMM_PHYS2VIRT_INFORMATION_MAX_PROCESS_RESULT))
      else (pP2V, false)
    else if pte &&& 0x80 ≠ 0 then
      if Phys2Virt_LargePageBase pte = pP2V.paTarget &&& 0xffc00000 then
        let next := Phys2Virt_Append pP2V (va ||| (pP2V.paTarget &&& 0x3fffff))
        (next, decide (next.cvaList = VMM_PHYS2VIRT_INFORMATION_MAX_PROCESS_RESULT))
      else (pP2V, false)
    else if fUserOnly = true ∧ pte &&& 0x04 = 0 then (pP2V, false)
    else
      match tlb (pte &&& 0xfffff000) with
      | none => (pP2V, false)
      | some pObNextPT =>
        let next := recurse pP2V va 1 pObNextPT
        (next, decide (next.cvaList = VMM_PHYS2VIRT_INFORMATION_MAX_PROCESS_RESULT))

/-- The loop `for(i = 0; i < 1024; i++)` of `MmX86_Phys2VirtGetInformation_Index` with a
body that may return: `n` iterations starting at the index `i`. -/
def Phys2Virt_Loop
    (body : Nat → VMMOB_PHYS2VIRT_INFORMATION → VMMOB_PHYS2VIRT_INFORMATION × Bool) :
    Nat → Nat → VMMOB_PHYS2VIRT_INFORMATION → VMMOB_PHYS2VIRT_INFORMATION
  | 0, _, p => p
  | n + 1, i, p =>
    match body i p with
    | (next, true) => next
    | (next, false) => Phys2Virt_Loop body n (i + 1) next

/-- The function `MmX86_Phys2VirtGetInformation_Index`: the state of `*pP2V` after the
call. The call of `VmmTlbSpider` at lines 318-320 is a warm-up of the page-table cache; it
does not change what `VmmTlbGetPageTable(H, pa, FALSE)` returns and it touches no field of
`*pP2V`, so it has no counterpart here. -/
def MmX86_Phys2VirtGetInformation_Index (tlb : Tlb)
    (VMM_PHYS2VIRT_INFORMATION_MAX_PROCESS_RESULT : Nat) (fUserOnly : Bool) (paMax : Nat) :
    Nat → VMMOB_PHYS2VIRT_INFORMATION → Nat → Nat → Page → VMMOB_PHYS2VIRT_INFORMATION
  | 0, pP2V, _, _, _ => pP2V
  | fuel + 1, pP2V, vaBase, iPML, PTEs =>
    Phys2Virt_Loop
      (Phys2Virt_Entry tlb VMM_PHYS2VIRT_INFORMATION_MAX_PROCESS_RESULT fUserOnly paMax
        (MmX86_Phys2VirtGetInformation_Index tlb
          VMM_PHYS2VIRT_INFORMATION_MAX_PROCESS_RESULT fUserOnly paMax fuel)
        vaBase iPML PTEs) 1024 0 pP2V

/-- The function `MmX86_Phys2VirtGetInformation`: the state of `*pP2V` after the call;
`paMax` is `H->dev.paMax`. -/
def MmX86_Phys2VirtGetInformation (tlb : Tlb)
    (VMM_PHYS2VIRT_INFORMATION_MAX_PROCESS_RESULT paMax fuel : Nat)
    (pProcess : VMM_PROCESS) (pP2V : VMMOB_PHYS2VIRT_INFORMATION) :
    VMMOB_PHYS2VIRT_INFORMATION :=
  if pP2V.cvaList = VMM_PHYS2VIRT_INFORMATION_MAX_PROCESS_RESULT ∨ pP2V.paTarget > paMax then
    pP2V
  else
    match tlb (pProcess.paDTB &&& 0xfffff000) with
    | none => pP2V
    | some pObPD =>
      MmX86_Phys2VirtGetInformation_Index tlb VMM_PHYS2VIRT_INFORMATION_MAX_PROCESS_RESULT
        pProcess.fUserOnly paMax fuel pP2V 0 2 pObPD

/-- The match of the page-table slot `j`, as the specification words it: if the slot is
accessible (present, frame at most `paMax`, passes the privilege filter) and its frame is
the 4KB frame that contains the target, the virtual address of the slot plus the offset of
the target in its 4KB page. -/
def Phys2Virt_MatchesEntry (fUserOnly : Bool) (paMax paTarget vaBase : Nat) (pt : Page)
    (j : Nat) : List Nat :=
  if pdw pt j &&& 0x01 ≠ 0 ∧ pdw pt j &&& 0xfffff000 ≤ paMax ∧
      (fUserOnly = true → pdw pt j &&& 0x04 ≠ 0) ∧
      pdw pt j &&& 0xfffff000 = paTarget / 4096 * 4096 then
    [vaBase + j * 4096 + paTarget % 4096]
  else []

/-- The 4KB matches of one page table, in slot order. -/
def Phys2Virt_MatchesTable (fUserOnly : Bool) (paMax paTarget vaBase : Nat) (pt : Page) :
    List Nat :=
  (List.range 1024).flatMap (Phys2Virt_MatchesEntry fUserOnly paMax paTarget vaBase pt)

/-- The matches below the directory slot `i`, as the specification words them: nothing for
a slot that is not accessible; for a 4MB leaf whose frame is the 4MB frame that contains
the target, the base of the slot plus the offset of the target in its 4MB page; for a slot
that maps an available page table, the matches of that table. -/
def Phys2Virt_MatchesSlot (tlb : Tlb) (fUserOnly : Bool) (paMax paTarget : Nat) (pd : Page)
    (i : Nat) : List Nat :=
  if pdw pd i &&& 0x01 ≠ 0 ∧ pdw pd i &&& 0xfffff000 ≤ paMax ∧
      (fUserOnly = true → pdw pd i &&& 0x04 ≠ 0) then
    if pdw pd i &&& 0x80 ≠ 0 then
      if Phys2Virt_LargePageBase (pdw pd i) = paTarget / 4194304 * 4194304 then
        [i * 4194304 + paTarget % 4194304]
      else []
    else
      match tlb (pdw pd i &&& 0xfffff000) with
      | none => []
      | some pt => Phys2Virt_MatchesTable fUserOnly paMax paTarget (i * 4194304) pt
  else []

/-- The matching virtual addresses of a reverse query in scan order (directory slot by
directory slot, and page-table slot by page-table slot below each): no match when the
directory page is not available. -/
def Phys2Virt_Matches (tlb : Tlb) (paMax : Nat) (pProcess : VMM_PROCESS) (paTarget : Nat) :
    List Nat :=
  match tlb (pProcess.paDTB &&& 0xfffff000) with
  | none => []
  | some pd =>
    (List.range 1024).flatMap
      (Phys2Virt_MatchesSlot tlb pProcess.fUserOnly paMax paTarget pd)

/-- The state after appending the values of a list one after the other. -/
def Phys2Virt_AppendAll (pP2V : VMMOB_PHYS2VIRT_INFORMATION) (l : List Nat) :
    VMMOB_PHYS2VIRT_INFORMATION :=
  l.foldl Phys2Virt_Append pP2V

/-- A page directory whose only entry, at index 5, is a 4MB page at physical `0x00c00000`
with the reserved bit 21 set. -/
def dirReservedBit21 : Page := fun i => if i = 5 then 0x00e00087 else 0

/-- A cache that holds `dirReservedBit21` at physical address `0x1000` and nothing else. -/
def tlbReservedBit21 : Tlb := fun pa => if pa = 0x1000 then some dirReservedBit21 else none

/-- An empty reverse query for the physical page `0x00c00000`. -/
def queryLargeFrame : VMMOB_PHYS2VIRT_INFORMATION :=
  { paTarget := 0x00c00000, cvaList := 0, pvaList := fun _ => 0 }

/-- A page table whose slots 1, 2 and 4 map the frame `0x5000` and whose slot 3 maps the
frame `0x6000`. -/
def tableThreeMatches : Page := fun i =>
  if i = 1 ∨ i = 2 ∨ i = 4 then 0x5007 else if i = 3 then 0x6007 else 0

/-- A cache with the directory `dirTableAt0` at `0x1000` and the page table
`tableThreeMatches` at physical address `0`. -/
def tlbThreeMatches : Tlb := fun pa =>
  if pa = 0x1000 then some dirTableAt0 else if pa = 0 then some tableThreeMatches else none

/-- An empty reverse query for the physical address `0x5123`. -/
def queryFrame5 : VMMOB_PHYS2VIRT_INFORMATION :=
  { paTarget := 0x5123, cvaList := 0, pvaList := fun _ => 0 }

/-- An empty reverse query for the physical address `0x100005123`, above the 32-bit
range. -/
def queryWideFrame5 : VMMOB_PHYS2VIRT_INFORMATION :=
  { paTarget := 0x100005123, cvaList := 0, pvaList := fun _ => 0 }

/-- An empty reverse query for the physical address `0x100c00000`, the base of the 4MB
page of the directory entry `0x00c02087`. -/
def queryWideLarge : VMMOB_PHYS2VIRT_INFORMATION :=
  { paTarget := 0x100c00000, cvaList := 0, pvaList := fun _ => 0 }

/-- The entry `VMM_MAP_VADEXENTRY`, restricted to the fields `mm_x86.c` uses: the virtual
address `va`, the resolved address `pa`, the attribute byte `flags`, the type `tp`, the raw
entry `pte` and the paging level `iPML`. -/
structure VMM_MAP_VADEXENTRY where
  va : Nat
  pa : Nat
  flags : Nat
  tp : Nat
  pte : Nat
  iPML : Nat
  deriving DecidableEq

/-- The entry sequence `VMMOB_MAP_VADEX`: the count `cMap` and the array `pMap`, indexed
from 0 to `cMap - 1`. -/
structure VMMOB_MAP_VADEX where
  cMap : Nat
  pMap : Nat → VMM_MAP_VADEXENTRY

/-- The constants `MmX86_Virt2PhysVadEx` uses that are not defined in `mm_x86.c`. -/
structure VadExConstants where
  VADEXENTRY_FLAG_HARDWARE : Nat
  VADEXENTRY_FLAG_W : Nat
  VADEXENTRY_FLAG_K : Nat
  VMM_MEMMAP_PAGE_W : Nat
  VMM_MEMMAP_PAGE_NS : Nat
  VMM_PTE_TP_HARDWARE : Nat

/-- The state `MmX86_Virt2PhysVadEx` works on: the sequence `*pVadEx`, the current index
`*piVadEx`, and a log of the indices of `pMap` the code has read or written so far. -/
structure VadExState where
  pVadEx : VMMOB_MAP_VADEX
  piVadEx : Nat
  accessed : List Nat

/-- The statements of lines 248-266 for a slot value `pte` that does not lead to the call
of line 251: the content of `*peVadEx` at the label `next_check`, from its content `e`
after line 245. The attribute byte `flags` is a `BYTE`. -/
def VadEx_Resolve (c : VadExConstants) (iPML pte : Nat) (e : VMM_MAP_VADEXENTRY) :
    VMM_MAP_VADEXENTRY :=
  if MMX86_PTE_IS_VALID pte = 0 then e
  else if pte &&& 0x04 = 0 then e
  else
    let flags :=
      (c.VADEXENTRY_FLAG_HARDWARE |||
        (if pte &&& c.VMM_MEMMAP_PAGE_W ≠ 0 then c.VADEXENTRY_FLAG_W else 0) |||
        (if pte &&& c.VMM_MEMMAP_PAGE_NS ≠ 0 then 0 else c.VADEXENTRY_FLAG_K)) % 2 ^ 8
    if iPML = 1 then
      { e with flags := flags, pa := pte &&& 0xfffff000, tp := c.VMM_PTE_TP_HARDWARE }
    else if pte &&& 0x003e0000 = 0 then
      { e with
        flags := flags
        pa := Virt2Phys_LargePageBase pte + (e.va &&& 0x003ff000)
        tp := c.VMM_PTE_TP_HARDWARE }
    else e

/-- The code of `MmX86_Virt2PhysVadEx` from the label `next_entry` on, for the fetched
table `pObPTEs`; every pass through the label uses one unit of `fuel` and `none` is the
result when the fuel runs out. `recurse` stands for the call of the function itself at
line 251, with the arguments `paPT = pte` and `iPML = 1`. -/
def VadEx_NextEntry (c : VadExConstants) (recurse : Nat → VadExState → Option VadExState)
    (pObPTEs : Page) (iPML : Nat) : Nat → VadExState → Option VadExState
  | 0, _ => none
  | fuel + 1, s =>
    let iVadEx := s.piVadEx
    let peVadEx := s.pVadEx.pMap iVadEx
    let cleared : VMM_MAP_VADEXENTRY := { peVadEx with flags := 0 }
    let iPte := 0x3ff &&& (peVadEx.va >>> MMX86_PAGETABLEMAP_PML_REGION_SIZE iPML)
    let pte := pdw pObPTEs iPte
    if MMX86_PTE_IS_VALID pte ≠ 0 ∧ pte &&& 0x04 ≠ 0 ∧ iPML = 2 ∧ pte &&& 0x80 = 0 then
      recurse pte
        { s with
          pVadEx := { s.pVadEx with pMap := Function.update s.pVadEx.pMap iVadEx cleared }
          accessed := s.accessed ++ [iVadEx] }
    else
      let checked : VMM_MAP_VADEXENTRY :=
        { VadEx_Resolve c iPML pte cleared with pte := pte, iPML := iPML }
      let pMap := Function.update s.pVadEx.pMap iVadEx checked
      let next : VadExState :=
        { pVadEx := { s.pVadEx with pMap := pMap }
          piVadEx := (s.piVadEx + 1) % 2 ^ 32
          accessed := s.accessed ++ [iVadEx] }
      if iPML = 1 ∧ iPte < 0x3ff ∧ (iVadEx + 1) % 2 ^ 32 < s.pVadEx.cMap then
        if (checked.va + 0x1000) % 2 ^ 64 = (pMap ((iVadEx + 1) % 2 ^ 32)).va then
          VadEx_NextEntry c recurse pObPTEs iPML fuel
            { next with accessed := next.accessed ++ [(iVadEx + 1) % 2 ^ 32] }
        else some { next with accessed := next.accessed ++ [(iVadEx + 1) % 2 ^ 32] }
      else some next

/-- The function `MmX86_Virt2PhysVadEx`: the state after the call, `none` when the fuel
runs out. The fuel bounds the call depth and the number of passes through `next_entry`. -/
def MmX86_Virt2PhysVadEx (tlb : Tlb) (c : VadExConstants) :
    Nat → Nat → Nat → VadExState → Option VadExState
  | 0, _, _, _ => none
  | fuel + 1, paPT, iPML, s =>
    let iPML := if iPML = 255 then 2 else iPML
    let skipped : VadExState :=
      { s with piVadEx := (s.piVadEx + 1) % 2 ^ 32, accessed := s.accessed ++ [s.piVadEx] }
    if (s.pVadEx.pMap s.piVadEx).va > 0xffffffff ∨ paPT > 0xffffffff then some skipped
    else
      match tlb (paPT &&& 0xfffff000) with
      | none => some skipped
      | some pObPTEs =>
        VadEx_NextEntry c (fun pte s' => MmX86_Virt2PhysVadEx tlb c fuel pte 1 s')
          pObPTEs iPML (fuel + 1) { s with accessed := s.accessed ++ [s.piVadEx] }

/-- Modelled from the spec: the caller of `MmX86_Virt2PhysVadEx` is not part of
`mm_x86.c`. Per the specification the walker is driven "from the directory level over the
whole sequence", called again from the current index until the index reaches the entry
count; `rounds` bounds the number of calls. -/
def VadEx_Drive (tlb : Tlb) (c : VadExConstants) (paDTB fuel : Nat) :
    Nat → VadExState → Option VadExState
  | 0, s => if s.piVadEx < s.pVadEx.cMap then none else some s
  | rounds + 1, s =>
    if s.piVadEx < s.pVadEx.cMap then
      match MmX86_Virt2PhysVadEx tlb c fuel paDTB 2 s with
      | none => none
      | some s' => VadEx_Drive tlb c paDTB fuel rounds s'
    else some s

/-- The one-entry sequence that holds the entry `e`, with the index at 0. -/
def VadEx_Alone (e : VMM_MAP_VADEXENTRY) : VadExState :=
  { pVadEx := { cMap := 1, pMap := fun _ => e }, piVadEx := 0, accessed := [] }

/-- The content of an entry after a walk at the page-table level that found the table
`pt`: lines 245-269 with `iPML = 1`. -/
def VadEx_TableEntry (c : VadExConstants) (pt : Page) (e : VMM_MAP_VADEXENTRY) :
    VMM_MAP_VADEXENTRY :=
  { VadEx_Resolve c 1 (pdw pt (0x3ff &&& (e.va >>> 12))) { e with flags := 0 } with
    pte := pdw pt (0x3ff &&& (e.va >>> 12)), iPML := 1 }

/-- The content of an entry after a walk of that entry alone from the directory at
`paPT`: unchanged when the early-exit guard of line 238 applies at the directory level;
with the attribute byte cleared and nothing else changed when it applies at the
page-table level; the result of lines 245-269 for the last slot read otherwise. -/
def VadEx_DirEntry (tlb : Tlb) (c : VadExConstants) (paPT : Nat) (e : VMM_MAP_VADEXENTRY) :
    VMM_MAP_VADEXENTRY :=
  if e.va > 0xffffffff ∨ paPT > 0xffffffff then e
  else
    match tlb (paPT &&& 0xfffff000) with
    | none => e
    | some pd =>
      let pde := pdw pd (0x3ff &&& (e.va >>> 22))
      if MMX86_PTE_IS_VALID pde ≠ 0 ∧ pde &&& 0x04 ≠ 0 ∧ pde &&& 0x80 = 0 then
        match tlb (pde &&& 0xfffff000) with
        | none => { e with flags := 0 }
        | some pt => VadEx_TableEntry c pt e
      else
        { VadEx_Resolve c 2 pde { e with flags := 0 } with pte := pde, iPML := 2 }

/-- The constants with the values of the MemProcFS headers: flag bits 1, 2 and 4 for
hardware, writable and kernel-only, the page bits `0x02` (writable) and `0x04`
(not-supervisor), and the type tag 1. -/
def vadExConstants : VadExConstants :=
  { VADEXENTRY_FLAG_HARDWARE := 1, VADEXENTRY_FLAG_W := 2, VADEXENTRY_FLAG_K := 4,
    VMM_MEMMAP_PAGE_W := 0x02, VMM_MEMMAP_PAGE_NS := 0x04, VMM_PTE_TP_HARDWARE := 1 }

/-- An entry for the virtual address `va` with stale content in every other field. -/
def vadExStale (va : Nat) : VMM_MAP_VADEXENTRY :=
  { va := va, pa := 0x7000, flags := 0xff, tp := 7, pte := 0x7007, iPML := 7 }

/-- A cache that holds the directory `dirNarrow` at `0x1000` and no page table: the table
at `0x2000` that directory entry 0 points to is not available. -/
def tlbDirOnly : Tlb := fun pa => if pa = 0x1000 then some dirNarrow else none

/-- A sequence of three stale entries for the consecutive pages `0x1000`, `0x2000` and
`0x3000`, with the index at 0. -/
def vadExThree : VadExState :=
  { pVadEx := { cMap := 3, pMap := fun k => vadExStale ((k + 1) * 0x1000) },
    piVadEx := 0, accessed := [] }

/-- The outcome of a walk that started in the state `s` and ended in the state `s'`: the
index moved forward and stayed within the sequence, the count is as before, the entries
stepped past hold `f` of their former content and all others are as before, and every
index added to the access log is below the count. -/
def VadEx_Advanced (f : VMM_MAP_VADEXENTRY → VMM_MAP_VADEXENTRY) (s s' : VadExState) : Prop :=
  s.piVadEx < s'.piVadEx ∧ s'.piVadEx ≤ s.pVadEx.cMap ∧ s'.pVadEx.cMap = s.pVadEx.cMap ∧
  (∀ k, s'.pVadEx.pMap k =
    if s.piVadEx ≤ k ∧ k < s'.piVadEx then f (s.pVadEx.pMap k) else s.pVadEx.pMap k) ∧
  ∃ l, s'.accessed = s.accessed ++ l ∧ ∀ k ∈ l, k < s.pVadEx.cMap

/-- The raw value of the last paging entry read for the address `va` by a walk from the
directory at `paPT`, and the level of that entry, for a walk that the early-exit guard of
line 238 does not cut short: the page-table entry at level 1 when the directory entry is
present, user-accessible and not a large page and the page table is available, the
directory entry at level 2 when it is not such an entry; `none` when the guard applies
(address or table base above `0xffffffff`, or directory or page table not available). -/
def VadEx_LastEntry (tlb : Tlb) (paPT va : Nat) : Option (Nat × Nat) :=
  if va > 0xffffffff ∨ paPT > 0xffffffff then none
  else
    match tlb (paPT &&& 0xfffff000) with
    | none => none
    | some pd =>
      let pde := pdw pd (0x3ff &&& (va >>> 22))
      if MMX86_PTE_IS_VALID pde ≠ 0 ∧ pde &&& 0x04 ≠ 0 ∧ pde &&& 0x80 = 0 then
        match tlb (pde &&& 0xfffff000) with
        | none => none
        | some pt => some (pdw pt (0x3ff &&& (va >>> 12)), 1)
      else some (pde, 2)

theorem pdw_lt (pg : Page) (i : Nat) : pdw pg i < 2 ^ 32 :=
  Nat.mod_lt _ (by norm_num)

/-- One unfolding of the translator at the table level. -/
theorem Virt2Phys_level1 (tlb : Tlb) (fuel paPT : Nat) (fUserOnly : Bool) (va ppa : Nat) :
    MmX86_Virt2Phys tlb (fuel + 1) paPT fUserOnly 1 va ppa =
      if va > 0xffffffff then (false, ppa)
      else if paPT > 0xffffffff then (false, ppa)
      else match tlb (paPT &&& 0xfffff000) with
        | none => (false, ppa)
        | some pt =>
          if pdw pt ((va >>> 12) &&& 0x3ff) &&& 0x01 = 0 then
            (false, pdw pt ((va >>> 12) &&& 0x3ff))
          else if fUserOnly = true ∧ pdw pt ((va >>> 12) &&& 0x3ff) &&& 0x04 = 0 then
            (false, ppa)
          else (true, pdw pt ((va >>> 12) &&& 0x3ff) &&& 0xfffff000) := by
  simp only [MmX86_Virt2Phys, MMX86_PAGETABLEMAP_PML_REGION_SIZE, MMX86_PTE_IS_VALID,
    Nat.land_comm 0x3ff]
  split_ifs <;> first | rfl | (split <;> simp_all)

/-- One unfolding of the translator at the directory level. -/
theorem Virt2Phys_level2 (tlb : Tlb) (fuel paPT : Nat) (fUserOnly : Bool) (iPML va ppa : Nat)
    (hl : iPML = 2 ∨ iPML = 255) :
    MmX86_Virt2Phys tlb (fuel + 2) paPT fUserOnly iPML va ppa =
      if va > 0xffffffff then (false, ppa)
      else if paPT > 0xffffffff then (false, ppa)
      else match tlb (paPT &&& 0xfffff000) with
        | none => (false, ppa)
        | some pd =>
          if pdw pd ((va >>> 22) &&& 0x3ff) &&& 0x01 = 0 then (false, ppa)
          else if fUserOnly = true ∧ pdw pd ((va >>> 22) &&& 0x3ff) &&& 0x04 = 0 then
            (false, ppa)
          else if pdw pd ((va >>> 22) &&& 0x3ff) &&& 0x80 = 0 then
            MmX86_Virt2Phys tlb (fuel + 1) (pdw pd ((va >>> 22) &&& 0x3ff)) fUserOnly 1 va ppa
          else if pdw pd ((va >>> 22) &&& 0x3ff) &&& 0x003e0000 ≠ 0 then (false, ppa)
          else
            (true, ((pdw pd ((va >>> 22) &&& 0x3ff) &&& 0x0001e000) <<< 19)
              + (pdw pd ((va >>> 22) &&& 0x3ff) &&& 0xffc00000) + (va &&& 0x003ff000)) := by
  have h2 : (if iPML = 255 then 2 else iPML) = 2 := by
    rcases hl with h | h <;> simp [h]
  rw [MmX86_Virt2Phys]
  simp only [h2, MMX86_PAGETABLEMAP_PML_REGION_SIZE, MMX86_PTE_IS_VALID, Nat.land_comm 0x3ff]
  split_ifs <;> first | rfl | (split <;> simp_all)

/-- The table-level translation succeeds exactly when the entry is present and passes the
privilege filter. -/
theorem Virt2Phys_level1_iff (tlb : Tlb) (fuel paPT : Nat) (fUserOnly : Bool) (va ppa : Nat) :
    (MmX86_Virt2Phys tlb (fuel + 1) paPT fUserOnly 1 va ppa).1 = true ↔
      va ≤ 0xffffffff ∧ paPT ≤ 0xffffffff ∧
      ∃ pt, tlb (paPT &&& 0xfffff000) = some pt ∧
        pdw pt ((va >>> 12) &&& 0x3ff) &&& 0x01 ≠ 0 ∧
        (fUserOnly = true → pdw pt ((va >>> 12) &&& 0x3ff) &&& 0x04 ≠ 0) := by
  rw [Virt2Phys_level1]
  by_cases hva : va > 0xffffffff
  · simp only [hva, if_true]
    constructor
    · intro h; cases h
    · rintro ⟨h, -⟩; omega
  by_cases hpa : paPT > 0xffffffff
  · simp only [hva, hpa, if_true, if_false]
    constructor
    · intro h; cases h
    · rintro ⟨-, h, -⟩; omega
  simp only [hva, hpa, if_false]
  have hva2 : va ≤ 0xffffffff := by omega
  have hpa2 : paPT ≤ 0xffffffff := by omega
  cases hpt : tlb (paPT &&& 0xfffff000) with
  | none => simp
  | some pt =>
    simp only [Option.some.injEq, exists_eq_left']
    generalize pdw pt ((va >>> 12) &&& 0x3ff) = pte
    by_cases g1 : pte &&& 0x01 = 0
    · rw [if_pos g1]
      constructor
      · intro h; cases h
      · rintro ⟨-, -, h, -⟩; exact absurd g1 h
    rw [if_neg g1]
    by_cases g4 : fUserOnly = true ∧ pte &&& 0x04 = 0
    · rw [if_pos g4]
      constructor
      · intro h; cases h
      · rintro ⟨-, -, -, h⟩; exact absurd g4.2 (h g4.1)
    · rw [if_neg g4]
      exact ⟨fun _ => ⟨hva2, hpa2, g1, fun hu hz => g4 ⟨hu, hz⟩⟩, fun _ => rfl⟩

/-- The directory-level translation succeeds exactly under the documented condition. -/
theorem Virt2Phys_dir_iff (tlb : Tlb) (fuel paPT : Nat) (fUserOnly : Bool) (iPML va ppa : Nat)
    (hl : iPML = 2 ∨ iPML = 255) :
    (MmX86_Virt2Phys tlb (fuel + 2) paPT fUserOnly iPML va ppa).1 = true ↔
      Virt2PhysSucceeds tlb paPT fUserOnly va := by
  rw [Virt2Phys_level2 _ _ _ _ _ _ _ hl]
  unfold Virt2PhysSucceeds
  by_cases hva : va > 0xffffffff
  · simp only [hva, if_true]
    constructor
    · intro h; cases h
    · rintro ⟨h, -⟩; omega
  by_cases hpa : paPT > 0xffffffff
  · simp only [hva, hpa, if_true, if_false]
    constructor
    · intro h; cases h
    · rintro ⟨-, h, -⟩; omega
  simp only [hva, hpa, if_false]
  have hva2 : va ≤ 0xffffffff := by omega
  have hpa2 : paPT ≤ 0xffffffff := by omega
  cases hpd : tlb (paPT &&& 0xfffff000) with
  | none => simp
  | some pd =>
    have hlt := pdw_lt pd ((va >>> 22) &&& 0x3ff)
    simp only [Option.some.injEq, exists_eq_left']
    generalize pdw pd ((va >>> 22) &&& 0x3ff) = pde at hlt ⊢
    have hpde : pde ≤ 0xffffffff := by omega
    by_cases h1 : pde &&& 0x01 = 0
    · rw [if_pos h1]
      constructor
      · intro h; cases h
      · rintro ⟨-, -, h, -⟩; exact absurd h1 h
    rw [if_neg h1]
    by_cases h4 : fUserOnly = true ∧ pde &&& 0x04 = 0
    · rw [if_pos h4]
      constructor
      · intro h; cases h
      · rintro ⟨-, -, -, h, -⟩
        exact absurd h4.2 (h h4.1)
    rw [if_neg h4]
    have h4b : fUserOnly = true → pde &&& 0x04 ≠ 0 := fun hu hz => h4 ⟨hu, hz⟩
    by_cases h80 : pde &&& 0x80 = 0
    · rw [if_pos h80, Virt2Phys_level1_iff]
      constructor
      · rintro ⟨-, -, h⟩
        exact ⟨hva2, hpa2, h1, h4b, Or.inr ⟨h80, h⟩⟩
      · rintro ⟨-, -, -, -, h⟩
        rcases h with ⟨h, -⟩ | ⟨-, h⟩
        · exact absurd h80 h
        · exact ⟨hva2, hpde, h⟩
    · rw [if_neg h80]
      by_cases hr : pde &&& 0x003e0000 ≠ 0
      · rw [if_pos hr]
        constructor
        · intro h; cases h
        · rintro ⟨-, -, -, -, h⟩
          rcases h with ⟨-, h⟩ | ⟨h, -⟩
          · exact absurd h hr
          · exact absurd h h80
      · rw [if_neg hr]
        exact ⟨fun _ => ⟨hva2, hpa2, h1, h4b, Or.inl ⟨h80, not_not.mp hr⟩⟩, fun _ => rfl⟩

/-! ## Mask arithmetic -/

/-- Masking with a run of `k` one-bits that starts at bit `s`. -/
theorem land_shifted_mask (x k s : Nat) :
    x &&& ((2 ^ k - 1) <<< s) = ((x >>> s) % 2 ^ k) <<< s := by
  apply Nat.eq_of_testBit_eq
  intro i
  simp only [Nat.testBit_and, Nat.testBit_shiftLeft, Nat.testBit_two_pow_sub_one,
    Nat.testBit_mod_two_pow, Nat.testBit_shiftRight]
  by_cases h : s ≤ i
  · have e : s + (i - s) = i := by omega
    simp [h, e, Bool.and_comm]
  · simp [h]

theorem land_fffff000 (x : Nat) : x &&& 0xfffff000 = x / 4096 % 1048576 * 4096 := by
  have h := land_shifted_mask x 20 12
  simpa [Nat.shiftLeft_eq, Nat.shiftRight_eq_div_pow] using h

theorem land_ffc00000 (x : Nat) : x &&& 0xffc00000 = x / 4194304 % 1024 * 4194304 := by
  have h := land_shifted_mask x 10 22
  simpa [Nat.shiftLeft_eq, Nat.shiftRight_eq_div_pow] using h

theorem land_003ff000 (x : Nat) : x &&& 0x003ff000 = x / 4096 % 1024 * 4096 := by
  have h := land_shifted_mask x 10 12
  simpa [Nat.shiftLeft_eq, Nat.shiftRight_eq_div_pow] using h

theorem land_0001e000 (x : Nat) : x &&& 0x0001e000 = x / 8192 % 16 * 8192 := by
  have h := land_shifted_mask x 4 13
  simpa [Nat.shiftLeft_eq, Nat.shiftRight_eq_div_pow] using h

theorem land_3ff (x : Nat) : x &&& 0x3ff = x % 1024 := by
  have h := Nat.and_pow_two_sub_one_eq_mod x 10
  simpa using h

/-! ## The single translator: claims C2, C3, C4 -/

/-- C2 (counterexample): in the scenario of the specification — a directory whose entry 5
is a 4MB page at `0x00c00000` and the address `0x01400000 + 0x123` — the translation
succeeds and returns `0x00c00000`, the base of the 4KB page, and not the base plus
`0x123`: the offset inside the page is not part of the result. -/
theorem C2_counterexample :
    (MmX86_Virt2Phys tlbLargeAt5 2 0x1000 true 2 (0x01400000 + 0x123) 0).1 = true ∧
    (MmX86_Virt2Phys tlbLargeAt5 2 0x1000 true 2 (0x01400000 + 0x123) 0).2 = 0x00c00000 ∧
    (MmX86_Virt2Phys tlbLargeAt5 2 0x1000 true 2 (0x01400000 + 0x123) 0).2 ≠
      0x00c00000 + ((0x01400000 + 0x123) &&& 0x3fffff) := by
  decide

/-- The result of a successful translation started at the directory level: the frame of
the table entry, or the large page's base plus `va & 0x003ff000`; it is 4KB-aligned. -/
theorem Virt2Phys_dir_page_base (tlb : Tlb) (fuel paPT : Nat) (fUserOnly : Bool)
    (iPML va ppa : Nat) (hl : iPML = 2 ∨ iPML = 255)
    (hs : (MmX86_Virt2Phys tlb (fuel + 2) paPT fUserOnly iPML va ppa).1 = true) :
    (∃ pd, tlb (paPT &&& 0xfffff000) = some pd ∧
      ((pdw pd ((va >>> 22) &&& 0x3ff) &&& 0x80 ≠ 0 ∧
          pdw pd ((va >>> 22) &&& 0x3ff) &&& 0x003e0000 = 0 ∧
          (MmX86_Virt2Phys tlb (fuel + 2) paPT fUserOnly iPML va ppa).2 =
            ((pdw pd ((va >>> 22) &&& 0x3ff) &&& 0x0001e000) <<< 19)
              + (pdw pd ((va >>> 22) &&& 0x3ff) &&& 0xffc00000) + (va &&& 0x003ff000)) ∨
        (pdw pd ((va >>> 22) &&& 0x3ff) &&& 0x80 = 0 ∧
          ∃ pt, tlb (pdw pd ((va >>> 22) &&& 0x3ff) &&& 0xfffff000) = some pt ∧
            (MmX86_Virt2Phys tlb (fuel + 2) paPT fUserOnly iPML va ppa).2 =
              pdw pt ((va >>> 12) &&& 0x3ff) &&& 0xfffff000))) ∧
    (MmX86_Virt2Phys tlb (fuel + 2) paPT fUserOnly iPML va ppa).2 % 4096 = 0 := by
  rw [Virt2Phys_level2 _ _ _ _ _ _ _ hl] at hs ⊢
  by_cases hva : va > 0xffffffff
  · rw [if_pos hva] at hs; cases hs
  rw [if_neg hva] at hs ⊢
  by_cases hpa : paPT > 0xffffffff
  · rw [if_pos hpa] at hs; cases hs
  rw [if_neg hpa] at hs ⊢
  cases hpd : tlb (paPT &&& 0xfffff000) with
  | none => rw [hpd] at hs; cases hs
  | some pd =>
    rw [hpd] at hs
    simp only [Option.some.injEq, exists_eq_left'] at hs ⊢
    have hlt := pdw_lt pd ((va >>> 22) &&& 0x3ff)
    generalize pdw pd ((va >>> 22) &&& 0x3ff) = pde at hlt hs ⊢
    by_cases h1 : pde &&& 0x01 = 0
    · rw [if_pos h1] at hs; cases hs
    rw [if_neg h1] at hs ⊢
    by_cases h4 : fUserOnly = true ∧ pde &&& 0x04 = 0
    · rw [if_pos h4] at hs; cases hs
    rw [if_neg h4] at hs ⊢
    by_cases h80 : pde &&& 0x80 = 0
    · rw [if_pos h80] at hs ⊢
      rw [Virt2Phys_level1] at hs ⊢
      have hpde : ¬ pde > 0xffffffff := by omega
      rw [if_neg hva, if_neg hpde] at hs ⊢
      cases hpt : tlb (pde &&& 0xfffff000) with
      | none => rw [hpt] at hs; cases hs
      | some pt =>
        rw [hpt] at hs
        simp only [Option.some.injEq, exists_eq_left'] at hs ⊢
        generalize pdw pt ((va >>> 12) &&& 0x3ff) = pte at hs ⊢
        by_cases g1 : pte &&& 0x01 = 0
        · rw [if_pos g1] at hs; cases hs
        rw [if_neg g1] at hs ⊢
        by_cases g4 : fUserOnly = true ∧ pte &&& 0x04 = 0
        · rw [if_pos g4] at hs; cases hs
        rw [if_neg g4]
        refine ⟨Or.inr ⟨h80, rfl⟩, ?_⟩
        show (pte &&& 0xfffff000) % 4096 = 0
        rw [land_fffff000]; omega
    · rw [if_neg h80] at hs ⊢
      by_cases hr : pde &&& 0x003e0000 ≠ 0
      · rw [if_pos hr] at hs; cases hs
      rw [if_neg hr]
      refine ⟨Or.inl ⟨h80, not_not.mp hr, rfl⟩, ?_⟩
      show ((pde &&& 0x0001e000) <<< 19 + (pde &&& 0xffc00000) + (va &&& 0x003ff000)) % 4096 = 0
      rw [land_0001e000, land_ffc00000, land_003ff000, Nat.shiftLeft_eq]
      omega

/-- A successful translation started at the page-table level returns the frame of the
table entry. -/
theorem Virt2Phys_table_success (tlb : Tlb) (fuel paPT : Nat) (fUserOnly : Bool)
    (va ppa : Nat)
    (hs : (MmX86_Virt2Phys tlb (fuel + 1) paPT fUserOnly 1 va ppa).1 = true) :
    ∃ pt, tlb (paPT &&& 0xfffff000) = some pt ∧
      (MmX86_Virt2Phys tlb (fuel + 1) paPT fUserOnly 1 va ppa).2 =
        pdw pt ((va >>> 12) &&& 0x3ff) &&& 0xfffff000 := by
  rw [Virt2Phys_level1] at hs ⊢
  by_cases hva : va > 0xffffffff
  · rw [if_pos hva] at hs; cases hs
  rw [if_neg hva] at hs ⊢
  by_cases hpa : paPT > 0xffffffff
  · rw [if_pos hpa] at hs; cases hs
  rw [if_neg hpa] at hs ⊢
  cases hpt : tlb (paPT &&& 0xfffff000) with
  | none => rw [hpt] at hs; cases hs
  | some pt =>
    rw [hpt] at hs
    simp only [Option.some.injEq, exists_eq_left'] at hs ⊢
    generalize pdw pt ((va >>> 12) &&& 0x3ff) = pte at hs ⊢
    by_cases g1 : pte &&& 0x01 = 0
    · rw [if_pos g1] at hs; cases hs
    rw [if_neg g1] at hs ⊢
    by_cases g4 : fUserOnly = true ∧ pte &&& 0x04 = 0
    · rw [if_pos g4] at hs; cases hs
    rw [if_neg g4]

/-- A successful translation started with a level argument other than 1, 2 and `(BYTE)-1`
goes through the large-page branch of line 227. -/
theorem Virt2Phys_other_success (tlb : Tlb) (fuel paPT : Nat) (fUserOnly : Bool)
    (iPML va ppa : Nat) (h1 : iPML ≠ 1) (h2 : iPML ≠ 2) (h255 : iPML ≠ 255)
    (hs : (MmX86_Virt2Phys tlb (fuel + 1) paPT fUserOnly iPML va ppa).1 = true) :
    ∃ pte, (MmX86_Virt2Phys tlb (fuel + 1) paPT fUserOnly iPML va ppa).2 =
      Virt2Phys_LargePageBase pte + (va &&& 0x003ff000) := by
  rw [MmX86_Virt2Phys] at hs ⊢
  by_cases hva : va > 0xffffffff
  · rw [if_pos hva] at hs; cases hs
  rw [if_neg hva] at hs ⊢
  by_cases hpa : paPT > 0xffffffff
  · rw [if_pos hpa] at hs; cases hs
  rw [if_neg hpa] at hs ⊢
  simp only [if_neg h255] at hs ⊢
  cases hpt : tlb (paPT &&& 0xfffff000) with
  | none => rw [hpt] at hs; cases hs
  | some pt =>
    rw [hpt] at hs
    simp only [] at hs ⊢
    generalize pdw pt (0x3ff &&& (va >>> MMX86_PAGETABLEMAP_PML_REGION_SIZE iPML)) = pte
      at hs ⊢
    by_cases g1 : MMX86_PTE_IS_VALID pte = 0
    · rw [if_pos g1] at hs; cases hs
    rw [if_neg g1] at hs ⊢
    by_cases g4 : fUserOnly = true ∧ pte &&& 0x04 = 0
    · rw [if_pos g4] at hs; cases hs
    rw [if_neg g4] at hs ⊢
    rw [if_neg (fun h => h2 h.1), if_neg h1] at hs ⊢
    by_cases hr : pte &&& 0x003e0000 ≠ 0
    · rw [if_pos hr] at hs; cases hs
    rw [if_neg hr]
    exact ⟨pte, rfl⟩

/-- C2 (amended): whenever `MmX86_Virt2Phys` succeeds, at whichever level it is started,
the returned address is the base of the 4KB physical page that holds the translation: for
a 4KB leaf (reached from the directory, or by a call started at the page-table level) it
is `pte & 0xfffff000`, for a 4MB page (page-size bit set, reserved bits clear) it is the
large page's base `((pde & 0x1e000) << 19) + (pde & 0xffc00000)` plus `va & 0x003ff000`.
The result is 4KB-aligned: the low 12 bits of `va` are not added. -/
theorem C2_virt2phys_page_base (tlb : Tlb) (fuel paPT : Nat) (fUserOnly : Bool)
    (iPML va ppa : Nat)
    (hs : (MmX86_Virt2Phys tlb (fuel + 2) paPT fUserOnly iPML va ppa).1 = true) :
    (iPML = 1 → ∃ pt, tlb (paPT &&& 0xfffff000) = some pt ∧
      (MmX86_Virt2Phys tlb (fuel + 2) paPT fUserOnly iPML va ppa).2 =
        pdw pt ((va >>> 12) &&& 0x3ff) &&& 0xfffff000) ∧
    (iPML = 2 ∨ iPML = 255 → ∃ pd, tlb (paPT &&& 0xfffff000) = some pd ∧
      ((pdw pd ((va >>> 22) &&& 0x3ff) &&& 0x80 ≠ 0 ∧
          pdw pd ((va >>> 22) &&& 0x3ff) &&& 0x003e0000 = 0 ∧
          (MmX86_Virt2Phys tlb (fuel + 2) paPT fUserOnly iPML va ppa).2 =
            ((pdw pd ((va >>> 22) &&& 0x3ff) &&& 0x0001e000) <<< 19)
              + (pdw pd ((va >>> 22) &&& 0x3ff) &&& 0xffc00000) + (va &&& 0x003ff000)) ∨
        (pdw pd ((va >>> 22) &&& 0x3ff) &&& 0x80 = 0 ∧
          ∃ pt, tlb (pdw pd ((va >>> 22) &&& 0x3ff) &&& 0xfffff000) = some pt ∧
            (MmX86_Virt2Phys tlb (fuel + 2) paPT fUserOnly iPML va ppa).2 =
              pdw pt ((va >>> 12) &&& 0x3ff) &&& 0xfffff000))) ∧
    (MmX86_Virt2Phys tlb (fuel + 2) paPT fUserOnly iPML va ppa).2 % 4096 = 0 := by
  refine ⟨fun h1 => ?_, fun hl => ?_, ?_⟩
  · subst h1
    exact Virt2Phys_table_success tlb (fuel + 1) paPT fUserOnly va ppa hs
  · exact (Virt2Phys_dir_page_base tlb fuel paPT fUserOnly iPML va ppa hl hs).1
  · by_cases h1 : iPML = 1
    · subst h1
      obtain ⟨pt, -, hv⟩ := Virt2Phys_table_success tlb (fuel + 1) paPT fUserOnly va ppa hs
      rw [hv, land_fffff000]; omega
    · by_cases hl : iPML = 2 ∨ iPML = 255
      · exact (Virt2Phys_dir_page_base tlb fuel paPT fUserOnly iPML va ppa hl hs).2
      · obtain ⟨pte, hv⟩ := Virt2Phys_other_success tlb (fuel + 1) paPT fUserOnly iPML va ppa
          h1 (fun h => hl (Or.inl h)) (fun h => hl (Or.inr h)) hs
        rw [hv]
        unfold Virt2Phys_LargePageBase
        rw [land_0001e000, land_ffc00000, land_003ff000, Nat.shiftLeft_eq]
        norm_num
        omega

/-- C2 (witness): the amended statement applied to the scenario of the specification, a
walk from the directory through a large page, and to a walk started at the page-table
level on the table at physical address 0, whose entry 0 is `0x5007`. -/
theorem C2_virt2phys_page_base_witness :
    (MmX86_Virt2Phys tlbLargeAt5 2 0x1000 true 2 (0x01400000 + 0x123) 0).2 % 4096 = 0 ∧
    ∃ pt, tlbPageZero (0 &&& 0xfffff000) = some pt ∧
      (MmX86_Virt2Phys tlbPageZero 2 0 true 1 0x123 0).2 =
        pdw pt ((0x123 >>> 12) &&& 0x3ff) &&& 0xfffff000 :=
  ⟨(C2_virt2phys_page_base tlbLargeAt5 0 0x1000 true 2 (0x01400000 + 0x123) 0
      (by decide)).2.2,
   (C2_virt2phys_page_base tlbPageZero 0 0 true 1 0x123 0 (by decide)).1 rfl⟩

/-- C3: `MmX86_Virt2Phys` started at the directory level (`iPML` 2, or `(BYTE)-1` which
the function turns into 2) succeeds if and only if `va` and the table address are at most
`0xffffffff`, the directory page is available, the directory entry selected by bits 22-31
of `va` is present and passes the privilege filter, and either that entry is a large page
with reserved bits `0x003e0000` clear, or it is not a large page, the page table it points
to is available and the table entry selected by bits 12-21 of `va` is present and passes
the filter. In particular a large page with a reserved bit set always fails. -/
theorem C3_virt2phys_succeeds_iff (tlb : Tlb) (fuel paPT : Nat) (fUserOnly : Bool)
    (va ppa : Nat) :
    ((MmX86_Virt2Phys tlb (fuel + 2) paPT fUserOnly 2 va ppa).1 = true ↔
      Virt2PhysSucceeds tlb paPT fUserOnly va) ∧
    ((MmX86_Virt2Phys tlb (fuel + 2) paPT fUserOnly 255 va ppa).1 = true ↔
      Virt2PhysSucceeds tlb paPT fUserOnly va) ∧
    (∀ pd, tlb (paPT &&& 0xfffff000) = some pd →
      pdw pd ((va >>> 22) &&& 0x3ff) &&& 0x80 ≠ 0 →
      pdw pd ((va >>> 22) &&& 0x3ff) &&& 0x003e0000 ≠ 0 →
      (MmX86_Virt2Phys tlb (fuel + 2) paPT fUserOnly 2 va ppa).1 = false ∧
      (MmX86_Virt2Phys tlb (fuel + 2) paPT fUserOnly 255 va ppa).1 = false) := by
  have h2 := Virt2Phys_dir_iff tlb fuel paPT fUserOnly 2 va ppa (Or.inl rfl)
  have h255 := Virt2Phys_dir_iff tlb fuel paPT fUserOnly 255 va ppa (Or.inr rfl)
  refine ⟨h2, h255, ?_⟩
  intro pd hpd hps hres
  have hno : ¬ Virt2PhysSucceeds tlb paPT fUserOnly va := by
    rintro ⟨-, -, pd2, hpd2, -, -, h⟩
    rw [hpd] at hpd2
    cases hpd2
    rcases h with ⟨-, h⟩ | ⟨h, -⟩
    · exact hres h
    · exact hps h
  constructor
  · cases hb : (MmX86_Virt2Phys tlb (fuel + 2) paPT fUserOnly 2 va ppa).1 with
    | false => rfl
    | true => exact absurd (h2.mp hb) hno
  · cases hb : (MmX86_Virt2Phys tlb (fuel + 2) paPT fUserOnly 255 va ppa).1 with
    | false => rfl
    | true => exact absurd (h255.mp hb) hno

/-- C3 (witness): in the large-page scenario the success condition holds, so the
translation succeeds. -/
theorem C3_virt2phys_succeeds_iff_witness :
    (MmX86_Virt2Phys tlbLargeAt5 2 0x1000 true 2 (0x01400000 + 0x123) 7).1 = true :=
  (C3_virt2phys_succeeds_iff tlbLargeAt5 0 0x1000 true (0x01400000 + 0x123) 7).1.mpr
    ⟨by decide, by decide, dirLargeAt5, rfl, by decide, by decide,
      Or.inl ⟨by decide, by decide⟩⟩

/-- The failure output of a table-level translation. -/
theorem Virt2Phys_level1_fail (tlb : Tlb) (fuel paPT : Nat) (fUserOnly : Bool) (va ppa : Nat)
    (hf : (MmX86_Virt2Phys tlb (fuel + 1) paPT fUserOnly 1 va ppa).1 = false) :
    (MmX86_Virt2Phys tlb (fuel + 1) paPT fUserOnly 1 va ppa).2 =
      (tableNotPresent tlb paPT va).getD ppa := by
  rw [Virt2Phys_level1] at hf ⊢
  unfold tableNotPresent
  by_cases hva : va > 0xffffffff
  · have hc : ¬ (va ≤ 0xffffffff ∧ paPT ≤ 0xffffffff) := by omega
    rw [if_pos hva, if_neg hc]; rfl
  by_cases hpa : paPT > 0xffffffff
  · have hc : ¬ (va ≤ 0xffffffff ∧ paPT ≤ 0xffffffff) := by omega
    rw [if_neg hva, if_pos hpa, if_neg hc]; rfl
  have hc : va ≤ 0xffffffff ∧ paPT ≤ 0xffffffff := by omega
  rw [if_neg hva, if_neg hpa] at hf ⊢
  rw [if_pos hc]
  cases hpt : tlb (paPT &&& 0xfffff000) with
  | none => rfl
  | some pt =>
    rw [hpt] at hf
    simp only [] at hf ⊢
    generalize pdw pt ((va >>> 12) &&& 0x3ff) = pte at hf ⊢
    by_cases g1 : pte &&& 0x01 = 0
    · rw [if_pos g1, if_pos g1]; rfl
    rw [if_neg g1] at hf ⊢
    rw [if_neg g1]
    by_cases g4 : fUserOnly = true ∧ pte &&& 0x04 = 0
    · rw [if_pos g4]; rfl
    · rw [if_neg g4] at hf; cases hf

/-- The failure output of a directory-level translation. -/
theorem Virt2Phys_dir_fail (tlb : Tlb) (fuel paPT : Nat) (fUserOnly : Bool)
    (iPML va ppa : Nat) (hl : iPML = 2 ∨ iPML = 255)
    (hf : (MmX86_Virt2Phys tlb (fuel + 2) paPT fUserOnly iPML va ppa).1 = false) :
    (MmX86_Virt2Phys tlb (fuel + 2) paPT fUserOnly iPML va ppa).2 =
      (leafNotPresent tlb paPT fUserOnly va).getD ppa := by
  rw [Virt2Phys_level2 _ _ _ _ _ _ _ hl] at hf ⊢
  unfold leafNotPresent
  by_cases hva : va > 0xffffffff
  · have hc : ¬ (va ≤ 0xffffffff ∧ paPT ≤ 0xffffffff) := by omega
    rw [if_pos hva, if_neg hc]; rfl
  by_cases hpa : paPT > 0xffffffff
  · have hc : ¬ (va ≤ 0xffffffff ∧ paPT ≤ 0xffffffff) := by omega
    rw [if_neg hva, if_pos hpa, if_neg hc]; rfl
  have hc : va ≤ 0xffffffff ∧ paPT ≤ 0xffffffff := by omega
  rw [if_neg hva, if_neg hpa] at hf ⊢
  rw [if_pos hc]
  cases hpd : tlb (paPT &&& 0xfffff000) with
  | none => rfl
  | some pd =>
    rw [hpd] at hf
    simp only [] at hf ⊢
    generalize pdw pd ((va >>> 22) &&& 0x3ff) = pde at hf ⊢
    by_cases h1 : pde &&& 0x01 = 0
    · have hn : ¬ (pde &&& 0x01 ≠ 0 ∧ (fUserOnly = true → pde &&& 0x04 ≠ 0) ∧
          pde &&& 0x80 = 0) := fun h => h.1 h1
      rw [if_pos h1, if_neg hn]; rfl
    rw [if_neg h1] at hf ⊢
    by_cases h4 : fUserOnly = true ∧ pde &&& 0x04 = 0
    · have hn : ¬ (pde &&& 0x01 ≠ 0 ∧ (fUserOnly = true → pde &&& 0x04 ≠ 0) ∧
          pde &&& 0x80 = 0) := fun h => h.2.1 h4.1 h4.2
      rw [if_pos h4, if_neg hn]; rfl
    rw [if_neg h4] at hf ⊢
    by_cases h80 : pde &&& 0x80 = 0
    · have hy : pde &&& 0x01 ≠ 0 ∧ (fUserOnly = true → pde &&& 0x04 ≠ 0) ∧
          pde &&& 0x80 = 0 := ⟨h1, fun hu hz => h4 ⟨hu, hz⟩, h80⟩
      rw [if_pos h80] at hf ⊢
      rw [if_pos hy]
      exact Virt2Phys_level1_fail tlb fuel pde fUserOnly va ppa hf
    · have hn : ¬ (pde &&& 0x01 ≠ 0 ∧ (fUserOnly = true → pde &&& 0x04 ≠ 0) ∧
          pde &&& 0x80 = 0) := fun h => h80 h.2.2
      rw [if_neg h80] at hf ⊢
      rw [if_neg hn]
      by_cases hr : pde &&& 0x003e0000 ≠ 0
      · rw [if_pos hr]; rfl
      · rw [if_neg hr] at hf; cases hf

/-- C4: whenever `MmX86_Virt2Phys` fails, `*ppa` holds the value it had before the call,
except when the failure is a not-present entry at the page-table level, in which case it
holds the raw 32-bit value of that entry. This is stated for a walk started at the
directory level (`iPML` 2 or `(BYTE)-1`) and for one started at the table level. In
particular out-of-range arguments, an unavailable table, a not-present directory entry, a
privilege mismatch and a reserved-bit violation leave `*ppa` unchanged, since in all of
them `leafNotPresent` is `none`. -/
theorem C4_virt2phys_failure_output (tlb : Tlb) (fuel paPT : Nat) (fUserOnly : Bool)
    (va ppa : Nat) :
    ((MmX86_Virt2Phys tlb (fuel + 2) paPT fUserOnly 2 va ppa).1 = false →
      (MmX86_Virt2Phys tlb (fuel + 2) paPT fUserOnly 2 va ppa).2 =
        (leafNotPresent tlb paPT fUserOnly va).getD ppa) ∧
    ((MmX86_Virt2Phys tlb (fuel + 2) paPT fUserOnly 255 va ppa).1 = false →
      (MmX86_Virt2Phys tlb (fuel + 2) paPT fUserOnly 255 va ppa).2 =
        (leafNotPresent tlb paPT fUserOnly va).getD ppa) ∧
    ((MmX86_Virt2Phys tlb (fuel + 2) paPT fUserOnly 1 va ppa).1 = false →
      (MmX86_Virt2Phys tlb (fuel + 2) paPT fUserOnly 1 va ppa).2 =
        (tableNotPresent tlb paPT va).getD ppa) :=
  ⟨Virt2Phys_dir_fail tlb fuel paPT fUserOnly 2 va ppa (Or.inl rfl),
   Virt2Phys_dir_fail tlb fuel paPT fUserOnly 255 va ppa (Or.inr rfl),
   Virt2Phys_level1_fail tlb (fuel + 1) paPT fUserOnly va ppa⟩

/-- C4 (witness): a directory whose entry 5 is a large page with reserved bit 17 set makes
the translation fail, and `*ppa` keeps its former value 7. -/
theorem C4_virt2phys_failure_output_witness :
    (MmX86_Virt2Phys (fun pa => if pa = 0x1000 then some (fun i => if i = 5 then 0x00c20087
      else 0) else none) 2 0x1000 true 2 0x01400123 7).2 = 7 :=
  (C4_virt2phys_failure_output (fun pa => if pa = 0x1000 then some (fun i => if i = 5 then
    0x00c20087 else 0) else none) 0 0x1000 true 0x01400123 7).1 (by decide)

/-! ## The batch translator: claim C1 -/

/-- C1 (counterexample): a request that starts unresolved at a directory base above the
32-bit range (`2 ^ 32`, where the cache holds a directory with a large page at entry 0) is
resolved by `MmX86_Virt2PhysEx`, which has no range check on the table address, while
`MmX86_Virt2Phys` rejects the same directory base, privilege filter and address. -/
theorem C1_counterexample :
    V2PUnresolved 0x100000000 reqAbove4G ∧
    (MmX86_Virt2PhysEx tlbAbove4G 2 [reqAbove4G] false 2).map (fun e => (e.fPhys, e.pa)) =
      [(true, 0x00400000)] ∧
    (MmX86_Virt2Phys tlbAbove4G 2 0x100000000 false 2 0 0).1 = false := by
  refine ⟨⟨rfl, rfl, rfl, by decide⟩, by decide, by decide⟩

/-- The table-level pass of the batch translator handles each request on its own. -/
theorem Virt2PhysEx_level1 (tlb : Tlb) (fuel : Nat) (l : List VMM_V2P_ENTRY)
    (fUserOnly : Bool) :
    MmX86_Virt2PhysEx tlb (fuel + 1) l fUserOnly 1 =
      l.map (fun e => (Virt2PhysEx_Entry fUserOnly 1 (VmmTlbGetPageTableEx tlb e)).1) := by
  simp [MmX86_Virt2PhysEx, List.map_map, Function.comp_def]

/-- A request without a pending table address and without a table reference is not
touched by the table pass. -/
theorem Virt2PhysEx_Entry_idle (tlb : Tlb) (fUserOnly : Bool) (r : VMM_V2P_ENTRY)
    (h0 : r.paPT = 0) (hn : r.pObPTE = none) :
    (Virt2PhysEx_Entry fUserOnly 1 (VmmTlbGetPageTableEx tlb r)).1 = r := by
  cases r with
  | mk paPT va pa pte pObPTE fPhys fPaging =>
    simp only at h0 hn
    subst h0 hn
    simp [Virt2PhysEx_Entry, VmmTlbGetPageTableEx]

/-- After the directory pass a request without the next-table flag has no pending table
address and no table reference. -/
theorem Virt2PhysEx_Entry_flag (fUserOnly : Bool) (e : VMM_V2P_ENTRY)
    (h : (Virt2PhysEx_Entry fUserOnly 2 e).2 = false) :
    (Virt2PhysEx_Entry fUserOnly 2 e).1.paPT = 0 ∧
    (Virt2PhysEx_Entry fUserOnly 2 e).1.pObPTE = none := by
  unfold Virt2PhysEx_Entry at h ⊢
  cases hp : e.pObPTE with
  | none => simp [hp]
  | some pg =>
    simp only [hp] at h ⊢
    generalize pdw pg _ = pte at h ⊢
    split_ifs at h ⊢ <;> exact ⟨rfl, rfl⟩

/-- A request for which the directory pass leaves no pending table is not touched by the
table pass. -/
theorem Virt2PhysEx_Entry_done (tlb : Tlb) (fUserOnly : Bool) (e : VMM_V2P_ENTRY)
    (h : (Virt2PhysEx_Entry fUserOnly 2 e).2 = false) :
    (Virt2PhysEx_Entry fUserOnly 1
      (VmmTlbGetPageTableEx tlb (Virt2PhysEx_Entry fUserOnly 2 e).1)).1 =
      (Virt2PhysEx_Entry fUserOnly 2 e).1 :=
  Virt2PhysEx_Entry_idle tlb fUserOnly _ (Virt2PhysEx_Entry_flag fUserOnly e h).1
    (Virt2PhysEx_Entry_flag fUserOnly e h).2

/-- The batch translator, started at the directory level, is the directory pass followed
by the table pass on every request. -/
theorem Virt2PhysEx_level2 (tlb : Tlb) (fuel : Nat) (l : List VMM_V2P_ENTRY)
    (fUserOnly : Bool) (iPML : Nat) (hl : iPML = 2 ∨ iPML = 255) :
    MmX86_Virt2PhysEx tlb (fuel + 2) l fUserOnly iPML =
      l.map (fun e => (Virt2PhysEx_Entry fUserOnly 1 (VmmTlbGetPageTableEx tlb
        (Virt2PhysEx_Entry fUserOnly 2 (VmmTlbGetPageTableEx tlb e)).1)).1) := by
  have h2 : (if iPML = 255 then 2 else iPML) = 2 := by
    rcases hl with h | h <;> simp [h]
  rw [MmX86_Virt2PhysEx]
  simp only [h2]
  split_ifs with hc
  · rw [Virt2PhysEx_level1]
    simp [List.map_map, Function.comp_def]
  · have hall : ∀ e ∈ l, (Virt2PhysEx_Entry fUserOnly 2 (VmmTlbGetPageTableEx tlb e)).2
        = false := by
      intro e he
      cases hb : (Virt2PhysEx_Entry fUserOnly 2 (VmmTlbGetPageTableEx tlb e)).2 with
      | false => rfl
      | true =>
        exfalso
        apply hc
        refine ⟨?_, trivial⟩
        rw [List.any_eq_true]
        exact ⟨_, List.mem_map.mpr ⟨_, List.mem_map.mpr ⟨e, he, rfl⟩, rfl⟩, hb⟩
    simp only [List.map_map]
    apply List.map_congr_left
    intro e he
    simp only [Function.comp_apply]
    exact (Virt2PhysEx_Entry_done tlb fUserOnly _ (hall e he)).symm

/-- A 4KB-aligned 32-bit address is its own page base. -/
theorem land_fffff000_of_aligned (x : Nat) (hx : x ≤ 0xffffffff) (ha : x % 4096 = 0) :
    x &&& 0xfffff000 = x := by
  rw [land_fffff000]; omega

/-- The two passes of the batch translator on one unresolved request agree with the single
translator. -/
theorem Virt2PhysEx_entry_eq_single (tlb : Tlb) (fuel paDTB : Nat) (fUserOnly : Bool)
    (iPML : Nat) (e : VMM_V2P_ENTRY) (ppa : Nat) (hl : iPML = 2 ∨ iPML = 255)
    (h0 : tlb 0 = none) (hmax : paDTB ≤ 0xffffffff) (hal : paDTB % 4096 = 0)
    (he : V2PUnresolved paDTB e) :
    (Virt2PhysEx_Entry fUserOnly 1 (VmmTlbGetPageTableEx tlb
        (Virt2PhysEx_Entry fUserOnly 2 (VmmTlbGetPageTableEx tlb e)).1)).1.va = e.va ∧
    ((Virt2PhysEx_Entry fUserOnly 1 (VmmTlbGetPageTableEx tlb
        (Virt2PhysEx_Entry fUserOnly 2 (VmmTlbGetPageTableEx tlb e)).1)).1.fPhys = true ↔
      (MmX86_Virt2Phys tlb (fuel + 2) paDTB fUserOnly iPML e.va ppa).1 = true) ∧
    ((Virt2PhysEx_Entry fUserOnly 1 (VmmTlbGetPageTableEx tlb
        (Virt2PhysEx_Entry fUserOnly 2 (VmmTlbGetPageTableEx tlb e)).1)).1.fPhys = true →
      (Virt2PhysEx_Entry fUserOnly 1 (VmmTlbGetPageTableEx tlb
        (Virt2PhysEx_Entry fUserOnly 2 (VmmTlbGetPageTableEx tlb e)).1)).1.pa =
      (MmX86_Virt2Phys tlb (fuel + 2) paDTB fUserOnly iPML e.va ppa).2) := by
  obtain ⟨hpa, hph, hpt, hva⟩ := he
  cases e with
  | mk paPT va pa pte pObPTE fPhys fPaging =>
    simp only at hpa hph hpt hva
    subst hpa hph hpt
    have hvan : ¬ va > 0xffffffff := by omega
    have hpan : ¬ paPT > 0xffffffff := by omega
    rw [Virt2Phys_level2 _ _ _ _ _ _ _ hl, if_neg hvan, if_neg hpan,
      land_fffff000_of_aligned paPT hmax hal]
    by_cases hz : paPT = 0
    · subst hz
      simp [Virt2PhysEx_Entry, VmmTlbGetPageTableEx, h0]
    cases hpd : tlb paPT with
    | none => simp [Virt2PhysEx_Entry, VmmTlbGetPageTableEx, hz, hpd]
    | some pd =>
      have hlt := pdw_lt pd ((va >>> 22) &&& 0x3ff)
      simp only [Virt2PhysEx_Entry, VmmTlbGetPageTableEx, hz, hpd, if_false,
        MMX86_PAGETABLEMAP_PML_REGION_SIZE, MMX86_PTE_IS_VALID, Nat.land_comm 0x3ff,
        ne_eq, not_true_eq_false]
      generalize pdw pd ((va >>> 22) &&& 0x3ff) = pde at hlt ⊢
      by_cases h1 : pde &&& 0x01 = 0
      · simp [h1, Virt2PhysEx_Entry, VmmTlbGetPageTableEx]
      have h1' : ¬ pde % 2 = 0 := by simpa [Nat.and_one_is_mod] using h1
      by_cases h4 : fUserOnly = true ∧ pde &&& 0x04 = 0
      · simp only [h1, if_false, if_pos h4]
        simp [Virt2PhysEx_Entry, VmmTlbGetPageTableEx]
      by_cases h80 : pde &&& 0x80 = 0
      · rw [Virt2Phys_level1]
        have hpde : ¬ pde > 0xffffffff := by omega
        simp only [h1, h4, h80, hvan, hpde, if_true, if_false, not_true_eq_false,
          OfNat.ofNat_ne_one]
        by_cases hf : pde &&& 0xfffff000 = 0
        · simp [hf, h0, Virt2PhysEx_Entry, VmmTlbGetPageTableEx]
        cases hpt : tlb (pde &&& 0xfffff000) with
        | none => simp [hf, hpt, Virt2PhysEx_Entry, VmmTlbGetPageTableEx]
        | some pt =>
          simp only [Virt2PhysEx_Entry, VmmTlbGetPageTableEx, hf, hpt, if_false,
            MMX86_PAGETABLEMAP_PML_REGION_SIZE, MMX86_PTE_IS_VALID, Nat.land_comm 0x3ff,
            ne_eq, not_true_eq_false]
          generalize pdw pt ((va >>> 12) &&& 0x3ff) = pte
          by_cases g1 : pte &&& 0x01 = 0
          · simp only [g1, if_true]; simp
          by_cases g4 : fUserOnly = true ∧ pte &&& 0x04 = 0
          · simp only [g1, if_false, if_pos g4]; simp
          · simp only [g1, if_false, if_neg g4]; simp
      · by_cases hr : pde &&& 0x003e0000 ≠ 0
        · simp only [h1, h80, if_false, if_neg h4, if_pos hr, not_false_eq_true, if_true,
            OfNat.ofNat_ne_one]
          simp [Virt2PhysEx_Entry, VmmTlbGetPageTableEx]
        · simp only [h1, h80, if_false, if_neg h4, if_neg hr, not_false_eq_true, if_true,
            OfNat.ofNat_ne_one]
          simp [Virt2PhysEx_Entry, VmmTlbGetPageTableEx]

/-- C1 (amended): for every cache state that does not serve physical page 0 as a page
table, every 4KB-aligned directory base at most `0xffffffff`, every privilege filter and
every array of requests that each start unresolved (`pa = 0`, `fPhys = false`, table
address = directory base, `va <= 0xffffffff`), `MmX86_Virt2PhysEx` started at the
directory level keeps the array length and the request order, and each request is marked
resolved exactly when `MmX86_Virt2Phys` on the same directory base, filter and address
succeeds; in that case the stored physical address is the one `MmX86_Virt2Phys`
returns. -/
theorem C1_batch_eq_single (tlb : Tlb) (fuel fuel' paDTB : Nat) (fUserOnly : Bool)
    (iPML iPML' ppa : Nat) (pV2Ps : List VMM_V2P_ENTRY)
    (hl : iPML = 2 ∨ iPML = 255) (hl' : iPML' = 2 ∨ iPML' = 255)
    (h0 : tlb 0 = none) (hmax : paDTB ≤ 0xffffffff) (hal : paDTB % 4096 = 0)
    (hreq : ∀ e ∈ pV2Ps, V2PUnresolved paDTB e) :
    (MmX86_Virt2PhysEx tlb (fuel + 2) pV2Ps fUserOnly iPML).length = pV2Ps.length ∧
    ∀ (i : Nat) (e r : VMM_V2P_ENTRY), pV2Ps[i]? = some e →
      (MmX86_Virt2PhysEx tlb (fuel + 2) pV2Ps fUserOnly iPML)[i]? = some r →
      r.va = e.va ∧
      (r.fPhys = true ↔
        (MmX86_Virt2Phys tlb (fuel' + 2) paDTB fUserOnly iPML' e.va ppa).1 = true) ∧
      (r.fPhys = true →
        r.pa = (MmX86_Virt2Phys tlb (fuel' + 2) paDTB fUserOnly iPML' e.va ppa).2) := by
  rw [Virt2PhysEx_level2 tlb fuel pV2Ps fUserOnly iPML hl]
  refine ⟨List.length_map _ _, ?_⟩
  intro i e r hi hr
  rw [List.getElem?_map, hi] at hr
  simp only [Option.map_some', Option.some.injEq] at hr
  subst hr
  exact Virt2PhysEx_entry_eq_single tlb fuel' paDTB fUserOnly iPML' e ppa hl' h0 hmax hal
    (hreq e (List.getElem?_mem hi))

/-- C1 (witness): the amended statement on the large-page scenario with one request. -/
theorem C1_batch_eq_single_witness :
    (MmX86_Virt2PhysEx tlbLargeAt5 2 [reqLargeAt5] true 2).length = 1 ∧
    ∀ (i : Nat) (e r : VMM_V2P_ENTRY), [reqLargeAt5][i]? = some e →
      (MmX86_Virt2PhysEx tlbLargeAt5 2 [reqLargeAt5] true 2)[i]? = some r →
      r.va = e.va ∧
      (r.fPhys = true ↔
        (MmX86_Virt2Phys tlbLargeAt5 2 0x1000 true 2 e.va 0).1 = true) ∧
      (r.fPhys = true →
        r.pa = (MmX86_Virt2Phys tlbLargeAt5 2 0x1000 true 2 e.va 0).2) :=
  C1_batch_eq_single tlbLargeAt5 0 0 0x1000 true 2 2 0 [reqLargeAt5] (Or.inl rfl)
    (Or.inl rfl) rfl (by decide) (by decide)
    (fun e he => by
      rw [List.mem_singleton] at he
      subst he
      exact ⟨rfl, rfl, rfl, by decide⟩)

/-- The batch translator does not follow a directory entry that points to a page table at
physical address 0, because a zero `paPT` means that no table is pending; the single
translator does. This is why the amended C1 asks that page 0 is not served as a table. -/
theorem Virt2PhysEx_page_zero_differs :
    (MmX86_Virt2PhysEx tlbPageZero 2
      [{ paPT := 0x1000, va := 0, pa := 0, pte := 0, pObPTE := none, fPhys := false,
         fPaging := false }] false 2).map (fun e => e.fPhys) = [false] ∧
    MmX86_Virt2Phys tlbPageZero 2 0x1000 false 2 0 0 = (true, 0x5000) := by
  decide

/-- The batch translator hands an unaligned directory base to the cache as it is, while the
single translator masks it with `0xfffff000`. This is why the amended C1 asks for a
4KB-aligned directory base. -/
theorem Virt2PhysEx_unaligned_differs :
    (MmX86_Virt2PhysEx tlbLargeAt5 2
      [{ paPT := 0x1004, va := 0x01400000, pa := 0, pte := 0, pObPTE := none,
         fPhys := false, fPaging := false }] false 2).map (fun e => e.fPhys) = [false] ∧
    MmX86_Virt2Phys tlbLargeAt5 2 0x1004 false 2 0x01400000 0 = (true, 0x00c00000) := by
  decide

/-! ## The region-map builder -/

theorem leafPages_one : leafPages 1 = 1 := by decide

theorem leafPages_two : leafPages 2 = 1024 := by decide

theorem leafPages_pos (lvl : Nat) (hl : lvl = 1 ∨ lvl = 2) : 1 ≤ leafPages lvl := by
  rcases hl with h | h <;> subst h
  · rw [leafPages_one]
  · rw [leafPages_two]; norm_num

/-- The rule of the loop with early return: an invariant `J` indexed by the loop counter
and a postcondition `Q` that holds on return and at the regular end. -/
theorem MapInitialize_Loop_rule (body : Nat → MemMap → MemMap × Bool)
    (J : Nat → MemMap → Prop) (Q : MemMap → Prop) (n : Nat) :
    ∀ (i : Nat) (m : MemMap),
      (∀ j m', i ≤ j → j < i + n → J j m' →
        ((body j m').2 = false → J (j + 1) (body j m').1) ∧
        ((body j m').2 = true → Q (body j m').1)) →
      (∀ m', J (i + n) m' → Q m') →
      J i m → Q (MapInitialize_Loop body n i m) := by
  induction n with
  | zero =>
    intro i m _ hend hJ
    exact hend m hJ
  | succ n ih =>
    intro i m hstep hend hJ
    rw [MapInitialize_Loop]
    have hs := hstep i m (le_refl i) (by omega) hJ
    cases hb : body i m with
    | mk m' ret =>
      rw [hb] at hs
      cases ret with
      | true => exact hs.2 rfl
      | false =>
        apply ih (i + 1) m'
        · intro j m'' h1 h2 hJ'
          exact hstep j m'' (by omega) (by omega) hJ'
        · intro m'' hJ'
          apply hend
          have e : i + (n + 1) = i + 1 + n := by omega
          rw [e]; exact hJ'
        · exact hs.1 rfl

/-- The three outcomes of the leaf step on a sorted buffer: the cap refuses a new region,
a new region is appended, or the trailing region is extended. -/
theorem MapInitialize_Leaf_cases (env : Env) (lvl va pte : Nat) (po : Bool) (m : MemMap)
    (hl : lvl = 1 ∨ lvl = 2) (hS : m.Sorted va) (hva : va < 2 ^ 32) :
    (MapInitialize_Leaf env lvl va pte po m = (m, true) ∧
      env.VMM_MEMMAP_ENTRIES_MAX ≤ m.cMemMap + 1) ∨
    (m.cMemMap + 1 < env.VMM_MEMMAP_ENTRIES_MAX ∧
      (m.cMemMap = 0 ∨
        ((m.pMemMap (m.cMemMap - 1)).fPage ≠ pte &&& env.VMM_MEMMAP_PAGE_MASK ∧ po = false) ∨
        va ≠ (m.pMemMap (m.cMemMap - 1)).vaBase + (m.pMemMap (m.cMemMap - 1)).cPages * 4096) ∧
      (MapInitialize_Leaf env lvl va pte po m).1.cMemMap = m.cMemMap + 1 ∧
      ((MapInitialize_Leaf env lvl va pte po m).2 = true →
        env.VMM_MEMMAP_ENTRIES_MAX ≤ m.cMemMap + 2) ∧
      ∃ e : VMM_MAP_PTEENTRY,
        (MapInitialize_Leaf env lvl va pte po m).1.pMemMap =
          Function.update m.pMemMap m.cMemMap e ∧
        e.vaBase = va ∧ e.cPages = leafPages lvl ∧
        e.fPage = pte &&& env.VMM_MEMMAP_PAGE_MASK) ∨
    (0 < m.cMemMap ∧
      ((m.pMemMap (m.cMemMap - 1)).fPage = pte &&& env.VMM_MEMMAP_PAGE_MASK ∨ po = true) ∧
      va = (m.pMemMap (m.cMemMap - 1)).vaBase + (m.pMemMap (m.cMemMap - 1)).cPages * 4096 ∧
      (MapInitialize_Leaf env lvl va pte po m).2 = false ∧
      (MapInitialize_Leaf env lvl va pte po m).1.cMemMap = m.cMemMap ∧
      ∃ e : VMM_MAP_PTEENTRY,
        (MapInitialize_Leaf env lvl va pte po m).1.pMemMap =
          Function.update m.pMemMap (m.cMemMap - 1) e ∧
        e.vaBase = (m.pMemMap (m.cMemMap - 1)).vaBase ∧
        e.cPages = (m.pMemMap (m.cMemMap - 1)).cPages + leafPages lvl ∧
        e.fPage = (m.pMemMap (m.cMemMap - 1)).fPage) := by
  obtain ⟨hS1, hS2, hS3, hS4⟩ := hS
  have hP : leafPages lvl = 1 ∨ leafPages lvl = 1024 := by
    rcases hl with h | h <;> subst h
    · exact Or.inl leafPages_one
    · exact Or.inr leafPages_two
  have hPm : leafPages lvl % 2 ^ 64 = leafPages lvl := by
    rcases hP with h | h <;> rw [h] <;> norm_num
  have hc : (m.cMemMap + 1) % 2 ^ 32 = m.cMemMap + 1 := by
    apply Nat.mod_eq_of_lt; omega
  have hend : 0 < m.cMemMap →
      ((m.pMemMap (m.cMemMap - 1)).vaBase +
        ((m.pMemMap (m.cMemMap - 1)).cPages <<< 12) % 2 ^ 64) % 2 ^ 64 =
      (m.pMemMap (m.cMemMap - 1)).vaBase + (m.pMemMap (m.cMemMap - 1)).cPages * 4096 := by
    intro h0
    have h3 := hS3 h0
    rw [Nat.shiftLeft_eq]
    have e : (2 : Nat) ^ 12 = 4096 := by norm_num
    rw [e]
    omega
  unfold MapInitialize_Leaf
  simp only [hPm, hc]
  by_cases hnew : m.cMemMap = 0 ∨
      ((m.pMemMap (m.cMemMap - 1)).fPage ≠ pte &&& env.VMM_MEMMAP_PAGE_MASK ∧ po = false) ∨
      va ≠ ((m.pMemMap (m.cMemMap - 1)).vaBase +
        ((m.pMemMap (m.cMemMap - 1)).cPages <<< 12) % 2 ^ 64) % 2 ^ 64
  · rw [if_pos hnew]
    by_cases hcap : m.cMemMap + 1 ≥ env.VMM_MEMMAP_ENTRIES_MAX
    · rw [if_pos hcap]
      exact Or.inl ⟨rfl, hcap⟩
    · rw [if_neg hcap]
      refine Or.inr (Or.inl ⟨by omega, ?_, rfl, ?_, ⟨_, rfl, rfl, rfl, rfl⟩⟩)
      · rcases hnew with h | h | h
        · exact Or.inl h
        · exact Or.inr (Or.inl h)
        · by_cases h0 : m.cMemMap = 0
          · exact Or.inl h0
          · rw [hend (by omega)] at h
            exact Or.inr (Or.inr h)
      · intro hr
        simp only [decide_eq_true_eq] at hr
        omega
  · rw [if_neg hnew]
    have h0 : 0 < m.cMemMap := by
      by_contra h
      exact hnew (Or.inl (by omega))
    refine Or.inr (Or.inr ⟨h0, ?_, ?_, rfl, rfl, ⟨_, rfl, rfl, ?_, rfl⟩⟩)
    · by_contra h
      push_neg at h
      refine hnew (Or.inr (Or.inl ⟨h.1, ?_⟩))
      cases po with
      | false => rfl
      | true => exact absurd rfl h.2
    · by_contra h
      apply hnew
      rw [hend h0]
      exact Or.inr (Or.inr h)
    · show ((m.pMemMap (m.cMemMap - 1)).cPages + leafPages lvl) % 2 ^ 64 = _
      have h3 := hS3 h0
      apply Nat.mod_eq_of_lt
      rcases hP with h | h <;> rw [h] <;> omega

theorem MemMap.Sorted.mono {m : MemMap} {v v' : Nat} (h : m.Sorted v) (hv : v ≤ v') :
    m.Sorted v' :=
  ⟨h.1, h.2.1, fun h0 => le_trans (h.2.2.1 h0) hv, le_trans h.2.2.2 hv⟩

/-- The leaf step keeps the buffer sorted and moves the cursor past the leaf. -/
theorem MapInitialize_Leaf_sorted (env : Env) (lvl va pte : Nat) (po : Bool) (m : MemMap)
    (hl : lvl = 1 ∨ lvl = 2) (hS : m.Sorted va) (hva : va < 2 ^ 32) :
    (MapInitialize_Leaf env lvl va pte po m).1.Sorted (va + leafPages lvl * 4096) := by
  have hP : 1 ≤ leafPages lvl := by
    rcases hl with h | h <;> subst h
    · rw [leafPages_one]
    · rw [leafPages_two]; norm_num
  rcases MapInitialize_Leaf_cases env lvl va pte po m hl hS hva with
    ⟨h, -⟩ | ⟨-, -, hc, -, e, hm, he1, he2, -⟩ | ⟨h0, -, hv, -, hc, e, hm, he1, he2, -⟩
  · rw [h]
    exact hS.mono (by omega)
  · obtain ⟨hS1, hS2, hS3, hS4⟩ := hS
    refine ⟨?_, ?_, ?_, ?_⟩
    · intro k hk
      rw [hm, Function.update_apply]
      split_ifs with hkc
      · rw [he2]; exact hP
      · exact hS1 k (by omega)
    · intro k hk
      rw [hm, Function.update_apply, Function.update_apply]
      have hk1 : ¬ k = m.cMemMap := by omega
      rw [if_neg hk1]
      split_ifs with hkc
      · rw [he1]
        have h3 := hS3 (by omega)
        have ek : k = m.cMemMap - 1 := by omega
        rw [ek]; exact h3
      · exact hS2 k (by omega)
    · intro _
      rw [hm, hc, Nat.add_sub_cancel, Function.update_same, he1, he2]
    · rw [hc]; omega
  · obtain ⟨hS1, hS2, hS3, hS4⟩ := hS
    refine ⟨?_, ?_, ?_, ?_⟩
    · intro k hk
      rw [hm, Function.update_apply]
      split_ifs with hkc
      · rw [he2]; omega
      · exact hS1 k (by omega)
    · intro k hk
      rw [hc] at hk
      rw [hm, Function.update_apply, Function.update_apply]
      have hk1 : ¬ k = m.cMemMap - 1 := by omega
      rw [if_neg hk1]
      split_ifs with hkc
      · rw [he1, ← hkc]; exact hS2 k hk
      · exact hS2 k hk
    · intro _
      rw [hm, hc, Function.update_same, he1, he2]
      omega
    · rw [hc]; omega

/-- When the leaf step returns, the count has come within one of the cap. -/
theorem MapInitialize_Leaf_return (env : Env) (lvl va pte : Nat) (po : Bool) (m : MemMap)
    (hl : lvl = 1 ∨ lvl = 2) (hS : m.Sorted va) (hva : va < 2 ^ 32)
    (hr : (MapInitialize_Leaf env lvl va pte po m).2 = true) :
    env.VMM_MEMMAP_ENTRIES_MAX ≤ (MapInitialize_Leaf env lvl va pte po m).1.cMemMap + 1 := by
  rcases MapInitialize_Leaf_cases env lvl va pte po m hl hS hva with
    ⟨h, hc⟩ | ⟨-, -, hc, hret, -⟩ | ⟨-, -, -, hf, -⟩
  · rw [h]; exact hc
  · rw [hc]; exact hret hr
  · rw [hf] at hr; cases hr

/-! ### Address arithmetic of the two-level walk -/

theorem slot_level2 (d a : Nat) (h1 : d * 4194304 ≤ a) (h2 : a < (d + 1) * 4194304) :
    a >>> 22 = d ∧ (a >>> 22) <<< 22 = d * 4194304 := by
  have e : a >>> 22 = d := by
    rw [Nat.shiftRight_eq_div_pow]; norm_num; omega
  refine ⟨e, ?_⟩
  rw [e, Nat.shiftLeft_eq]

theorem slot_level1 (d j a : Nat) (hj : j < 1024) (h1 : d * 4194304 + j * 4096 ≤ a)
    (h2 : a < d * 4194304 + (j + 1) * 4096) :
    a >>> 22 = d ∧ (a >>> 12) &&& 0x3ff = j ∧
    (a >>> 12) <<< 12 = d * 4194304 + j * 4096 := by
  have e : a >>> 12 = d * 1024 + j := by
    rw [Nat.shiftRight_eq_div_pow]; norm_num; omega
  refine ⟨?_, ?_, ?_⟩
  · rw [Nat.shiftRight_eq_div_pow]; norm_num; omega
  · rw [e, land_3ff]; omega
  · rw [e, Nat.shiftLeft_eq]; norm_num; omega

theorem va_level2 (d : Nat) (hd : d < 1024) :
    (0 + (d <<< MMX86_PAGETABLEMAP_PML_REGION_SIZE 2) % 2 ^ 32) % 2 ^ 32 = d * 4194304 := by
  simp only [MMX86_PAGETABLEMAP_PML_REGION_SIZE, Nat.shiftLeft_eq]
  norm_num; omega

theorem va_level1 (d j : Nat) (hd : d < 1024) (hj : j < 1024) :
    (d * 4194304 + (j <<< MMX86_PAGETABLEMAP_PML_REGION_SIZE 1) % 2 ^ 32) % 2 ^ 32 =
      d * 4194304 + j * 4096 := by
  simp only [MMX86_PAGETABLEMAP_PML_REGION_SIZE, Nat.shiftLeft_eq]
  norm_num; omega

/-- At the directory level a decoded entry is a present one: it is returned as it is and
is never marked paged-out. -/
theorem MapInitialize_Decode_level2 (env : Env) (paMax x pde : Nat) (po : Bool)
    (h : MapInitialize_Decode env paMax 2 false x = some (pde, po)) :
    pde = x ∧ po = false ∧ x &&& 0x01 ≠ 0 ∧ ¬ (x &&& 0xfffff000 > paMax) ∧
    ¬ (env.fUserOnly = true ∧ x &&& 0x04 = 0) := by
  unfold MapInitialize_Decode MMX86_PTE_IS_VALID at h
  by_cases h1 : x &&& 0x01 = 0
  · rw [if_pos h1] at h
    by_cases hx : x = 0
    · rw [if_pos hx] at h; cases h
    · rw [if_neg hx, if_pos (by decide)] at h; cases h
  · rw [if_neg h1] at h
    simp only [Bool.false_eq_true, if_false] at h
    by_cases h2 : x &&& 0xfffff000 > paMax
    · rw [if_pos h2] at h; cases h
    rw [if_neg h2] at h
    by_cases h3 : env.fUserOnly = true ∧ x &&& 0x04 = 0
    · rw [if_pos h3] at h; cases h
    rw [if_neg h3] at h
    cases h
    exact ⟨rfl, rfl, h1, h2, h3⟩

/-- The walk of one page table, reached from the directory entry `d`, preserves every
invariant and moves the cursor to the end of the 4MB slot of `d`. -/
theorem MapInitialize_walk_table (env : Env) (paMax : Nat) (PD : Page) (fuel : Nat)
    (I : MemMap → Nat → Prop) (hI : MapInitialize_Invariant env paMax PD I)
    (d : Nat) (hd : d < 1024) (pde : Nat) (po : Bool) (pt : Page)
    (hdec : MapInitialize_Decode env paMax 2 false (pdw PD d) = some (pde, po))
    (hps : ¬ pde &&& 0x80 ≠ 0) (hpt : env.tlb (pde &&& 0xfffff000) = some pt)
    (m : MemMap) (hS0 : m.Sorted (d * 4194304)) (hI0 : I m (d * 4194304)) :
    (MmX86_MapInitialize_Index env paMax (fuel + 1) m (d * 4194304) 1 pt
        (decide (pde &&& 0x04 = 0))).Sorted ((d + 1) * 4194304) ∧
    I (MmX86_MapInitialize_Index env paMax (fuel + 1) m (d * 4194304) 1 pt
        (decide (pde &&& 0x04 = 0))) ((d + 1) * 4194304) := by
  obtain ⟨hskip, hstop, hleaf⟩ := hI
  rw [MmX86_MapInitialize_Index]
  apply MapInitialize_Loop_rule _
    (fun j m' => m'.Sorted (d * 4194304 + j * 4096) ∧ I m' (d * 4194304 + j * 4096))
    (fun m' => m'.Sorted ((d + 1) * 4194304) ∧ I m' ((d + 1) * 4194304)) 1024 0 m
  · intro j m' _ hj hJ
    obtain ⟨hS, hIm⟩ := hJ
    have hj' : j < 1024 := by omega
    have hLA : ∀ a, d * 4194304 + j * 4096 ≤ a → a < d * 4194304 + (j + 1) * 4096 →
        MapInitialize_LeafAt env paMax PD a =
          match MapInitialize_Decode env paMax 1 (decide (pde &&& 0x04 = 0)) (pdw pt j) with
          | none => none
          | some (pte, fPagedOut) => some (d * 4194304 + j * 4096, pte, fPagedOut, 1) := by
      intro a h1 h2
      obtain ⟨e1, e2, e3⟩ := slot_level1 d j a hj' h1 h2
      unfold MapInitialize_LeafAt
      rw [e1, hdec]
      simp only [hps, if_false, hpt, e2, e3]
    unfold MapInitialize_Entry
    cases hdj : MapInitialize_Decode env paMax 1 (decide (pde &&& 0x04 = 0)) (pdw pt j) with
    | none =>
      simp only []
      refine ⟨fun _ => ⟨hS.mono (by omega), ?_⟩, fun h => by cases h⟩
      refine hskip m' _ _ (by omega) (by omega) (by omega) (by omega) ?_ hS hIm
      intro a h1 h2
      rw [hLA a h1 h2, hdj]
    | some p =>
      obtain ⟨pte, fPagedOut⟩ := p
      simp only [true_or, if_true]
      rw [va_level1 d j hd hj']
      have hcur : d * 4194304 + (j + 1) * 4096 =
          d * 4194304 + j * 4096 + leafPages 1 * 4096 := by
        rw [leafPages_one]; omega
      have hSl := MapInitialize_Leaf_sorted env 1 (d * 4194304 + j * 4096) pte fPagedOut m'
        (Or.inl rfl) hS (by norm_num; omega)
      have hIl := hleaf m' (d * 4194304 + j * 4096) pte fPagedOut 1 (Or.inl rfl)
        (by rw [leafPages_one]; norm_num; omega) (by omega)
        (by
          intro a h1 h2
          rw [← hcur] at h2
          rw [hLA a h1 h2, hdj]) hS hIm
      rw [← hcur] at hSl hIl
      refine ⟨fun _ => ⟨hSl, hIl⟩, fun hr => ?_⟩
      have hc := MapInitialize_Leaf_return env 1 (d * 4194304 + j * 4096) pte fPagedOut m'
        (Or.inl rfl) hS (by norm_num; omega) hr
      exact ⟨hSl.mono (by omega),
        hstop _ _ _ (by omega) (by omega) hc hSl hIl⟩
  · intro m' hJ
    have e : d * 4194304 + (0 + 1024) * 4096 = (d + 1) * 4194304 := by omega
    rw [e] at hJ
    exact hJ
  · have e : d * 4194304 + 0 * 4096 = d * 4194304 := by omega
    rw [e]
    exact ⟨hS0, hI0⟩

/-- Induction principle of the region-map builder: the walk of a directory, started as
`MmX86_PteMapInitialize` starts it (base 0, level 2, no supervisor narrowing), keeps the
buffer sorted and preserves every invariant, with the cursor at the end of the 32-bit
address space when it is done. -/
theorem MapInitialize_induct (env : Env) (paMax : Nat) (PD : Page) (fuel : Nat)
    (I : MemMap → Nat → Prop) (hI : MapInitialize_Invariant env paMax PD I)
    (m : MemMap) (hS0 : m.Sorted 0) (hI0 : I m 0) :
    (MmX86_MapInitialize_Index env paMax (fuel + 2) m 0 2 PD false).Sorted (2 ^ 32) ∧
    I (MmX86_MapInitialize_Index env paMax (fuel + 2) m 0 2 PD false) (2 ^ 32) := by
  have hI' := hI
  obtain ⟨hskip, hstop, hleaf⟩ := hI
  rw [MmX86_MapInitialize_Index]
  apply MapInitialize_Loop_rule _
    (fun d m' => m'.Sorted (d * 4194304) ∧ I m' (d * 4194304))
    (fun m' => m'.Sorted (2 ^ 32) ∧ I m' (2 ^ 32)) 1024 0 m
  · intro d m' _ hd hJ
    obtain ⟨hS, hIm⟩ := hJ
    have hd' : d < 1024 := by omega
    unfold MapInitialize_Entry
    cases hdec : MapInitialize_Decode env paMax 2 false (pdw PD d) with
    | none =>
      simp only []
      refine ⟨fun _ => ⟨hS.mono (by omega), ?_⟩, fun h => by cases h⟩
      refine hskip m' _ _ (by omega) (by omega) (by omega) (by omega) ?_ hS hIm
      intro a h1 h2
      obtain ⟨e1, -⟩ := slot_level2 d a h1 h2
      unfold MapInitialize_LeafAt
      rw [e1, hdec]
    | some p =>
      obtain ⟨pde, po⟩ := p
      obtain ⟨-, hpo, -⟩ := MapInitialize_Decode_level2 env paMax _ pde po hdec
      subst hpo
      simp only [OfNat.ofNat_ne_one, false_or]
      rw [va_level2 d hd']
      by_cases hps : pde &&& 0x80 ≠ 0
      · rw [if_pos hps]
        have hcur : (d + 1) * 4194304 = d * 4194304 + leafPages 2 * 4096 := by
          rw [leafPages_two]; omega
        have hSl := MapInitialize_Leaf_sorted env 2 (d * 4194304) pde false m'
          (Or.inr rfl) hS (by norm_num; omega)
        have hIl := hleaf m' (d * 4194304) pde false 2 (Or.inr rfl)
          (by rw [leafPages_two]; norm_num; omega) (by omega)
          (by
            intro a h1 h2
            rw [← hcur] at h2
            obtain ⟨e1, e2⟩ := slot_level2 d a h1 h2
            unfold MapInitialize_LeafAt
            rw [e2, e1, hdec]
            exact if_pos hps) hS hIm
        rw [← hcur] at hSl hIl
        refine ⟨fun _ => ⟨hSl, hIl⟩, fun hr => ?_⟩
        have hc := MapInitialize_Leaf_return env 2 (d * 4194304) pde false m'
          (Or.inr rfl) hS (by norm_num; omega) hr
        exact ⟨hSl.mono (by norm_num; omega),
          hstop _ _ _ (by norm_num; omega) (le_refl _) hc hSl hIl⟩
      · rw [if_neg hps]
        cases hpt : env.tlb (pde &&& 0xfffff000) with
        | none =>
          simp only []
          refine ⟨fun _ => ⟨hS.mono (by omega), ?_⟩, fun h => by cases h⟩
          refine hskip m' _ _ (by omega) (by omega) (by omega) (by omega) ?_ hS hIm
          intro a h1 h2
          obtain ⟨e1, -⟩ := slot_level2 d a h1 h2
          unfold MapInitialize_LeafAt
          rw [e1, hdec]
          simp only [hps, if_false, hpt]
        | some pt =>
          simp only []
          exact ⟨fun _ => MapInitialize_walk_table env paMax PD fuel I hI' d hd' pde false pt
            hdec hps hpt m' hS hIm, fun h => by cases h⟩
  · intro m' hJ
    have e : (0 + 1024) * 4194304 = 2 ^ 32 := by norm_num
    rw [e] at hJ
    exact hJ
  · have e : 0 * 4194304 = 0 := by omega
    rw [e]
    exact ⟨hS0, hI0⟩

/-- A relation that holds between all neighbouring slots holds along the region list. -/
theorem MemMap.regions_chain (m : MemMap) (R : VMM_MAP_PTEENTRY → VMM_MAP_PTEENTRY → Prop)
    (h : ∀ k, k + 1 < m.cMemMap → R (m.pMemMap k) (m.pMemMap (k + 1))) :
    List.Chain' R m.regions := by
  unfold MemMap.regions
  rw [List.chain'_map]
  cases hc : m.cMemMap with
  | zero => simp
  | succ n =>
    rw [List.chain'_range_succ]
    intro k hk
    exact h k (by omega)

theorem MemMap.Sorted_empty (buf : Nat → VMM_MAP_PTEENTRY) :
    (MemMap.mk buf 0).Sorted 0 := by
  refine ⟨?_, ?_, ?_, ?_⟩
  · intro k hk
    exact absurd hk (Nat.not_lt_zero k)
  · intro k hk
    exact absurd hk (Nat.not_lt_zero _)
  · intro h
    exact absurd h (Nat.lt_irrefl 0)
  · show 0 * 4096 ≤ 0
    omega

theorem MapInitialize_Invariant_true (env : Env) (paMax : Nat) (PD : Page) :
    MapInitialize_Invariant env paMax PD (fun _ _ => True) :=
  ⟨fun _ _ _ _ _ _ _ _ _ _ => trivial, fun _ _ _ _ _ _ _ _ => trivial,
    fun _ _ _ _ _ _ _ _ _ _ _ => trivial⟩

/-- The builder's output is sorted, for every start buffer with count zero. -/
theorem MapInitialize_sorted (env : Env) (paMax : Nat) (PD : Page) (fuel : Nat)
    (buf : Nat → VMM_MAP_PTEENTRY) :
    (MmX86_MapInitialize_Index env paMax (fuel + 2) ⟨buf, 0⟩ 0 2 PD false).Sorted (2 ^ 32) :=
  (MapInitialize_induct env paMax PD fuel (fun _ _ => True)
    (MapInitialize_Invariant_true env paMax PD) ⟨buf, 0⟩ (MemMap.Sorted_empty buf) trivial).1

/-- C5: for every cache state, process descriptor and directory page, the region list
that `MmX86_MapInitialize_Index` produces when started at the directory level with an
empty list (count 0, any buffer content) is sorted strictly ascending by virtual base and
non-overlapping: for every two consecutive regions `r` and `s`,
`r.vaBase + r.cPages * 4096 <= s.vaBase` and `r.vaBase < s.vaBase`. -/
theorem C5_regions_sorted (env : Env) (paMax : Nat) (PD : Page) (fuel : Nat)
    (buf : Nat → VMM_MAP_PTEENTRY) :
    List.Chain' (fun r s => r.vaBase + r.cPages * 4096 ≤ s.vaBase ∧ r.vaBase < s.vaBase)
      (MmX86_MapInitialize_Index env paMax (fuel + 2) ⟨buf, 0⟩ 0 2 PD false).regions := by
  have hS := MapInitialize_sorted env paMax PD fuel buf
  apply MemMap.regions_chain
  intro k hk
  have h1 := hS.1 k (by omega)
  have h2 := hS.2.1 k hk
  exact ⟨h2, by omega⟩

/-- The leaf step never makes two neighbouring regions mergeable. -/
theorem MapInitialize_Invariant_unmergeable (env : Env) (paMax : Nat) (PD : Page) :
    MapInitialize_Invariant env paMax PD (fun m _ => m.Unmergeable) := by
  refine ⟨fun _ _ _ _ _ _ _ _ _ h => h, fun _ _ _ _ _ _ _ h => h, ?_⟩
  intro m va pte po lvl hl hva _ _ hS hU
  have hP : 1 ≤ leafPages lvl := by
    rcases hl with h | h <;> subst h
    · rw [leafPages_one]
    · rw [leafPages_two]; norm_num
  rcases MapInitialize_Leaf_cases env lvl va pte po m hl hS (by omega) with
    ⟨h, -⟩ | ⟨-, hnew, hc, -, e, hm, he1, he2, he3⟩ | ⟨h0, -, hv, -, hc, e, hm, he1, he2, he3⟩
  · rw [h]; exact hU
  · intro k hk
    rw [hc] at hk
    rw [hm, Function.update_apply, Function.update_apply]
    have hk1 : ¬ k = m.cMemMap := by omega
    rw [if_neg hk1]
    split_ifs with hkc
    · have ek : k = m.cMemMap - 1 := by omega
      rw [he1, he3, ek]
      rcases hnew with h | h | h
      · omega
      · exact fun hh => h.1 hh.2
      · exact fun hh => h hh.1.symm
    · exact hU k (by omega)
  · intro k hk
    rw [hc] at hk
    rw [hm, Function.update_apply, Function.update_apply]
    have hk1 : ¬ k = m.cMemMap - 1 := by omega
    rw [if_neg hk1]
    split_ifs with hkc
    · rw [he1, he3, ← hkc]; exact hU k hk
    · exact hU k hk

/-- Merging changes nothing on a list without mergeable neighbours. -/
theorem mergeInto_eq_of_chain (l : List VMM_MAP_PTEENTRY) :
    ∀ r : VMM_MAP_PTEENTRY,
      List.Chain' (fun r s => ¬ (r.vaBase + r.cPages * 4096 = s.vaBase ∧ r.fPage = s.fPage))
        (r :: l) → mergeInto r l = r :: l := by
  induction l with
  | nil => intro r _; rfl
  | cons s rest ih =>
    intro r h
    rw [List.chain'_cons] at h
    rw [mergeInto, if_neg h.1, ih s h.2]

/-- C6: in the region list produced by `MmX86_MapInitialize_Index` (started at the
directory level with an empty list) no two consecutive regions are both virtually
contiguous (`r.vaBase + r.cPages * 4096 = s.vaBase`) and of identical page-type flags;
equivalently, merging adjacent contiguous equal-flag regions of the output changes
nothing. -/
theorem C6_regions_merged (env : Env) (paMax : Nat) (PD : Page) (fuel : Nat)
    (buf : Nat → VMM_MAP_PTEENTRY) :
    List.Chain' (fun r s => ¬ (r.vaBase + r.cPages * 4096 = s.vaBase ∧ r.fPage = s.fPage))
      (MmX86_MapInitialize_Index env paMax (fuel + 2) ⟨buf, 0⟩ 0 2 PD false).regions ∧
    mergeAdjacent (MmX86_MapInitialize_Index env paMax (fuel + 2) ⟨buf, 0⟩ 0 2 PD
      false).regions =
      (MmX86_MapInitialize_Index env paMax (fuel + 2) ⟨buf, 0⟩ 0 2 PD false).regions := by
  have hU := (MapInitialize_induct env paMax PD fuel (fun m _ => m.Unmergeable)
    (MapInitialize_Invariant_unmergeable env paMax PD) ⟨buf, 0⟩ (MemMap.Sorted_empty buf)
    (fun k hk => absurd hk (Nat.not_lt_zero _))).2
  have hch := MemMap.regions_chain
    (MmX86_MapInitialize_Index env paMax (fuel + 2) ⟨buf, 0⟩ 0 2 PD false)
    (fun r s => ¬ (r.vaBase + r.cPages * 4096 = s.vaBase ∧ r.fPage = s.fPage))
    (fun k hk => hU k hk)
  refine ⟨hch, ?_⟩
  cases hl : (MmX86_MapInitialize_Index env paMax (fuel + 2) ⟨buf, 0⟩ 0 2 PD
      false).regions with
  | nil => rfl
  | cons r rest =>
    rw [hl] at hch
    exact mergeInto_eq_of_chain rest r hch

/-- The leaf step keeps the count below the cap and writes no slot at or above the new
count. -/
theorem MapInitialize_Invariant_capped (env : Env) (paMax : Nat) (PD : Page)
    (buf : Nat → VMM_MAP_PTEENTRY) :
    MapInitialize_Invariant env paMax PD (fun m _ => m.Capped env buf) := by
  refine ⟨fun _ _ _ _ _ _ _ _ _ h => h, fun _ _ _ _ _ _ _ h => h, ?_⟩
  intro m va pte po lvl hl hva _ _ hS hC
  obtain ⟨hC1, hC2⟩ := hC
  have hP := leafPages_pos lvl hl
  rcases MapInitialize_Leaf_cases env lvl va pte po m hl hS (by omega) with
    ⟨h, -⟩ | ⟨hlt, -, hc, -, e, hm, -⟩ | ⟨h0, -, -, -, hc, e, hm, -⟩
  · rw [h]; exact ⟨hC1, hC2⟩
  · refine ⟨Or.inr (by rw [hc]; omega), ?_⟩
    intro k hk
    rw [hc] at hk
    rw [hm, Function.update_apply, if_neg (by omega)]
    exact hC2 k (by omega)
  · refine ⟨by rw [hc]; exact hC1, ?_⟩
    intro k hk
    rw [hc] at hk
    rw [hm, Function.update_apply, if_neg (by omega)]
    exact hC2 k hk

/-- C7: for every cache state and every start buffer with count zero, the number of
regions produced by `MmX86_MapInitialize_Index` never exceeds `VMM_MEMMAP_ENTRIES_MAX`
(it is zero or strictly below the cap), and no buffer slot at an index at or above the
cap — indeed at or above the final count — differs from its content before the call,
whatever the address space contains. -/
theorem C7_region_cap (env : Env) (paMax : Nat) (PD : Page) (fuel : Nat)
    (buf : Nat → VMM_MAP_PTEENTRY) :
    (MmX86_MapInitialize_Index env paMax (fuel + 2) ⟨buf, 0⟩ 0 2 PD false).cMemMap ≤
      env.VMM_MEMMAP_ENTRIES_MAX ∧
    ((MmX86_MapInitialize_Index env paMax (fuel + 2) ⟨buf, 0⟩ 0 2 PD false).cMemMap = 0 ∨
      (MmX86_MapInitialize_Index env paMax (fuel + 2) ⟨buf, 0⟩ 0 2 PD false).cMemMap <
        env.VMM_MEMMAP_ENTRIES_MAX) ∧
    (∀ k, env.VMM_MEMMAP_ENTRIES_MAX ≤ k →
      (MmX86_MapInitialize_Index env paMax (fuel + 2) ⟨buf, 0⟩ 0 2 PD false).pMemMap k =
        buf k) ∧
    (∀ k, (MmX86_MapInitialize_Index env paMax (fuel + 2) ⟨buf, 0⟩ 0 2 PD false).cMemMap ≤ k →
      (MmX86_MapInitialize_Index env paMax (fuel + 2) ⟨buf, 0⟩ 0 2 PD false).pMemMap k =
        buf k) := by
  have hC := (MapInitialize_induct env paMax PD fuel (fun m _ => m.Capped env buf)
    (MapInitialize_Invariant_capped env paMax PD buf) ⟨buf, 0⟩ (MemMap.Sorted_empty buf)
    ⟨Or.inl rfl, fun _ _ => rfl⟩).2
  obtain ⟨h1, h2⟩ := hC
  refine ⟨?_, h1, ?_, h2⟩
  · rcases h1 with h | h <;> omega
  · intro k hk
    apply h2
    rcases h1 with h | h <;> omega

/-- The leaf step keeps the provenance of every covered address. -/
theorem MapInitialize_Invariant_provenance (env : Env) (paMax : Nat) (PD : Page) :
    MapInitialize_Invariant env paMax PD (fun m _ => m.Provenance env paMax PD) := by
  refine ⟨fun _ _ _ _ _ _ _ _ _ h => h, fun _ _ _ _ _ _ _ h => h, ?_⟩
  intro m va pte po lvl hl hva _ hLA hS hPr
  have hP := leafPages_pos lvl hl
  rcases MapInitialize_Leaf_cases env lvl va pte po m hl hS (by omega) with
    ⟨h, -⟩ | ⟨-, -, hc, -, e, hm, he1, he2, he3⟩ |
    ⟨h0, hfl, hv, -, hc, e, hm, he1, he2, he3⟩
  · rw [h]; exact hPr
  · intro k a hk hcov
    rw [hc] at hk
    unfold MemMap.covers at hcov
    rw [hm, Function.update_apply] at hcov ⊢
    by_cases hkc : k = m.cMemMap
    · rw [if_pos hkc] at hcov ⊢
      rw [he1, he2] at hcov
      exact ⟨va, pte, po, lvl, hLA a hcov.1 hcov.2, fun _ => he3⟩
    · rw [if_neg hkc] at hcov ⊢
      exact hPr k a (by omega) hcov
  · intro k a hk hcov
    rw [hc] at hk
    unfold MemMap.covers at hcov
    rw [hm, Function.update_apply] at hcov ⊢
    by_cases hkc : k = m.cMemMap - 1
    · rw [if_pos hkc] at hcov ⊢
      rw [he1, he2] at hcov
      rw [he3]
      by_cases hold : a < (m.pMemMap (m.cMemMap - 1)).vaBase +
          (m.pMemMap (m.cMemMap - 1)).cPages * 4096
      · exact hPr (m.cMemMap - 1) a (by omega) ⟨hcov.1, hold⟩
      · refine ⟨va, pte, po, lvl, hLA a (by omega) (by rw [hv]; have := hcov.2; linarith), ?_⟩
        intro hpo
        rcases hfl with h | h
        · exact h
        · rw [hpo] at h; cases h
    · rw [if_neg hkc] at hcov ⊢
      exact hPr k a hk hcov

/-- Every address covered by a region of the builder's output is one for which the walk
finds a leaf, with matching flags unless the leaf is a paged-out guess. -/
theorem MapInitialize_provenance (env : Env) (paMax : Nat) (PD : Page) (fuel : Nat)
    (buf : Nat → VMM_MAP_PTEENTRY) :
    (MmX86_MapInitialize_Index env paMax (fuel + 2) ⟨buf, 0⟩ 0 2 PD false).Provenance
      env paMax PD :=
  (MapInitialize_induct env paMax PD fuel (fun m _ => m.Provenance env paMax PD)
    (MapInitialize_Invariant_provenance env paMax PD) ⟨buf, 0⟩ (MemMap.Sorted_empty buf)
    (fun k _ hk _ => absurd hk (Nat.not_lt_zero k))).2

/-- Decoding a present entry: it is never marked paged-out, it is returned with the user
bit cleared under a supervisor-only ancestor and unchanged otherwise, its frame is not
above `paMax` and it passes the privilege filter. -/
theorem MapInitialize_Decode_present (env : Env) (paMax lvl : Nat) (sup : Bool)
    (x pte : Nat) (po : Bool) (hx : x &&& 0x01 ≠ 0)
    (h : MapInitialize_Decode env paMax lvl sup x = some (pte, po)) :
    po = false ∧ pte = (if sup = true then x &&& 0xfffffffb else x) ∧
    ¬ (x &&& 0xfffff000 > paMax) ∧ ¬ (env.fUserOnly = true ∧ pte &&& 0x04 = 0) := by
  unfold MapInitialize_Decode MMX86_PTE_IS_VALID at h
  rw [if_neg hx] at h
  simp only [] at h
  by_cases h2 : x &&& 0xfffff000 > paMax
  · rw [if_pos h2] at h; cases h
  rw [if_neg h2] at h
  by_cases h3 : env.fUserOnly = true ∧ (if sup = true then x &&& 0xfffffffb else x) &&& 0x04 = 0
  · rw [if_pos h3] at h; cases h
  rw [if_neg h3] at h
  cases h
  exact ⟨rfl, rfl, h2, h3⟩

theorem land_clear_user (x : Nat) : (x &&& 0xfffffffb) &&& 0x04 = 0 := by
  rw [Nat.land_assoc]
  have e : (0xfffffffb : Nat) &&& 0x04 = 0 := by decide
  rw [e, Nat.and_zero]

/-- What the walk finds for an address whose leaf entry is hardware-present. -/
theorem MapInitialize_LeafAt_present (env : Env) (paMax : Nat) (PD : Page)
    (a va pte : Nat) (po : Bool) (lvl : Nat)
    (h : MapInitialize_LeafAt env paMax PD a = some (va, pte, po, lvl))
    (hp : HardwarePresentAt env PD a) :
    po = false ∧ (pdw PD (a >>> 22) &&& 0x04 = 0 → pte &&& 0x04 = 0) ∧
    ¬ (env.fUserOnly = true ∧ pdw PD (a >>> 22) &&& 0x04 = 0) ∧
    ((pdw PD (a >>> 22) &&& 0x80 ≠ 0 ∧ pte = pdw PD (a >>> 22)) ∨
     (pdw PD (a >>> 22) &&& 0x80 = 0 ∧
      ∃ pt, env.tlb (pdw PD (a >>> 22) &&& 0xfffff000) = some pt ∧
        pdw pt ((a >>> 12) &&& 0x3ff) &&& 0x01 ≠ 0 ∧
        (env.fUserOnly = true → pdw pt ((a >>> 12) &&& 0x3ff) &&& 0x04 ≠ 0))) := by
  unfold MapInitialize_LeafAt at h
  cases hdec : MapInitialize_Decode env paMax 2 false (pdw PD (a >>> 22)) with
  | none => rw [hdec] at h; cases h
  | some p =>
    obtain ⟨pde, po2⟩ := p
    rw [hdec] at h
    obtain ⟨hpde, -, -, -, hpriv⟩ := MapInitialize_Decode_level2 env paMax _ pde po2 hdec
    obtain ⟨-, hp2⟩ := hp
    rw [← hpde] at hpriv hp2 ⊢
    generalize pdw PD (a >>> 22) = x at hpde
    simp only [] at h
    by_cases hps : pde &&& 0x80 ≠ 0
    · rw [if_pos hps] at h
      simp only [Option.some.injEq, Prod.mk.injEq] at h
      obtain ⟨-, h2, h3, -⟩ := h
      subst h2 h3
      exact ⟨rfl, fun h => h, hpriv, Or.inl ⟨hps, rfl⟩⟩
    · rw [if_neg hps] at h
      rcases hp2 with hp2 | ⟨pt, hpt, hv⟩
      · exact absurd hp2 hps
      · rw [hpt] at h
        simp only [] at h
        cases hd1 : MapInitialize_Decode env paMax 1
            (decide (pde &&& 0x04 = 0)) (pdw pt ((a >>> 12) &&& 0x3ff)) with
        | none => rw [hd1] at h; cases h
        | some q =>
          obtain ⟨pte1, po1⟩ := q
          rw [hd1] at h
          simp only [Option.some.injEq, Prod.mk.injEq] at h
          obtain ⟨-, h2, h3, -⟩ := h
          subst h2 h3
          obtain ⟨hpo, hpte, -, hu⟩ := MapInitialize_Decode_present env paMax 1 _ _ _ _ hv hd1
          refine ⟨hpo, ?_, hpriv, Or.inr ⟨not_not.mp hps, pt, hpt, hv, ?_⟩⟩
          · intro hsup
            rw [hpte, if_pos (by simpa using hsup)]
            exact land_clear_user _
          · intro hfu hz
            apply hu
            refine ⟨hfu, ?_⟩
            rw [hpte]
            split_ifs
            · exact land_clear_user _
            · exact hz

set_option maxRecDepth 100000 in
/-- C8 (counterexample): no privilege filter; directory entry 0 is a user entry whose
table maps its last page `0x3ff000` (user, writable), directory entry 1 is supervisor-only
and the first entry of its table is not present but non-zero. The builder takes that entry
as paged-out and merges the page `0x400000` into the region of `0x3ff000`: the output is
one region of two pages whose flags have the user bit `0x4` set, and it covers a page
under the supervisor-only directory entry 1. -/
theorem C8_counterexample :
    (MmX86_MapInitialize_Index envNarrow 0xffffffff 2 MemMap.empty 0 2 dirNarrow
      false).regions.map (fun r => (r.vaBase, r.cPages, r.fPage)) = [(0x3ff000, 2, 6)] ∧
    envNarrow.tlb 0x1000 = some dirNarrow ∧
    pdw dirNarrow (0x400000 >>> 22) &&& 0x04 = 0 ∧
    0x3ff000 ≤ 0x400000 ∧ 0x400000 < 0x3ff000 + 2 * 4096 ∧
    ((MmX86_MapInitialize_Index envNarrow 0xffffffff 2 MemMap.empty 0 2 dirNarrow
      false).pMemMap 0).fPage &&& 0x04 ≠ 0 := by
  refine ⟨by decide, rfl, by decide, by decide, by decide, by decide⟩

/-- C8 (amended): for every cache state and either setting of the privilege filter, every
virtual address that lies under a directory entry whose user bit is clear, whose own leaf
entry is hardware-present (a present page-table entry or a large-page directory entry)
and that is covered by a region of the builder's output, is covered by a region whose
flags have the user-accessible bit `0x4` clear. Pages that the builder takes as
transition or paged-out are left out: they join the trailing region whatever its flags
are. -/
theorem C8_supervisor_narrowing (env : Env) (paMax : Nat) (PD : Page) (fuel : Nat)
    (buf : Nat → VMM_MAP_PTEENTRY) (k a : Nat)
    (hk : k < (MmX86_MapInitialize_Index env paMax (fuel + 2) ⟨buf, 0⟩ 0 2 PD false).cMemMap)
    (hcov : (MmX86_MapInitialize_Index env paMax (fuel + 2) ⟨buf, 0⟩ 0 2 PD false).covers k a)
    (hsup : pdw PD (a >>> 22) &&& 0x04 = 0) (hhw : HardwarePresentAt env PD a) :
    ((MmX86_MapInitialize_Index env paMax (fuel + 2) ⟨buf, 0⟩ 0 2 PD false).pMemMap k).fPage
      &&& 0x04 = 0 := by
  obtain ⟨va, pte, po, lvl, hLA, hfl⟩ := MapInitialize_provenance env paMax PD fuel buf k a hk hcov
  obtain ⟨hpo, hclr, -⟩ := MapInitialize_LeafAt_present env paMax PD a va pte po lvl hLA hhw
  rw [hfl hpo, Nat.land_assoc, Nat.land_comm env.VMM_MEMMAP_PAGE_MASK, ← Nat.land_assoc,
    hclr hsup, Nat.zero_and]

set_option maxRecDepth 100000 in
/-- C8 (witness): a supervisor-only 4MB page at directory entry 5 yields a region whose
flags have the user bit clear. -/
theorem C8_supervisor_narrowing_witness :
    ((MmX86_MapInitialize_Index envPlain 0xffffffff 2 MemMap.empty 0 2 dirSupervisorLarge
      false).pMemMap 0).fPage &&& 0x04 = 0 :=
  C8_supervisor_narrowing envPlain 0xffffffff dirSupervisorLarge 0
    (fun _ => { vaBase := 0, cPages := 0, fPage := 0, cSoftware := 0 }) 0 0x01400000
    (by decide) (by unfold MemMap.covers; decide) (by decide)
    ⟨by decide, Or.inl (by decide)⟩

/-! ### Coverage and page count -/

/-- In a sorted buffer a region ends at or below the base of every later region. -/
theorem MemMap.Sorted.end_le_base {m : MemMap} {v : Nat} (h : m.Sorted v) :
    ∀ n k, k + 1 + n < m.cMemMap →
      (m.pMemMap k).vaBase + (m.pMemMap k).cPages * 4096 ≤ (m.pMemMap (k + 1 + n)).vaBase := by
  intro n
  induction n with
  | zero => intro k hk; exact h.2.1 k hk
  | succ n ih =>
    intro k hk
    have h1 := ih k (by omega)
    have h2 := h.2.1 (k + 1 + n) (by omega)
    have e : k + 1 + (n + 1) = k + 1 + n + 1 := by omega
    rw [e]
    omega

/-- In a sorted buffer every region ends at or below the cursor. -/
theorem MemMap.Sorted.end_le {m : MemMap} {v : Nat} (h : m.Sorted v) (k : Nat)
    (hk : k < m.cMemMap) :
    (m.pMemMap k).vaBase + (m.pMemMap k).cPages * 4096 ≤ v := by
  have h3 := h.2.2.1 (by omega)
  by_cases hkc : k = m.cMemMap - 1
  · rw [hkc]; exact h3
  · have h1 := h.end_le_base (m.cMemMap - 1 - (k + 1)) k (by omega)
    have e : k + 1 + (m.cMemMap - 1 - (k + 1)) = m.cMemMap - 1 := by omega
    rw [e] at h1
    omega

theorem dir_index_of_lt (a : Nat) (ha : a < 2 ^ 32) : (a >>> 22) &&& 0x3ff = a >>> 22 := by
  rw [land_3ff, Nat.shiftRight_eq_div_pow]
  have e : (2 : Nat) ^ 22 = 4194304 := by norm_num
  rw [e]
  have e2 : (2 : Nat) ^ 32 = 4294967296 := by norm_num
  rw [e2] at ha
  omega

set_option maxRecDepth 100000 in
/-- C10 (counterexample): the directory entry 5 is a present, user-accessible 4MB page
whose reserved bit 17 is set. The builder, which has no reserved-bit check, places the
1024 pages from `0x01400000` in a region, while `MmX86_Virt2Phys` with the same directory
base and privilege filter fails on `0x01400000`. -/
theorem C10_counterexample :
    envReservedLarge.tlb (0x1000 &&& 0xfffff000) = some dirReservedLarge ∧
    (MmX86_MapInitialize_Index envReservedLarge 0xffffffff 2 MemMap.empty 0 2
      dirReservedLarge false).regions.map (fun r => (r.vaBase, r.cPages, r.fPage)) =
      [(0x01400000, 1024, 6)] ∧
    pdw dirReservedLarge (0x01400000 >>> 22) &&& 0x01 ≠ 0 ∧
    pdw dirReservedLarge (0x01400000 >>> 22) &&& 0x80 ≠ 0 ∧
    (MmX86_Virt2Phys envReservedLarge.tlb 2 0x1000 envReservedLarge.fUserOnly 2
      0x01400000 0).1 = false := by
  refine ⟨rfl, by decide, by decide, by decide, by decide⟩

/-- C10 (amended): for every cache state, every process descriptor whose directory base
is at most `0xffffffff`, and every virtual address that the builder places in a region
because of a hardware-present leaf entry (a present page-table entry, or a present
directory entry with the page-size bit set and the reserved bits `0x003e0000` clear),
`MmX86_Virt2Phys` called with the same directory base, the same privilege filter and that
address succeeds and returns the physical address of the 4KB frame of that leaf:
`pte & 0xfffff000` for a page-table entry, the large page's base plus `va & 0x003ff000`
for a large page. -/
theorem C10_builder_translator (env : Env) (paMax paDTB : Nat) (PD : Page)
    (fuel fuel' : Nat) (buf : Nat → VMM_MAP_PTEENTRY) (iPML k a ppa : Nat)
    (hl : iPML = 2 ∨ iPML = 255) (hdtb : paDTB ≤ 0xffffffff)
    (hpd : env.tlb (paDTB &&& 0xfffff000) = some PD)
    (hk : k < (MmX86_MapInitialize_Index env paMax (fuel + 2) ⟨buf, 0⟩ 0 2 PD false).cMemMap)
    (hcov : (MmX86_MapInitialize_Index env paMax (fuel + 2) ⟨buf, 0⟩ 0 2 PD false).covers k a)
    (hhw : HardwarePresentAt env PD a)
    (hres : pdw PD (a >>> 22) &&& 0x80 ≠ 0 → pdw PD (a >>> 22) &&& 0x003e0000 = 0) :
    (MmX86_Virt2Phys env.tlb (fuel' + 2) paDTB env.fUserOnly iPML a ppa).1 = true ∧
    ((pdw PD (a >>> 22) &&& 0x80 ≠ 0 ∧
        (MmX86_Virt2Phys env.tlb (fuel' + 2) paDTB env.fUserOnly iPML a ppa).2 =
          ((pdw PD (a >>> 22) &&& 0x0001e000) <<< 19) + (pdw PD (a >>> 22) &&& 0xffc00000)
            + (a &&& 0x003ff000)) ∨
     (pdw PD (a >>> 22) &&& 0x80 = 0 ∧
        ∃ pt, env.tlb (pdw PD (a >>> 22) &&& 0xfffff000) = some pt ∧
          (MmX86_Virt2Phys env.tlb (fuel' + 2) paDTB env.fUserOnly iPML a ppa).2 =
            pdw pt ((a >>> 12) &&& 0x3ff) &&& 0xfffff000)) := by
  have hS := MapInitialize_sorted env paMax PD fuel buf
  have hend := hS.end_le k hk
  have ha : a < 2 ^ 32 := by
    unfold MemMap.covers at hcov
    omega
  obtain ⟨va, pte, po, lvl, hLA, -⟩ := MapInitialize_provenance env paMax PD fuel buf k a hk hcov
  obtain ⟨-, -, hpriv, hleaf⟩ := MapInitialize_LeafAt_present env paMax PD a va pte po lvl hLA hhw
  have hv1 := hhw.1
  have hlt := pdw_lt PD (a >>> 22)
  rw [Virt2Phys_level2 _ _ _ _ _ _ _ hl, if_neg (by omega), if_neg (by omega), hpd]
  simp only [dir_index_of_lt a ha]
  generalize pdw PD (a >>> 22) = pde at hv1 hlt hpriv hleaf hres ⊢
  rw [if_neg hv1, if_neg hpriv]
  rcases hleaf with ⟨hps, -⟩ | ⟨hps, pt, hpt, hv, hu⟩
  · have hr := hres hps
    rw [if_neg hps, if_neg (not_not.mpr hr)]
    exact ⟨rfl, Or.inl ⟨hps, rfl⟩⟩
  · rw [if_pos hps, Virt2Phys_level1, if_neg (by omega), if_neg (by omega), hpt]
    simp only []
    have hu' : ¬ (env.fUserOnly = true ∧ pdw pt ((a >>> 12) &&& 0x3ff) &&& 0x04 = 0) :=
      fun h => hu h.1 h.2
    rw [if_neg hv, if_neg hu']
    exact ⟨rfl, Or.inr ⟨hps, pt, rfl, rfl⟩⟩

set_option maxRecDepth 100000 in
/-- C10 (witness): the large page at directory entry 5, without reserved bits, is placed
in a region by the builder and translated by `MmX86_Virt2Phys`. -/
theorem C10_builder_translator_witness :
    (MmX86_Virt2Phys envLargeAt5.tlb 2 0x1000 envLargeAt5.fUserOnly 2 0x01400123 0).1 = true :=
  (C10_builder_translator envLargeAt5 0xffffffff 0x1000 dirLargeAt5 0 0
    (fun _ => { vaBase := 0, cPages := 0, fPage := 0, cSoftware := 0 }) 2 0 0x01400123 0
    (Or.inl rfl) (by decide) rfl (by decide) (by unfold MemMap.covers; decide)
    ⟨by decide, Or.inl (by decide)⟩ (fun _ => by decide)).1

/-- The builder masks the directory base to 32 bits before it asks the cache, while the
single translator rejects a base above `0xffffffff`: for such a base the builder's pages
do not translate. This is why the amended C10 bounds the directory base. -/
theorem Virt2Phys_rejects_wide_base :
    (0x100001000 &&& 0xfffff000 = 0x1000) ∧
    (MmX86_Virt2Phys envLargeAt5.tlb 2 0x100001000 false 2 0x01400000 0).1 = false := by
  decide

/-! ## Large-page composition: claims C17 and C20 -/

theorem land_001fe000 (x : Nat) : x &&& 0x001fe000 = x / 8192 % 256 * 8192 := by
  have h := land_shifted_mask x 8 13
  simpa [Nat.shiftLeft_eq, Nat.shiftRight_eq_div_pow] using h

theorem land_003e0000 (x : Nat) : x &&& 0x003e0000 = x / 131072 % 32 * 131072 := by
  have h := land_shifted_mask x 5 17
  simpa [Nat.shiftLeft_eq, Nat.shiftRight_eq_div_pow] using h

/-- The translator's large-page base in arithmetic form. -/
theorem Virt2Phys_LargePageBase_eq (pte : Nat) :
    Virt2Phys_LargePageBase pte =
      4294967296 * (pte / 8192 % 16) + pte / 4194304 % 1024 * 4194304 := by
  unfold Virt2Phys_LargePageBase
  rw [land_0001e000, land_ffc00000, Nat.shiftLeft_eq]
  norm_num
  omega

/-- The reverse mapper's large-page base in arithmetic form. -/
theorem Phys2Virt_LargePageBase_eq (pte : Nat) :
    Phys2Virt_LargePageBase pte =
      4294967296 * (pte / 8192 % 256) + pte / 4194304 % 1024 * 4194304 := by
  unfold Phys2Virt_LargePageBase
  rw [land_001fe000, land_ffc00000, Nat.shiftLeft_eq, Nat.lor_comm]
  have e : pte / 8192 % 256 * 8192 * 2 ^ 19 = 2 ^ 32 * (pte / 8192 % 256) := by
    norm_num
    omega
  rw [e, ← Nat.mul_add_lt_is_or (by norm_num; omega)]

/-- C20: for every large-page directory entry whose reserved bits 17-21 (mask
`0x003e0000`) are all clear, the base computed by the reverse mapper,
`(pte & 0xffc00000) | ((pte & 0x001fe000) << 19)`, equals the base computed by the single
translator, `((pte & 0x0001e000) << 19) + (pte & 0xffc00000)`; hence the two differ only
for entries with a reserved bit set, which the single translator rejects. -/
theorem C20_large_base_agree (pte : Nat) :
    (pte &&& 0x003e0000 = 0 → Phys2Virt_LargePageBase pte = Virt2Phys_LargePageBase pte) ∧
    (Phys2Virt_LargePageBase pte ≠ Virt2Phys_LargePageBase pte → pte &&& 0x003e0000 ≠ 0) := by
  have key : pte &&& 0x003e0000 = 0 →
      Phys2Virt_LargePageBase pte = Virt2Phys_LargePageBase pte := by
    intro h
    rw [land_003e0000] at h
    rw [Phys2Virt_LargePageBase_eq, Virt2Phys_LargePageBase_eq]
    have e : pte / 8192 % 256 = pte / 8192 % 16 := by omega
    rw [e]
  exact ⟨key, fun hne h => hne (key h)⟩

/-- C20 (witness): the entry `0x00c02087` (extension bit 13 set, reserved bits clear) has
the same base `0x100c00000` in both computations. -/
theorem C20_large_base_agree_witness :
    Phys2Virt_LargePageBase 0x00c02087 = Virt2Phys_LargePageBase 0x00c02087 :=
  (C20_large_base_agree 0x00c02087).1 (by decide)

/-- The value of a successful directory-level translation: the large-page base plus the
page offset inside the large page, or the frame of the page-table entry. -/
theorem Virt2Phys_dir_success (tlb : Tlb) (fuel paPT : Nat) (fUserOnly : Bool)
    (iPML va ppa : Nat) (hl : iPML = 2 ∨ iPML = 255)
    (hs : (MmX86_Virt2Phys tlb (fuel + 2) paPT fUserOnly iPML va ppa).1 = true) :
    ∃ pd, tlb (paPT &&& 0xfffff000) = some pd ∧
      ((pdw pd ((va >>> 22) &&& 0x3ff) &&& 0x80 ≠ 0 ∧
          pdw pd ((va >>> 22) &&& 0x3ff) &&& 0x003e0000 = 0 ∧
          (MmX86_Virt2Phys tlb (fuel + 2) paPT fUserOnly iPML va ppa).2 =
            Virt2Phys_LargePageBase (pdw pd ((va >>> 22) &&& 0x3ff)) + (va &&& 0x003ff000)) ∨
        (pdw pd ((va >>> 22) &&& 0x3ff) &&& 0x80 = 0 ∧
          ∃ pt, tlb (pdw pd ((va >>> 22) &&& 0x3ff) &&& 0xfffff000) = some pt ∧
            (MmX86_Virt2Phys tlb (fuel + 2) paPT fUserOnly iPML va ppa).2 =
              pdw pt ((va >>> 12) &&& 0x3ff) &&& 0xfffff000)) := by
  obtain ⟨hva, hpa, pd, hpd, h1, h4, hcase⟩ :=
    (Virt2Phys_dir_iff tlb fuel paPT fUserOnly iPML va ppa hl).mp hs
  refine ⟨pd, hpd, ?_⟩
  have hlt := pdw_lt pd ((va >>> 22) &&& 0x3ff)
  rw [Virt2Phys_level2 _ _ _ _ _ _ _ hl, if_neg (by omega), if_neg (by omega), hpd]
  simp only []
  generalize pdw pd ((va >>> 22) &&& 0x3ff) = pde at hlt h1 h4 hcase ⊢
  have h4' : ¬ (fUserOnly = true ∧ pde &&& 0x04 = 0) := fun h => h4 h.1 h.2
  rw [if_neg h1, if_neg h4']
  rcases hcase with ⟨hps, hres⟩ | ⟨hps, pt, hpt, g1, g4⟩
  · rw [if_neg hps, if_neg (not_not.mpr hres)]
    exact Or.inl ⟨hps, hres, rfl⟩
  · rw [if_pos hps, Virt2Phys_level1, if_neg (by omega), if_neg (by omega), hpt]
    simp only []
    have g4' : ¬ (fUserOnly = true ∧ pdw pt ((va >>> 12) &&& 0x3ff) &&& 0x04 = 0) :=
      fun h => g4 h.1 h.2
    rw [if_neg g1, if_neg g4']
    exact Or.inr ⟨hps, pt, rfl, rfl⟩

/-- C17 (counterexample): the directory entry 5 is a 4MB page with the extension bit 13
set and no reserved bit set; the translation of `0x01400000` succeeds and returns
`0x100c00000`, which is above `0xffffffff`. -/
theorem C17_counterexample :
    MmX86_Virt2Phys tlbExtendedLarge 2 0x1000 true 2 0x01400000 0 = (true, 0x100c00000) ∧
    ¬ (0x100c00000 ≤ 0xffffffff) := by
  decide

/-- The range of the result of a successful translation started at the directory level. -/
theorem Virt2Phys_dir_range (tlb : Tlb) (fuel paPT : Nat) (fUserOnly : Bool)
    (iPML va ppa : Nat) (hl : iPML = 2 ∨ iPML = 255)
    (hs : (MmX86_Virt2Phys tlb (fuel + 2) paPT fUserOnly iPML va ppa).1 = true) :
    (MmX86_Virt2Phys tlb (fuel + 2) paPT fUserOnly iPML va ppa).2 < 2 ^ 36 ∧
    (∀ pd, tlb (paPT &&& 0xfffff000) = some pd →
      (pdw pd ((va >>> 22) &&& 0x3ff) &&& 0x80 = 0 ∨
        pdw pd ((va >>> 22) &&& 0x3ff) &&& 0x0001e000 = 0) →
      (MmX86_Virt2Phys tlb (fuel + 2) paPT fUserOnly iPML va ppa).2 ≤ 0xffffffff) := by
  obtain ⟨pd, hpd, hcase⟩ := Virt2Phys_dir_success tlb fuel paPT fUserOnly iPML va ppa hl hs
  rcases hcase with ⟨hps, -, hv⟩ | ⟨hps, pt, -, hv⟩
  · rw [hv, Virt2Phys_LargePageBase_eq, land_003ff000]
    refine ⟨by norm_num; omega, ?_⟩
    intro pd' hpd' hc
    rw [hpd] at hpd'
    cases hpd'
    rcases hc with hc | hc
    · exact absurd hc hps
    · rw [land_0001e000] at hc
      omega
  · rw [hv, land_fffff000]
    refine ⟨by norm_num; omega, ?_⟩
    intro _ _ _
    omega

/-- C17 (amended): every physical address that `MmX86_Virt2Phys` returns on success, at
whichever level it is started, is below `2 ^ 36`: the extension bits 13-16 of a large-page
entry are shifted into the physical bits 32-35. The address is at most `0xffffffff` when
the leaf is a page-table entry (a call started at the page-table level, or a walk from the
directory through an entry that is not a large page) or a large page whose extension bits
13-16 are clear. -/
theorem C17_virt2phys_range (tlb : Tlb) (fuel paPT : Nat) (fUserOnly : Bool)
    (iPML va ppa : Nat)
    (hs : (MmX86_Virt2Phys tlb (fuel + 2) paPT fUserOnly iPML va ppa).1 = true) :
    (MmX86_Virt2Phys tlb (fuel + 2) paPT fUserOnly iPML va ppa).2 < 2 ^ 36 ∧
    (iPML = 1 → (MmX86_Virt2Phys tlb (fuel + 2) paPT fUserOnly iPML va ppa).2 ≤ 0xffffffff) ∧
    (iPML = 2 ∨ iPML = 255 → ∀ pd, tlb (paPT &&& 0xfffff000) = some pd →
      (pdw pd ((va >>> 22) &&& 0x3ff) &&& 0x80 = 0 ∨
        pdw pd ((va >>> 22) &&& 0x3ff) &&& 0x0001e000 = 0) →
      (MmX86_Virt2Phys tlb (fuel + 2) paPT fUserOnly iPML va ppa).2 ≤ 0xffffffff) := by
  have htab : iPML = 1 →
      (MmX86_Virt2Phys tlb (fuel + 2) paPT fUserOnly iPML va ppa).2 ≤ 0xffffffff := by
    intro h1
    subst h1
    obtain ⟨pt, -, hv⟩ := Virt2Phys_table_success tlb (fuel + 1) paPT fUserOnly va ppa hs
    rw [hv, land_fffff000]; omega
  refine ⟨?_, htab, fun hl => ?_⟩
  · by_cases h1 : iPML = 1
    · have := htab h1; omega
    · by_cases hl : iPML = 2 ∨ iPML = 255
      · exact (Virt2Phys_dir_range tlb fuel paPT fUserOnly iPML va ppa hl hs).1
      · obtain ⟨pte, hv⟩ := Virt2Phys_other_success tlb (fuel + 1) paPT fUserOnly iPML va ppa
          h1 (fun h => hl (Or.inl h)) (fun h => hl (Or.inr h)) hs
        rw [hv, Virt2Phys_LargePageBase_eq, land_003ff000]
        norm_num; omega
  · exact (Virt2Phys_dir_range tlb fuel paPT fUserOnly iPML va ppa hl hs).2

/-- C17 (witness): in the large-page scenario without extension bits the result is below
`2 ^ 36`, and the result of a walk started at the page-table level is at most
`0xffffffff`. -/
theorem C17_virt2phys_range_witness :
    (MmX86_Virt2Phys tlbLargeAt5 2 0x1000 true 2 0x01400123 0).2 < 2 ^ 36 ∧
    (MmX86_Virt2Phys tlbPageZero 2 0 true 1 0x123 0).2 ≤ 0xffffffff :=
  ⟨(C17_virt2phys_range tlbLargeAt5 0 0x1000 true 2 0x01400123 0 (by decide)).1,
   (C17_virt2phys_range tlbPageZero 0 0 true 1 0x123 0 (by decide)).2.1 rfl⟩

/-! ## The per-address diagnostic walker: claim C13 -/

/-- C13 (counterexample): for a virtual address above `0xffffffff` the function returns
at line 304, before the structure is reset: the stale model tag and the stale slots are
still there afterwards, although the walk visited no level. -/
theorem C13_counterexample :
    (MmX86_Virt2PhysGetInformation tlbLargeAt5 2 procPlain infoStaleWide).tpMemoryModel =
      VMM_MEMORYMODEL_TP.X64 ∧
    (MmX86_Virt2PhysGetInformation tlbLargeAt5 2 procPlain infoStaleWide).tpMemoryModel ≠
      VMM_MEMORYMODEL_TP.X86 ∧
    (MmX86_Virt2PhysGetInformation tlbLargeAt5 2 procPlain infoStaleWide).PTEs 2 = 0x7007 ∧
    (MmX86_Virt2PhysGetInformation tlbLargeAt5 2 procPlain infoStaleWide).pas 1 = 0x7000 := by
  decide

theorem land_3ff_lt (x : Nat) : 0x3ff &&& x < 1024 := by
  rw [Nat.land_comm, land_3ff]; omega

/-- The table-level step of the diagnostic walker. -/
theorem GetInformation_DoWork_level1 (tlb : Tlb) (fUserOnly : Bool) (fuel : Nat)
    (info : VMM_VIRT2PHYS_INFORMATION) (paPT : Nat) :
    MmX86_Virt2PhysGetInformation_DoWork tlb fUserOnly (fuel + 1) info 1 paPT =
      match tlb paPT with
      | none => info
      | some pt =>
        if pdw pt ((info.va >>> 12) &&& 0x3ff) &&& 0x01 = 0 ∨
            (fUserOnly = true ∧ pdw pt ((info.va >>> 12) &&& 0x3ff) &&& 0x04 = 0) then
          { info with
            pas := Function.update info.pas 1 paPT
            iPTEs := Function.update info.iPTEs 1 ((info.va >>> 12) &&& 0x3ff)
            PTEs := Function.update info.PTEs 1 (pdw pt ((info.va >>> 12) &&& 0x3ff)) }
        else
          { info with
            pas := Function.update (Function.update info.pas 1 paPT) 0
              (pdw pt ((info.va >>> 12) &&& 0x3ff) &&& 0xfffff000)
            iPTEs := Function.update info.iPTEs 1 ((info.va >>> 12) &&& 0x3ff)
            PTEs := Function.update info.PTEs 1 (pdw pt ((info.va >>> 12) &&& 0x3ff)) } := by
  rw [MmX86_Virt2PhysGetInformation_DoWork]
  cases tlb paPT with
  | none => rfl
  | some pt =>
    have hi := land_3ff_lt (info.va >>> 12)
    have hm : (0x3ff &&& (info.va >>> 12)) % 2 ^ 16 = 0x3ff &&& (info.va >>> 12) :=
      Nat.mod_eq_of_lt (by omega)
    simp only [MMX86_PAGETABLEMAP_PML_REGION_SIZE, MMX86_PTE_IS_VALID, hm]
    rw [Nat.land_comm 0x3ff]
    generalize pdw pt ((info.va >>> 12) &&& 0x3ff) = pte
    by_cases h1 : pte &&& 0x01 = 0
    · rw [if_pos h1, if_pos (Or.inl h1)]
    · rw [if_neg h1]
      by_cases h4 : fUserOnly = true ∧ pte &&& 0x04 = 0
      · rw [if_pos h4, if_pos (Or.inr h4)]
      · rw [if_neg h4, if_pos trivial, if_neg (by rintro (h | h); exact h1 h; exact h4 h)]

theorem land_fffff000_idem (x : Nat) : (x &&& 0xfffff000) &&& 0xfffff000 = x &&& 0xfffff000 := by
  rw [Nat.land_assoc]
  have e : (0xfffff000 : Nat) &&& 0xfffff000 = 0xfffff000 := by decide
  rw [e]

/-- The result of the diagnostic walker for an in-range address, when the directory page
is available, in terms of the directory entry `pde`. -/
theorem GetInformation_dir (tlb : Tlb) (fuel : Nat) (p : VMM_PROCESS)
    (info : VMM_VIRT2PHYS_INFORMATION) (pd : Page) (hva : info.va ≤ 0xffffffff)
    (hpd : tlb (p.paDTB &&& 0xfffff000) = some pd) :
    MmX86_Virt2PhysGetInformation tlb (fuel + 2) p info =
      if pdw pd ((info.va >>> 22) &&& 0x3ff) &&& 0x01 = 0 ∨
          (p.fUserOnly = true ∧ pdw pd ((info.va >>> 22) &&& 0x3ff) &&& 0x04 = 0) ∨
          (pdw pd ((info.va >>> 22) &&& 0x3ff) &&& 0x80 ≠ 0 ∧
            pdw pd ((info.va >>> 22) &&& 0x3ff) &&& 0x003e0000 ≠ 0) then
        { Virt2PhysInfo_reset info.va with
          pas := Function.update (fun _ => 0) 2 (p.paDTB &&& 0xfffff000)
          iPTEs := Function.update (fun _ => 0) 2 ((info.va >>> 22) &&& 0x3ff)
          PTEs := Function.update (fun _ => 0) 2 (pdw pd ((info.va >>> 22) &&& 0x3ff)) }
      else if pdw pd ((info.va >>> 22) &&& 0x3ff) &&& 0x80 ≠ 0 then
        { Virt2PhysInfo_reset info.va with
          pas := Function.update (Function.update (fun _ => 0) 2 (p.paDTB &&& 0xfffff000)) 0
            ((pdw pd ((info.va >>> 22) &&& 0x3ff) &&& 0xffc00000)
              + ((pdw pd ((info.va >>> 22) &&& 0x3ff) &&& 0x0001e000) <<< 19))
          iPTEs := Function.update (fun _ => 0) 2 ((info.va >>> 22) &&& 0x3ff)
          PTEs := Function.update (fun _ => 0) 2 (pdw pd ((info.va >>> 22) &&& 0x3ff)) }
      else
        MmX86_Virt2PhysGetInformation_DoWork tlb p.fUserOnly (fuel + 1)
          { Virt2PhysInfo_reset info.va with
            pas := Function.update (fun _ => 0) 2 (p.paDTB &&& 0xfffff000)
            iPTEs := Function.update (fun _ => 0) 2 ((info.va >>> 22) &&& 0x3ff)
            PTEs := Function.update (fun _ => 0) 2 (pdw pd ((info.va >>> 22) &&& 0x3ff)) }
          1 (pdw pd ((info.va >>> 22) &&& 0x3ff) &&& 0xfffff000) := by
  unfold MmX86_Virt2PhysGetInformation
  rw [if_neg (by omega), MmX86_Virt2PhysGetInformation_DoWork, hpd]
  have hi := land_3ff_lt (info.va >>> 22)
  have hm : (0x3ff &&& (info.va >>> 22)) % 2 ^ 16 = 0x3ff &&& (info.va >>> 22) :=
    Nat.mod_eq_of_lt (by omega)
  simp only [MMX86_PAGETABLEMAP_PML_REGION_SIZE, MMX86_PTE_IS_VALID, Virt2PhysInfo_reset, hm]
  rw [Nat.land_comm 0x3ff]
  generalize pdw pd ((info.va >>> 22) &&& 0x3ff) = pde
  by_cases h1 : pde &&& 0x01 = 0
  · rw [if_pos h1, if_pos (Or.inl h1)]
  rw [if_neg h1]
  by_cases h4 : p.fUserOnly = true ∧ pde &&& 0x04 = 0
  · rw [if_pos h4, if_pos (Or.inr (Or.inl h4))]
  rw [if_neg h4, if_neg (by decide)]
  by_cases h80 : pde &&& 0x80 ≠ 0
  · rw [if_pos h80]
    by_cases hr : pde &&& 0x003e0000 ≠ 0
    · rw [if_pos hr, if_pos (Or.inr (Or.inr ⟨h80, hr⟩))]
    · rw [if_neg hr, if_neg (by rintro (h | h | h); exact h1 h; exact h4 h; exact hr h.2),
        if_pos h80]
  · rw [if_neg h80, if_neg (by rintro (h | h | h); exact h1 h; exact h4 h; exact h80 h.1),
      if_neg h80]

/-- C13 (amended): for every input trace structure (whatever stale data it holds) whose
virtual address is at most `0xffffffff`, after `MmX86_Virt2PhysGetInformation` the
structure has its virtual address unchanged and its model type equal to x86; the index and
raw entry of level 0 and every slot of a level above 2 are zero; the slots of the
directory level are zero when the directory page is unavailable and otherwise hold the
table address, the index and the raw entry; the slots of the table level are zero when the
walk does not reach a page table; the frame slot `pas[0]` is zero when the translation
does not succeed; and when the directory entry for the address is exactly 0 the result is
the partial trace with only the directory-level slot filled and raw value 0. -/
theorem C13_trace_reset (tlb : Tlb) (fuel : Nat) (p : VMM_PROCESS)
    (info : VMM_VIRT2PHYS_INFORMATION) (hva : info.va ≤ 0xffffffff) :
    (MmX86_Virt2PhysGetInformation tlb (fuel + 2) p info).va = info.va ∧
    (MmX86_Virt2PhysGetInformation tlb (fuel + 2) p info).tpMemoryModel =
      VMM_MEMORYMODEL_TP.X86 ∧
    (∀ k, k ≠ 1 → k ≠ 2 →
      (MmX86_Virt2PhysGetInformation tlb (fuel + 2) p info).PTEs k = 0 ∧
      (MmX86_Virt2PhysGetInformation tlb (fuel + 2) p info).iPTEs k = 0) ∧
    (∀ k, 2 < k → (MmX86_Virt2PhysGetInformation tlb (fuel + 2) p info).pas k = 0) ∧
    (tlb (p.paDTB &&& 0xfffff000) = none →
      ∀ k, (MmX86_Virt2PhysGetInformation tlb (fuel + 2) p info).pas k = 0 ∧
        (MmX86_Virt2PhysGetInformation tlb (fuel + 2) p info).PTEs k = 0 ∧
        (MmX86_Virt2PhysGetInformation tlb (fuel + 2) p info).iPTEs k = 0) ∧
    (∀ pd, tlb (p.paDTB &&& 0xfffff000) = some pd →
      (MmX86_Virt2PhysGetInformation tlb (fuel + 2) p info).pas 2 = p.paDTB &&& 0xfffff000 ∧
      (MmX86_Virt2PhysGetInformation tlb (fuel + 2) p info).iPTEs 2 =
        (info.va >>> 22) &&& 0x3ff ∧
      (MmX86_Virt2PhysGetInformation tlb (fuel + 2) p info).PTEs 2 =
        pdw pd ((info.va >>> 22) &&& 0x3ff)) ∧
    (¬ InfoVisitsTable tlb p info.va →
      (MmX86_Virt2PhysGetInformation tlb (fuel + 2) p info).pas 1 = 0 ∧
      (MmX86_Virt2PhysGetInformation tlb (fuel + 2) p info).PTEs 1 = 0 ∧
      (MmX86_Virt2PhysGetInformation tlb (fuel + 2) p info).iPTEs 1 = 0) ∧
    (¬ Virt2PhysSucceeds tlb (p.paDTB &&& 0xfffff000) p.fUserOnly info.va →
      (MmX86_Virt2PhysGetInformation tlb (fuel + 2) p info).pas 0 = 0) ∧
    (∀ pd, tlb (p.paDTB &&& 0xfffff000) = some pd →
      pdw pd ((info.va >>> 22) &&& 0x3ff) = 0 →
      (MmX86_Virt2PhysGetInformation tlb (fuel + 2) p info).pas =
        Function.update (fun _ => 0) 2 (p.paDTB &&& 0xfffff000) ∧
      (MmX86_Virt2PhysGetInformation tlb (fuel + 2) p info).iPTEs =
        Function.update (fun _ => 0) 2 ((info.va >>> 22) &&& 0x3ff) ∧
      (MmX86_Virt2PhysGetInformation tlb (fuel + 2) p info).PTEs = fun _ => 0) := by
  have hdtb : p.paDTB &&& 0xfffff000 ≤ 0xffffffff := by
    rw [land_fffff000]; omega
  cases hpd : tlb (p.paDTB &&& 0xfffff000) with
  | none =>
    have hr : MmX86_Virt2PhysGetInformation tlb (fuel + 2) p info =
        Virt2PhysInfo_reset info.va := by
      unfold MmX86_Virt2PhysGetInformation
      rw [if_neg (by omega), MmX86_Virt2PhysGetInformation_DoWork, hpd]
    rw [hr]
    simp [Virt2PhysInfo_reset]
  | some pd =>
    rw [GetInformation_dir tlb fuel p info pd hva hpd]
    have hlt := pdw_lt pd ((info.va >>> 22) &&& 0x3ff)
    unfold InfoVisitsTable Virt2PhysSucceeds
    simp only [land_fffff000_idem, hpd, Option.some.injEq, exists_eq_left', forall_eq']
    generalize pdw pd ((info.va >>> 22) &&& 0x3ff) = pde at hlt ⊢
    by_cases hfail : pde &&& 0x01 = 0 ∨ (p.fUserOnly = true ∧ pde &&& 0x04 = 0) ∨
        (pde &&& 0x80 ≠ 0 ∧ pde &&& 0x003e0000 ≠ 0)
    · rw [if_pos hfail]
      refine ⟨rfl, rfl, ?_, ?_, ?_, ?_, ?_, ?_, ?_⟩
      · intro k h1 h2
        simp [Virt2PhysInfo_reset, Function.update_apply, h2]
      · intro k hk
        simp [Function.update_apply, Nat.ne_of_gt hk]
      · intro h; cases h
      · simp
      · intro _
        simp [Function.update_apply]
      · intro _
        simp [Function.update_apply]
      · intro hz
        subst hz
        refine ⟨rfl, rfl, ?_⟩
        funext k
        simp [Function.update_apply]
    rw [if_neg hfail]
    push_neg at hfail
    obtain ⟨h1, h4, hres⟩ := hfail
    by_cases h80 : pde &&& 0x80 ≠ 0
    · rw [if_pos h80]
      refine ⟨rfl, rfl, ?_, ?_, ?_, ?_, ?_, ?_, ?_⟩
      · intro k h1 h2
        simp [Virt2PhysInfo_reset, Function.update_apply, h2]
      · intro k hk
        have hk0 : k ≠ 0 := by omega
        simp [Function.update_apply, Nat.ne_of_gt hk, hk0]
      · intro h; cases h
      · simp [Function.update_apply]
      · intro _
        simp [Function.update_apply]
      · intro hns
        exfalso
        apply hns
        refine ⟨hva, hdtb, h1, h4, Or.inl ⟨h80, hres h80⟩⟩
      · intro hz
        subst hz
        exact absurd rfl h1
    · rw [if_neg h80, GetInformation_DoWork_level1]
      have h80' : pde &&& 0x80 = 0 := not_not.mp h80
      cases hpt : tlb (pde &&& 0xfffff000) with
      | none =>
        refine ⟨rfl, rfl, ?_, ?_, ?_, ?_, ?_, ?_, ?_⟩
        · intro k h1 h2
          simp [Virt2PhysInfo_reset, Function.update_apply, h2]
        · intro k hk
          simp [Function.update_apply, Nat.ne_of_gt hk]
        · intro h; cases h
        · simp
        · intro _
          simp [Function.update_apply]
        · intro _
          simp [Function.update_apply]
        · intro hz
          subst hz
          exact absurd rfl h1
      | some pt =>
        have hrv : (Virt2PhysInfo_reset info.va).va = info.va := rfl
        simp only [hrv]
        generalize hpte : pdw pt ((info.va >>> 12) &&& 0x3ff) = pte
        by_cases g : pte &&& 0x01 = 0 ∨ (p.fUserOnly = true ∧ pte &&& 0x04 = 0)
        · rw [if_pos g]
          refine ⟨rfl, rfl, ?_, ?_, ?_, ?_, ?_, ?_, ?_⟩
          · intro k h1 h2
            simp [Virt2PhysInfo_reset, Function.update_apply, h1, h2]
          · intro k hk
            have hk1 : k ≠ 1 := by omega
            simp [Function.update_apply, Nat.ne_of_gt hk, hk1]
          · intro h; cases h
          · simp [Function.update_apply]
          · intro hnv
            exfalso
            exact hnv ⟨h1, h4, h80', pt, rfl⟩
          · intro _
            simp [Function.update_apply]
          · intro hz
            subst hz
            exact absurd rfl h1
        · rw [if_neg g]
          push_neg at g
          refine ⟨rfl, rfl, ?_, ?_, ?_, ?_, ?_, ?_, ?_⟩
          · intro k h1 h2
            simp [Virt2PhysInfo_reset, Function.update_apply, h1, h2]
          · intro k hk
            have hk1 : k ≠ 1 := by omega
            have hk0 : k ≠ 0 := by omega
            simp [Function.update_apply, Nat.ne_of_gt hk, hk1, hk0]
          · intro h; cases h
          · simp [Function.update_apply]
          · intro hnv
            exfalso
            exact hnv ⟨h1, h4, h80', pt, rfl⟩
          · intro hns
            exfalso
            apply hns
            exact ⟨hva, hdtb, h1, h4, Or.inr ⟨h80', pt, rfl, by rw [hpte]; exact g.1,
              by rw [hpte]; exact g.2⟩⟩
          · intro hz
            subst hz
            exact absurd rfl h1

/-- C13 (witness): for the address `0x00400000`, whose directory entry is zero, the stale
structure is reset, tagged x86, and only the directory-level slot is filled. -/
theorem C13_trace_reset_witness :
    (MmX86_Virt2PhysGetInformation tlbLargeAt5 2 procPlain infoStale).va = 0x00400000 ∧
    (MmX86_Virt2PhysGetInformation tlbLargeAt5 2 procPlain infoStale).tpMemoryModel =
      VMM_MEMORYMODEL_TP.X86 ∧
    (MmX86_Virt2PhysGetInformation tlbLargeAt5 2 procPlain infoStale).PTEs = fun _ => 0 :=
  ⟨(C13_trace_reset tlbLargeAt5 0 procPlain infoStale (by decide)).1,
   (C13_trace_reset tlbLargeAt5 0 procPlain infoStale (by decide)).2.1,
   ((C13_trace_reset tlbLargeAt5 0 procPlain infoStale (by decide)).2.2.2.2.2.2.2.2
      dirLargeAt5 rfl (by decide)).2.2⟩

/-! ## The TLB spider: claim C14 -/

/-- The loop of the spider over the first `n` directory entries collects the addresses of
the page tables among them. -/
theorem TlbSpider_foldl (fUserOnly : Bool) (pd : Page) (n : Nat) :
    (List.range n).foldl (TlbSpider_Entry fUserOnly pd) ∅ =
      ((Finset.range n).filter (fun i =>
        pdw pd i &&& 0x01 ≠ 0 ∧ pdw pd i &&& 0x80 = 0 ∧
        (fUserOnly = true → pdw pd i &&& 0x04 ≠ 0))).image
        (fun i => pdw pd i &&& 0xfffff000) := by
  induction n with
  | zero => rfl
  | succ n ih =>
    rw [List.range_succ, List.foldl_append, ih, Finset.range_succ, Finset.filter_insert]
    simp only [List.foldl_cons, List.foldl_nil]
    unfold TlbSpider_Entry ObSet_Push
    simp only []
    by_cases h1 : pdw pd n &&& 0x01 = 0
    · rw [if_pos h1, if_neg (fun h => h.1 h1)]
    rw [if_neg h1]
    by_cases h80 : pdw pd n &&& 0x80 ≠ 0
    · rw [if_pos h80, if_neg (fun h => h80 h.2.1)]
    rw [if_neg h80]
    by_cases h4 : fUserOnly = true ∧ pdw pd n &&& 0x04 = 0
    · rw [if_pos h4, if_neg (fun h => h.2.2 h4.1 h4.2)]
    rw [if_neg h4, if_pos ⟨h1, not_not.mp h80, fun hu hz => h4 ⟨hu, hz⟩⟩, Finset.image_insert]

/-- C14 (counterexample): the spidered flag is clear and the directory page is available,
but `ObSet_New` returns NULL: the function returns at line 31, nothing is handed to the
prefetch and the flag stays clear. -/
theorem C14_counterexample :
    procUser.fTlbSpiderDone = false ∧
    tlbLargeAt5 (procUser.paDTB &&& 0xfffff000) = some dirLargeAt5 ∧
    MmX86_TlbSpider tlbLargeAt5 false procUser = (procUser, []) ∧
    (MmX86_TlbSpider tlbLargeAt5 false procUser).1.fTlbSpiderDone = false :=
  ⟨rfl, rfl, rfl, rfl⟩

/-- C14 (amended): when `MmX86_TlbSpider` is called with the process's spidered flag
clear, the page set allocated (`ObSet_New` does not return NULL) and the directory page
available, it fetches the directory page, hands to the bulk prefetch exactly the set
`{ pte & 0xfffff000 }` over the 1024 directory entries that are present, have the
page-size bit clear and are user-accessible when the privilege filter is on, and sets the
flag, changing nothing else of the process; when it is called with the flag already set
it fetches nothing, prefetches nothing and leaves the process state unchanged. -/
theorem C14_tlb_spider (tlb : Tlb) (fObSetNew : Bool) (p : VMM_PROCESS) :
    (∀ pd, p.fTlbSpiderDone = false → fObSetNew = true →
      tlb (p.paDTB &&& 0xfffff000) = some pd →
      MmX86_TlbSpider tlb fObSetNew p =
        ({ p with fTlbSpiderDone := true },
          [Event.TlbGetPageTable (p.paDTB &&& 0xfffff000),
           Event.TlbPrefetch (TlbSpider_Pages p.fUserOnly pd)])) ∧
    (p.fTlbSpiderDone = true → MmX86_TlbSpider tlb fObSetNew p = (p, [])) := by
  constructor
  · intro pd hf hs hpd
    unfold MmX86_TlbSpider TlbSpider_Pages
    rw [if_neg (by rw [hf]; decide), if_neg (by rw [hs]; decide), hpd]
    simp only []
    rw [TlbSpider_foldl]
  · intro hf
    unfold MmX86_TlbSpider
    rw [if_pos hf]

/-- C14 (witness): with the set allocated, the spider of the large-page directory, which
points to no page table, prefetches the empty set and sets the flag. -/
theorem C14_tlb_spider_witness :
    MmX86_TlbSpider tlbLargeAt5 true procUser =
      ({ procUser with fTlbSpiderDone := true },
        [Event.TlbGetPageTable (procUser.paDTB &&& 0xfffff000),
         Event.TlbPrefetch (TlbSpider_Pages procUser.fUserOnly dirLargeAt5)]) :=
  (C14_tlb_spider tlbLargeAt5 true procUser).1 dirLargeAt5 rfl rfl rfl

/-! ## The memoised region map: claim C18 -/

/-- C18 (the code at the failing input): when the region map is already built, the call
returns TRUE, calls neither the spider nor the cache and leaves the process unchanged, but
it does so from the second check, after it has entered the critical section: line 116
lacks the `return` of the unlocked fast path. -/
theorem C18_fast_path_takes_lock (env : Env) (paMax : Nat)
    (VmmTlbSpider : VMM_PROCESS → VMM_PROCESS × List Event)
    (fLocalAlloc fObAllocEx fObAllocExEmpty : Bool) (p : VMM_PROCESS)
    (hbuilt : p.pObPte.isSome = true) :
    MmX86_PteMapInitialize env paMax VmmTlbSpider fLocalAlloc fObAllocEx fObAllocExEmpty p =
      (true, p, [Event.EnterCriticalSection, Event.LeaveCriticalSection]) ∧
    Event.EnterCriticalSection ∈
      (MmX86_PteMapInitialize env paMax VmmTlbSpider fLocalAlloc fObAllocEx
        fObAllocExEmpty p).2.2 := by
  have h : MmX86_PteMapInitialize env paMax VmmTlbSpider fLocalAlloc fObAllocEx
      fObAllocExEmpty p =
      (true, p, [Event.EnterCriticalSection, Event.LeaveCriticalSection]) := by
    unfold MmX86_PteMapInitialize
    rw [if_pos hbuilt]
  rw [h]
  exact ⟨rfl, List.mem_cons_self _ _⟩

set_option maxRecDepth 100000 in
/-- The calls of the build path in the privilege-narrowing scenario: the lock, the fetch
of the directory, the fetches of the two page tables by the walk, and the release. -/
theorem PteMapInitialize_build_calls :
    (MmX86_PteMapInitialize envNarrow 0xffffffff (fun q => (q, [])) true true true
      procPlain).2.2 =
      [Event.EnterCriticalSection, Event.TlbGetPageTable 0x1000,
        Event.TlbGetPageTable 0x2000, Event.TlbGetPageTable 0x3000,
        Event.LeaveCriticalSection] := by
  decide

/-- C18 (witness): the process `procBuilt`, whose map is built, takes the lock. -/
theorem C18_fast_path_takes_lock_witness :
    (MmX86_PteMapInitialize envPlain 0xffffffff (fun q => (q, [])) true true true
      procBuilt).2.2 = [Event.EnterCriticalSection, Event.LeaveCriticalSection] :=
  congrArg (fun r => r.2.2)
    (C18_fast_path_takes_lock envPlain 0xffffffff (fun q => (q, [])) true true true
      procBuilt rfl).1

/-! ## The reverse mapper: claims C11 and C12 -/

theorem Phys2Virt_AppendAll_nil (p : VMMOB_PHYS2VIRT_INFORMATION) :
    Phys2Virt_AppendAll p [] = p := rfl

theorem Phys2Virt_AppendAll_cons (p : VMMOB_PHYS2VIRT_INFORMATION) (v : Nat) (l : List Nat) :
    Phys2Virt_AppendAll p (v :: l) = Phys2Virt_AppendAll (Phys2Virt_Append p v) l := rfl

theorem Phys2Virt_AppendAll_append (p : VMMOB_PHYS2VIRT_INFORMATION) (l l' : List Nat) :
    Phys2Virt_AppendAll p (l ++ l') = Phys2Virt_AppendAll (Phys2Virt_AppendAll p l) l' := by
  unfold Phys2Virt_AppendAll
  rw [List.foldl_append]

theorem Phys2Virt_AppendAll_paTarget (l : List Nat) :
    ∀ p : VMMOB_PHYS2VIRT_INFORMATION, (Phys2Virt_AppendAll p l).paTarget = p.paTarget := by
  induction l with
  | nil => intro p; rfl
  | cons v l ih => intro p; rw [Phys2Virt_AppendAll_cons, ih]; rfl

theorem Phys2Virt_AppendAll_cvaList (l : List Nat) :
    ∀ p : VMMOB_PHYS2VIRT_INFORMATION, p.cvaList + l.length < 2 ^ 32 →
      (Phys2Virt_AppendAll p l).cvaList = p.cvaList + l.length := by
  induction l with
  | nil => intro p _; rfl
  | cons v l ih =>
    intro p h
    have hc : (Phys2Virt_Append p v).cvaList = p.cvaList + 1 := by
      show (p.cvaList + 1) % 2 ^ 32 = p.cvaList + 1
      apply Nat.mod_eq_of_lt
      simp only [List.length_cons] at h; omega
    rw [Phys2Virt_AppendAll_cons, ih _ (by rw [hc]; simp only [List.length_cons] at h; omega), hc]
    simp only [List.length_cons]; omega

/-- Appending a list fills the slots from the old count on and leaves every other slot as
it was. -/
theorem Phys2Virt_AppendAll_pvaList (l : List Nat) :
    ∀ p : VMMOB_PHYS2VIRT_INFORMATION, p.cvaList + l.length < 2 ^ 32 →
      (∀ k, k < p.cvaList ∨ p.cvaList + l.length ≤ k →
        (Phys2Virt_AppendAll p l).pvaList k = p.pvaList k) ∧
      (∀ k, k < l.length →
        l[k]? = some ((Phys2Virt_AppendAll p l).pvaList (p.cvaList + k))) := by
  induction l with
  | nil =>
    intro p _
    exact ⟨fun k _ => rfl, fun k hk => absurd hk (by simp)⟩
  | cons v l ih =>
    intro p h
    simp only [List.length_cons] at h
    have hc : (Phys2Virt_Append p v).cvaList = p.cvaList + 1 := by
      show (p.cvaList + 1) % 2 ^ 32 = p.cvaList + 1
      apply Nat.mod_eq_of_lt; omega
    have hp : (Phys2Virt_Append p v).pvaList = Function.update p.pvaList p.cvaList v := rfl
    obtain ⟨ih1, ih2⟩ := ih (Phys2Virt_Append p v) (by rw [hc]; omega)
    rw [hc] at ih1 ih2
    refine ⟨?_, ?_⟩
    · intro k hk
      simp only [List.length_cons] at hk
      rw [Phys2Virt_AppendAll_cons, ih1 k (by omega), hp,
        Function.update_noteq (by omega)]
    · intro k hk
      simp only [List.length_cons] at hk
      rw [Phys2Virt_AppendAll_cons]
      cases k with
      | zero =>
        rw [ih1 _ (Or.inl (by omega)), hp]
        simp
      | succ k =>
        have := ih2 k (by omega)
        rw [List.getElem?_cons_succ, this]
        congr 2; omega

/-- The list of the first `c + l.length` slots after appending the list `l` to a state of
count `c`. -/
theorem Phys2Virt_AppendAll_list (l : List Nat) (p : VMMOB_PHYS2VIRT_INFORMATION)
    (h : p.cvaList + l.length < 2 ^ 32) :
    (List.range (Phys2Virt_AppendAll p l).cvaList).map (Phys2Virt_AppendAll p l).pvaList =
      (List.range p.cvaList).map p.pvaList ++ l := by
  obtain ⟨h1, h2⟩ := Phys2Virt_AppendAll_pvaList l p h
  rw [Phys2Virt_AppendAll_cvaList l p h]
  apply List.ext_getElem?
  intro k
  by_cases hk : k < p.cvaList
  · rw [List.getElem?_append_left (by simpa using hk)]
    simp only [List.getElem?_map]
    rw [List.getElem?_range (by omega), List.getElem?_range hk]
    simp only [Option.map_some']
    rw [h1 k (Or.inl hk)]
  · by_cases hk2 : k < p.cvaList + l.length
    · rw [List.getElem?_append_right (by simpa using hk)]
      simp only [List.getElem?_map, List.length_map, List.length_range]
      rw [List.getElem?_range hk2, h2 (k - p.cvaList) (by omega)]
      simp only [Option.map_some']
      congr 2; omega
    · rw [List.getElem?_eq_none (by simp; omega), List.getElem?_eq_none (by simp; omega)]

/-- The rule of the loop with early return: an invariant `J` indexed by the loop counter
and a postcondition `Q` that holds on return and at the regular end. -/
theorem Phys2Virt_Loop_rule
    (body : Nat → VMMOB_PHYS2VIRT_INFORMATION → VMMOB_PHYS2VIRT_INFORMATION × Bool)
    (J : Nat → VMMOB_PHYS2VIRT_INFORMATION → Prop) (Q : VMMOB_PHYS2VIRT_INFORMATION → Prop)
    (n : Nat) :
    ∀ (i : Nat) (p : VMMOB_PHYS2VIRT_INFORMATION),
      (∀ j q, i ≤ j → j < i + n → J j q →
        ((body j q).2 = false → J (j + 1) (body j q).1) ∧
        ((body j q).2 = true → Q (body j q).1)) →
      (∀ q, J (i + n) q → Q q) →
      J i p → Q (Phys2Virt_Loop body n i p) := by
  induction n with
  | zero =>
    intro i p _ hend hJ
    exact hend p hJ
  | succ n ih =>
    intro i p hstep hend hJ
    rw [Phys2Virt_Loop]
    have hs := hstep i p (le_refl i) (by omega) hJ
    cases hb : body i p with
    | mk q ret =>
      rw [hb] at hs
      cases ret with
      | true => exact hs.2 rfl
      | false =>
        apply ih (i + 1) q
        · intro j q' h1 h2 hJ'
          exact hstep j q' (by omega) (by omega) hJ'
        · intro q' hJ'
          apply hend
          have e : i + (n + 1) = i + 1 + n := by omega
          rw [e]; exact hJ'
        · exact hs.1 rfl
/-- One chunk of matches `T` appended, up to the cap, to a state that holds the matches
`M` and is not full: either the state is still not full and holds `M ++ T`, or it is full
and holds the first matches of the whole scan up to the cap. -/
theorem Phys2Virt_chunk (cap : Nat) (hcap : cap < 2 ^ 32) (p : VMMOB_PHYS2VIRT_INFORMATION)
    (M T all : List Nat) (hlt : p.cvaList + M.length < cap) (hpre : (M ++ T) <+: all) :
    ((Phys2Virt_AppendAll (Phys2Virt_AppendAll p M)
        (T.take (cap - (p.cvaList + M.length)))).cvaList ≠ cap →
      Phys2Virt_AppendAll (Phys2Virt_AppendAll p M) (T.take (cap - (p.cvaList + M.length))) =
        Phys2Virt_AppendAll p (M ++ T) ∧ p.cvaList + (M ++ T).length < cap) ∧
    ((Phys2Virt_AppendAll (Phys2Virt_AppendAll p M)
        (T.take (cap - (p.cvaList + M.length)))).cvaList = cap →
      Phys2Virt_AppendAll (Phys2Virt_AppendAll p M) (T.take (cap - (p.cvaList + M.length))) =
        Phys2Virt_AppendAll p (all.take (cap - p.cvaList))) := by
  have hlen : (M ++ T.take (cap - (p.cvaList + M.length))).length =
      M.length + min (cap - (p.cvaList + M.length)) T.length := by
    rw [List.length_append, List.length_take]
  have hc : (Phys2Virt_AppendAll (Phys2Virt_AppendAll p M)
      (T.take (cap - (p.cvaList + M.length)))).cvaList =
      p.cvaList + (M.length + min (cap - (p.cvaList + M.length)) T.length) := by
    have hb : p.cvaList + (M ++ T.take (cap - (p.cvaList + M.length))).length < 2 ^ 32 := by
      rw [hlen]; omega
    rw [← Phys2Virt_AppendAll_append, Phys2Virt_AppendAll_cvaList _ _ hb, hlen]
  rw [hc]
  by_cases hT : T.length < cap - (p.cvaList + M.length)
  · refine ⟨fun _ => ⟨?_, ?_⟩, fun h => ?_⟩
    · rw [List.take_of_length_le (by omega), ← Phys2Virt_AppendAll_append]
    · rw [List.length_append]; omega
    · exfalso
      rw [Nat.min_eq_right (by omega)] at h
      omega
  · refine ⟨fun h => ?_, fun _ => ?_⟩
    · exfalso
      rw [Nat.min_eq_left (by omega)] at h
      omega
    · obtain ⟨rest, hrest⟩ := hpre
      have e : all.take (cap - p.cvaList) = M ++ T.take (cap - (p.cvaList + M.length)) := by
        have e1 : M.take (cap - p.cvaList) = M := List.take_of_length_le (by omega)
        have e2 : (T ++ rest).take (cap - p.cvaList - M.length) =
            T.take (cap - p.cvaList - M.length) := List.take_append_of_le_length (by omega)
        rw [← hrest, List.append_assoc, List.take_append_eq_append_take, e1, e2]
        congr 2
        omega
      rw [e, ← Phys2Virt_AppendAll_append]

/-- The matches of the first `n` slots are a prefix of the matches of all 1024 slots. -/
theorem Phys2Virt_Matches_prefix (g : Nat → List Nat) (n : Nat) (hn : n ≤ 1024) :
    (List.range n).flatMap g <+: (List.range 1024).flatMap g := by
  have e : List.range 1024 = List.range (n + (1024 - n)) := by
    congr 1; omega
  rw [e, List.range_add, List.flatMap_append]
  exact List.prefix_append _ _

/-- A walk whose body appends, slot by slot, the chunk `g j` up to the cap and returns
exactly when the list is full appends the chunks of all slots up to the cap. -/
theorem Phys2Virt_walk (cap : Nat) (hcap : cap < 2 ^ 32)
    (body : Nat → VMMOB_PHYS2VIRT_INFORMATION → VMMOB_PHYS2VIRT_INFORMATION × Bool)
    (p : VMMOB_PHYS2VIRT_INFORMATION) (g : Nat → List Nat) (hlt : p.cvaList < cap)
    (hbody : ∀ j q, j < 1024 → q.cvaList < cap → q.paTarget = p.paTarget →
      body j q = (Phys2Virt_AppendAll q ((g j).take (cap - q.cvaList)),
        decide ((Phys2Virt_AppendAll q ((g j).take (cap - q.cvaList))).cvaList = cap))) :
    Phys2Virt_Loop body 1024 0 p =
      Phys2Virt_AppendAll p (((List.range 1024).flatMap g).take (cap - p.cvaList)) := by
  apply Phys2Virt_Loop_rule _
    (fun j q => j ≤ 1024 ∧ q = Phys2Virt_AppendAll p ((List.range j).flatMap g) ∧
      p.cvaList + ((List.range j).flatMap g).length < cap)
    (fun q => q = Phys2Virt_AppendAll p (((List.range 1024).flatMap g).take (cap - p.cvaList)))
    1024 0 p
  · intro j q _ hj ⟨_, hq, hlen⟩
    have hj : j < 1024 := by omega
    have hpt : q.paTarget = p.paTarget := by rw [hq, Phys2Virt_AppendAll_paTarget]
    have hqc : q.cvaList = p.cvaList + ((List.range j).flatMap g).length := by
      rw [hq, Phys2Virt_AppendAll_cvaList _ _ (by omega)]
    have hsucc : (List.range (j + 1)).flatMap g = (List.range j).flatMap g ++ g j := by
      rw [List.range_succ, List.flatMap_append]
      simp
    have hch := Phys2Virt_chunk cap hcap p ((List.range j).flatMap g) (g j)
      ((List.range 1024).flatMap g) hlen
      (by rw [← hsucc]; exact Phys2Virt_Matches_prefix g (j + 1) (by omega))
    rw [← hsucc, ← hq, ← hqc] at hch
    rw [hbody j q hj (by omega) hpt]
    refine ⟨fun h => ?_, fun h => ?_⟩
    · have := hch.1 (by simpa using h)
      exact ⟨by omega, this.1, this.2⟩
    · exact hch.2 (by simpa using h)
  · intro q ⟨_, hq, hlen⟩
    simp only [Nat.zero_add] at hq hlen
    rw [hq, List.take_of_length_le (by omega)]
  · exact ⟨by omega, rfl, by simpa using hlt⟩

theorem target_frame_4k (P : Nat) (h : P ≤ 0xffffffff) :
    P &&& 0xfffff000 = P / 4096 * 4096 := by
  rw [land_fffff000]; omega

theorem target_frame_4m (P : Nat) (h : P ≤ 0xffffffff) :
    P &&& 0xffc00000 = P / 4194304 * 4194304 := by
  rw [land_ffc00000]; omega

theorem va_offset_4k (d j P : Nat) :
    (d * 4194304 + j * 4096) ||| (P &&& 0xfff) = d * 4194304 + j * 4096 + P % 4096 := by
  have h := Nat.and_pow_two_sub_one_eq_mod P 12
  have h2 : P &&& 0xfff = P % 4096 := by simpa using h
  have e : d * 4194304 + j * 4096 = 2 ^ 12 * (d * 1024 + j) := by norm_num; omega
  rw [h2, e, ← Nat.mul_add_lt_is_or (by norm_num; omega)]

theorem va_offset_4m (i P : Nat) :
    (i * 4194304) ||| (P &&& 0x3fffff) = i * 4194304 + P % 4194304 := by
  have h := Nat.and_pow_two_sub_one_eq_mod P 22
  have h2 : P &&& 0x3fffff = P % 4194304 := by simpa using h
  have e : i * 4194304 = 2 ^ 22 * i := by norm_num; omega
  rw [h2, e, ← Nat.mul_add_lt_is_or (by norm_num; omega)]

/-- The loop body at the page-table level: a slot appends its match, and the function
returns exactly when the list is full afterwards. -/
theorem Phys2Virt_Entry_level1 (tlb : Tlb) (cap : Nat) (fUserOnly : Bool) (paMax : Nat)
    (recurse : VMMOB_PHYS2VIRT_INFORMATION → Nat → Nat → Page → VMMOB_PHYS2VIRT_INFORMATION)
    (d : Nat) (hd : d < 1024) (pt : Page) (j : Nat) (hj : j < 1024)
    (q : VMMOB_PHYS2VIRT_INFORMATION) (hlt : q.cvaList < cap) (ht : q.paTarget ≤ 0xffffffff) :
    Phys2Virt_Entry tlb cap fUserOnly paMax recurse (d * 4194304) 1 pt j q =
      (Phys2Virt_AppendAll q
          ((Phys2Virt_MatchesEntry fUserOnly paMax q.paTarget (d * 4194304) pt j).take
            (cap - q.cvaList)),
        decide ((Phys2Virt_AppendAll q
          ((Phys2Virt_MatchesEntry fUserOnly paMax q.paTarget (d * 4194304) pt j).take
            (cap - q.cvaList))).cvaList = cap)) := by
  have hne : decide (q.cvaList = cap) = false := by
    rw [decide_eq_false_iff_not]; omega
  have hone : ∀ v : Nat, ([v] : List Nat).take (cap - q.cvaList) = [v] := fun v =>
    List.take_of_length_le (by simp only [List.length_singleton]; omega)
  unfold Phys2Virt_Entry Phys2Virt_MatchesEntry
  simp only [MMX86_PTE_IS_VALID, va_level1 d j hd hj, if_true, target_frame_4k _ ht,
    va_offset_4k]
  by_cases h1 : pdw pt j &&& 0x01 = 0
  · rw [if_pos h1, if_neg (fun h => h.1 h1), List.take_nil, Phys2Virt_AppendAll_nil, hne]
  rw [if_neg h1]
  by_cases h2 : pdw pt j &&& 0xfffff000 > paMax
  · rw [if_pos h2, if_neg (fun h => absurd h.2.1 (by omega)), List.take_nil,
      Phys2Virt_AppendAll_nil, hne]
  rw [if_neg h2]
  by_cases h3 : fUserOnly = true ∧ pdw pt j &&& 0x04 = 0
  · rw [if_pos h3, if_neg (fun h => h.2.2.1 h3.1 h3.2), List.take_nil,
      Phys2Virt_AppendAll_nil, hne]
  rw [if_neg h3]
  by_cases h4 : pdw pt j &&& 0xfffff000 = q.paTarget / 4096 * 4096
  · have hpos : pdw pt j &&& 0x01 ≠ 0 ∧ pdw pt j &&& 0xfffff000 ≤ paMax ∧
        (fUserOnly = true → pdw pt j &&& 0x04 ≠ 0) ∧
        pdw pt j &&& 0xfffff000 = q.paTarget / 4096 * 4096 :=
      ⟨h1, by omega, fun hu hz => h3 ⟨hu, hz⟩, h4⟩
    rw [if_pos h4, if_pos hpos, hone]
    rfl
  · rw [if_neg h4, if_neg (fun h => h4 h.2.2.2), List.take_nil, Phys2Virt_AppendAll_nil, hne]

/-- The walk of one page table appends the matches of the table, in slot order, up to the
cap. -/
theorem Phys2Virt_walk_table (tlb : Tlb) (cap : Nat) (hcap : cap < 2 ^ 32) (fUserOnly : Bool)
    (paMax fuel : Nat) (p : VMMOB_PHYS2VIRT_INFORMATION) (d : Nat) (hd : d < 1024) (pt : Page)
    (hlt : p.cvaList < cap) (ht : p.paTarget ≤ 0xffffffff) :
    MmX86_Phys2VirtGetInformation_Index tlb cap fUserOnly paMax (fuel + 1) p (d * 4194304) 1 pt =
      Phys2Virt_AppendAll p
        ((Phys2Virt_MatchesTable fUserOnly paMax p.paTarget (d * 4194304) pt).take
          (cap - p.cvaList)) := by
  rw [MmX86_Phys2VirtGetInformation_Index]
  unfold Phys2Virt_MatchesTable
  apply Phys2Virt_walk cap hcap _ p _ hlt
  intro j q hj hq hpt
  rw [Phys2Virt_Entry_level1 tlb cap fUserOnly paMax _ d hd pt j hj q hq (by rw [hpt]; exact ht),
    hpt]
/-- The loop body at the directory level: a slot appends its matches up to the cap, and
the function returns exactly when the list is full afterwards. -/
theorem Phys2Virt_Entry_level2 (tlb : Tlb) (cap : Nat) (hcap : cap < 2 ^ 32)
    (fUserOnly : Bool) (paMax fuel : Nat) (pd : Page) (i : Nat) (hi : i < 1024)
    (q : VMMOB_PHYS2VIRT_INFORMATION) (hlt : q.cvaList < cap) (ht : q.paTarget ≤ 0xffffffff) :
    Phys2Virt_Entry tlb cap fUserOnly paMax
        (MmX86_Phys2VirtGetInformation_Index tlb cap fUserOnly paMax (fuel + 1)) 0 2 pd i q =
      (Phys2Virt_AppendAll q
          ((Phys2Virt_MatchesSlot tlb fUserOnly paMax q.paTarget pd i).take (cap - q.cvaList)),
        decide ((Phys2Virt_AppendAll q
          ((Phys2Virt_MatchesSlot tlb fUserOnly paMax q.paTarget pd i).take
            (cap - q.cvaList))).cvaList = cap)) := by
  have hne : decide (q.cvaList = cap) = false := by
    rw [decide_eq_false_iff_not]; omega
  have hone : ∀ v : Nat, ([v] : List Nat).take (cap - q.cvaList) = [v] := fun v =>
    List.take_of_length_le (by simp only [List.length_singleton]; omega)
  unfold Phys2Virt_Entry Phys2Virt_MatchesSlot
  simp only [MMX86_PTE_IS_VALID, va_level2 i hi, target_frame_4m _ ht, va_offset_4m]
  by_cases h1 : pdw pd i &&& 0x01 = 0
  · rw [if_pos h1, if_neg (fun h => h.1 h1), List.take_nil, Phys2Virt_AppendAll_nil, hne]
  rw [if_neg h1]
  by_cases h2 : pdw pd i &&& 0xfffff000 > paMax
  · rw [if_pos h2, if_neg (fun h => absurd h.2.1 (by omega)), List.take_nil,
      Phys2Virt_AppendAll_nil, hne]
  rw [if_neg h2]
  by_cases h3 : fUserOnly = true ∧ pdw pd i &&& 0x04 = 0
  · rw [if_pos h3, if_neg (fun h => h.2.2 h3.1 h3.2), List.take_nil,
      Phys2Virt_AppendAll_nil, hne]
  have hpos : pdw pd i &&& 0x01 ≠ 0 ∧ pdw pd i &&& 0xfffff000 ≤ paMax ∧
      (fUserOnly = true → pdw pd i &&& 0x04 ≠ 0) :=
    ⟨h1, by omega, fun hu hz => h3 ⟨hu, hz⟩⟩
  rw [if_neg h3, if_pos hpos, if_neg (by decide : ¬ (2 = 1))]
  by_cases h4 : pdw pd i &&& 0x80 ≠ 0
  · rw [if_pos h4, if_pos h4]
    by_cases h5 : Phys2Virt_LargePageBase (pdw pd i) = q.paTarget / 4194304 * 4194304
    · rw [if_pos h5, if_pos h5, hone]
      rfl
    · rw [if_neg h5, if_neg h5, List.take_nil, Phys2Virt_AppendAll_nil, hne]
  · rw [if_neg h4, if_neg h4, if_neg h3]
    cases htl : tlb (pdw pd i &&& 0xfffff000) with
    | none =>
      simp only []
      rw [List.take_nil, Phys2Virt_AppendAll_nil, hne]
    | some pt =>
      simp only []
      rw [Phys2Virt_walk_table tlb cap hcap fUserOnly paMax fuel q i hi pt hlt ht]

/-- The walk of the directory appends the matches of the directory slots, in slot order,
up to the cap. -/
theorem Phys2Virt_walk_dir (tlb : Tlb) (cap : Nat) (hcap : cap < 2 ^ 32) (fUserOnly : Bool)
    (paMax fuel : Nat) (p : VMMOB_PHYS2VIRT_INFORMATION) (pd : Page)
    (hlt : p.cvaList < cap) (ht : p.paTarget ≤ 0xffffffff) :
    MmX86_Phys2VirtGetInformation_Index tlb cap fUserOnly paMax (fuel + 2) p 0 2 pd =
      Phys2Virt_AppendAll p
        (((List.range 1024).flatMap
          (Phys2Virt_MatchesSlot tlb fUserOnly paMax p.paTarget pd)).take
          (cap - p.cvaList)) := by
  rw [MmX86_Phys2VirtGetInformation_Index]
  apply Phys2Virt_walk cap hcap _ p _ hlt
  intro j q hj hq hpt
  rw [Phys2Virt_Entry_level2 tlb cap hcap fUserOnly paMax fuel pd j hj q hq
    (by rw [hpt]; exact ht), hpt]

/-- The reverse query appends the matches of the scan, in scan order, up to the cap; it
leaves the state as it is when the list is full or the target is above `paMax`. -/
theorem Phys2Virt_result (tlb : Tlb) (cap paMax fuel : Nat) (hcap : cap < 2 ^ 32)
    (pProcess : VMM_PROCESS) (p : VMMOB_PHYS2VIRT_INFORMATION) (hc : p.cvaList ≤ cap)
    (ht : p.paTarget ≤ 0xffffffff) :
    (p.paTarget ≤ paMax →
      MmX86_Phys2VirtGetInformation tlb cap paMax (fuel + 2) pProcess p =
        Phys2Virt_AppendAll p
          ((Phys2Virt_Matches tlb paMax pProcess p.paTarget).take (cap - p.cvaList))) ∧
    (p.cvaList = cap ∨ p.paTarget > paMax →
      MmX86_Phys2VirtGetInformation tlb cap paMax (fuel + 2) pProcess p = p) := by
  unfold MmX86_Phys2VirtGetInformation Phys2Virt_Matches
  refine ⟨fun hmax => ?_, fun h => by rw [if_pos h]⟩
  by_cases hfull : p.cvaList = cap
  · rw [if_pos (Or.inl hfull), hfull, Nat.sub_self, List.take_zero, Phys2Virt_AppendAll_nil]
  · rw [if_neg (by rintro (h | h) <;> omega)]
    cases hd : tlb (pProcess.paDTB &&& 0xfffff000) with
    | none => simp only []; rw [List.take_nil, Phys2Virt_AppendAll_nil]
    | some pd =>
      simp only []
      exact Phys2Virt_walk_dir tlb cap hcap pProcess.fUserOnly paMax fuel p pd (by omega)
        ht
/-- Chunks that lie in consecutive windows of size `S` above a base `B`, each in ascending
order, are in ascending order when put one after the other. -/
theorem flatMap_range_ascending (g : Nat → List Nat) (B S : Nat)
    (hin : ∀ i, ∀ a ∈ g i, B + i * S ≤ a ∧ a < B + (i + 1) * S)
    (hs : ∀ i, (g i).Pairwise (fun a b => a < b)) (n : Nat) :
    ((List.range n).flatMap g).Pairwise (fun a b => a < b) ∧
    ∀ a ∈ (List.range n).flatMap g, B ≤ a ∧ a < B + n * S := by
  induction n with
  | zero => simp
  | succ n ih =>
    have hsucc : (List.range (n + 1)).flatMap g = (List.range n).flatMap g ++ g n := by
      rw [List.range_succ, List.flatMap_append]
      simp
    rw [hsucc]
    refine ⟨?_, ?_⟩
    · rw [List.pairwise_append]
      refine ⟨ih.1, hs n, fun a ha b hb => ?_⟩
      have h1 := ih.2 a ha
      have h2 := hin n b hb
      omega
    · intro a ha
      rw [List.mem_append] at ha
      rcases ha with ha | ha
      · have h1 := ih.2 a ha
        have e : (n + 1) * S = n * S + S := by ring
        omega
      · have h2 := hin n a ha
        have e : n * S ≤ (n + 1) * S := Nat.mul_le_mul_right S (by omega)
        constructor
        · omega
        · exact h2.2

/-- An element of the matches of a page table: the slot, its condition and its address. -/
theorem Phys2Virt_MatchesTable_mem (fUserOnly : Bool) (paMax P vaBase : Nat) (pt : Page)
    (v : Nat) (h : v ∈ Phys2Virt_MatchesTable fUserOnly paMax P vaBase pt) :
    ∃ j, j < 1024 ∧ pdw pt j &&& 0x01 ≠ 0 ∧ pdw pt j &&& 0xfffff000 ≤ paMax ∧
      (fUserOnly = true → pdw pt j &&& 0x04 ≠ 0) ∧
      pdw pt j &&& 0xfffff000 = P / 4096 * 4096 ∧ v = vaBase + j * 4096 + P % 4096 := by
  unfold Phys2Virt_MatchesTable at h
  rw [List.mem_flatMap] at h
  obtain ⟨j, hj, hv⟩ := h
  rw [List.mem_range] at hj
  unfold Phys2Virt_MatchesEntry at hv
  split_ifs at hv with hc
  · rw [List.mem_singleton] at hv
    exact ⟨j, hj, hc.1, hc.2.1, hc.2.2.1, hc.2.2.2, hv⟩
  · cases hv

/-- The matches of a page table are in ascending order and lie in the 4MB window of the
table. -/
theorem Phys2Virt_MatchesTable_ascending (fUserOnly : Bool) (paMax P vaBase : Nat)
    (pt : Page) :
    (Phys2Virt_MatchesTable fUserOnly paMax P vaBase pt).Pairwise (fun a b => a < b) ∧
    ∀ a ∈ Phys2Virt_MatchesTable fUserOnly paMax P vaBase pt,
      vaBase ≤ a ∧ a < vaBase + 1024 * 4096 := by
  unfold Phys2Virt_MatchesTable
  apply flatMap_range_ascending _ vaBase 4096
  · intro j a ha
    unfold Phys2Virt_MatchesEntry at ha
    split_ifs at ha
    · rw [List.mem_singleton] at ha
      omega
    · cases ha
  · intro j
    unfold Phys2Virt_MatchesEntry
    split_ifs
    · exact List.pairwise_singleton _ _
    · exact List.Pairwise.nil

/-- The matches of a reverse query are in ascending order of virtual address. -/
theorem Phys2Virt_Matches_ascending (tlb : Tlb) (paMax : Nat) (pProcess : VMM_PROCESS)
    (P : Nat) :
    (Phys2Virt_Matches tlb paMax pProcess P).Pairwise (fun a b => a < b) := by
  unfold Phys2Virt_Matches
  cases tlb (pProcess.paDTB &&& 0xfffff000) with
  | none => exact List.Pairwise.nil
  | some pd =>
    simp only []
    refine (flatMap_range_ascending _ 0 4194304 ?_ ?_ 1024).1
    · intro i a ha
      unfold Phys2Virt_MatchesSlot at ha
      split_ifs at ha
      · rw [List.mem_singleton] at ha
        omega
      · cases ha
      · cases htl : tlb (pdw pd i &&& 0xfffff000) with
        | none => rw [htl] at ha; cases ha
        | some pt =>
          rw [htl] at ha
          have := (Phys2Virt_MatchesTable_ascending
            pProcess.fUserOnly paMax P (i * 4194304) pt).2 a ha
          omega
      · cases ha
    · intro i
      unfold Phys2Virt_MatchesSlot
      split_ifs
      · exact List.pairwise_singleton _ _
      · exact List.Pairwise.nil
      · cases tlb (pdw pd i &&& 0xfffff000) with
        | none => exact List.Pairwise.nil
        | some pt =>
          exact (Phys2Virt_MatchesTable_ascending
            pProcess.fUserOnly paMax P (i * 4194304) pt).1
      · exact List.Pairwise.nil
/-- With the reserved bits 17-21 clear, the two large-page bases are the same number. -/
theorem LargePageBase_agree (pte : Nat) (h : pte &&& 0x003e0000 = 0) :
    Virt2Phys_LargePageBase pte = Phys2Virt_LargePageBase pte := by
  rw [land_003e0000] at h
  rw [Phys2Virt_LargePageBase_eq, Virt2Phys_LargePageBase_eq]
  have e : pte / 8192 % 256 = pte / 8192 % 16 := by omega
  rw [e]

/-- Every match of a reverse query translates forward to the 4KB page of the target,
unless it was found through a large page with a reserved bit set. -/
theorem Phys2Virt_Matches_forward (tlb : Tlb) (paMax fuel : Nat) (pProcess : VMM_PROCESS)
    (P iPML ppa v : Nat) (hl : iPML = 2 ∨ iPML = 255)
    (hdtb : pProcess.paDTB ≤ 0xffffffff)
    (hv : v ∈ Phys2Virt_Matches tlb paMax pProcess P)
    (hres : ∀ pd, tlb (pProcess.paDTB &&& 0xfffff000) = some pd →
      pdw pd ((v >>> 22) &&& 0x3ff) &&& 0x80 ≠ 0 →
      pdw pd ((v >>> 22) &&& 0x3ff) &&& 0x003e0000 = 0) :
    MmX86_Virt2Phys tlb (fuel + 2) pProcess.paDTB pProcess.fUserOnly iPML v ppa =
      (true, P / 4096 * 4096) := by
  unfold Phys2Virt_Matches at hv
  cases hd : tlb (pProcess.paDTB &&& 0xfffff000) with
  | none => rw [hd] at hv; cases hv
  | some pd =>
    rw [hd] at hv
    simp only [] at hv
    rw [List.mem_flatMap] at hv
    obtain ⟨i, hi, hvi⟩ := hv
    rw [List.mem_range] at hi
    have hres' := hres pd hd
    unfold Phys2Virt_MatchesSlot at hvi
    by_cases hacc : pdw pd i &&& 0x01 ≠ 0 ∧ pdw pd i &&& 0xfffff000 ≤ paMax ∧
        (pProcess.fUserOnly = true → pdw pd i &&& 0x04 ≠ 0)
    · rw [if_pos hacc] at hvi
      obtain ⟨hp, -, hu⟩ := hacc
      have hu' : ¬ (pProcess.fUserOnly = true ∧ pdw pd i &&& 0x04 = 0) :=
        fun h => hu h.1 h.2
      by_cases hps : pdw pd i &&& 0x80 ≠ 0
      · rw [if_pos hps] at hvi
        by_cases hm : Phys2Virt_LargePageBase (pdw pd i) = P / 4194304 * 4194304
        · rw [if_pos hm, List.mem_singleton] at hvi
          have hidx : (v >>> 22) &&& 0x3ff = i := by
            rw [(slot_level2 i v (by omega) (by omega)).1, land_3ff]; omega
          rw [hidx] at hres'
          have hr := hres' hps
          rw [Virt2Phys_level2 _ _ _ _ _ _ _ hl, if_neg (by omega), if_neg (by omega), hd]
          simp only []
          rw [hidx, if_neg hp, if_neg hu', if_neg hps, if_neg (not_not.mpr hr)]
          have hb := LargePageBase_agree (pdw pd i) hr
          unfold Virt2Phys_LargePageBase at hb
          have e32 : (32 - 13 : Nat) = 19 := by norm_num
          rw [e32] at hb
          rw [hb, hm, land_003ff000, hvi]
          refine congrArg (Prod.mk true) ?_
          omega
        · rw [if_neg hm] at hvi; cases hvi
      · rw [if_neg hps] at hvi
        cases htl : tlb (pdw pd i &&& 0xfffff000) with
        | none => rw [htl] at hvi; cases hvi
        | some pt =>
          rw [htl] at hvi
          simp only [] at hvi
          obtain ⟨j, hj, hjp, -, hju, hjm, hvj⟩ :=
            Phys2Virt_MatchesTable_mem _ _ _ _ _ _ hvi
          have hs := slot_level1 i j v hj (by omega) (by omega)
          have hidx : (v >>> 22) &&& 0x3ff = i := by
            rw [hs.1, land_3ff]; omega
          have hps' : pdw pd i &&& 0x80 = 0 := not_not.mp hps
          have hlt := pdw_lt pd i
          rw [Virt2Phys_level2 _ _ _ _ _ _ _ hl, if_neg (by omega), if_neg (by omega), hd]
          simp only []
          rw [hidx, if_neg hp, if_neg hu', if_pos hps', Virt2Phys_level1,
            if_neg (by omega), if_neg (by omega), htl]
          simp only []
          rw [hs.2.1, if_neg hjp, if_neg (fun h => hju h.1 h.2), hjm]
    · rw [if_neg hacc] at hvi; cases hvi
theorem take_min_length (l : List Nat) (k : Nat) : l.take (min l.length k) = l.take k := by
  by_cases h : l.length ≤ k
  · rw [Nat.min_eq_left h, List.take_of_length_le (le_refl _), List.take_of_length_le h]
  · rw [Nat.min_eq_right (by omega)]

set_option maxRecDepth 100000 in
/-- C12 (failing inputs): the target `0x100005123` is not above the device maximum
`0x1ffffffff` and the list is empty with cap 2. No leaf of the address space has the frame
`0x100005000` of the target, so there is no matching virtual address; yet the reverse
mapper compares only the low 32 bits of the target (`paTarget & 0xfffff000` with a 32-bit
mask), takes the slots that map the frame `0x5000` for matches and appends two addresses,
which translate forward to `0x5000`. In the other direction, the 4MB page of directory
entry `0x00c02087` has the frame `0x100c00000` (line 337 builds it as a 40-bit value), the
target `0x100c00000` lies in it, and the reverse mapper appends nothing, because line 338
compares the frame with `paTarget & 0xffc00000`, which is `0x00c00000`. -/
theorem C12_counterexample :
    queryWideFrame5.cvaList ≤ 2 ∧ queryWideFrame5.paTarget ≤ 0x1ffffffff ∧
    Phys2Virt_Matches tlbThreeMatches 0x1ffffffff procPlain queryWideFrame5.paTarget = [] ∧
    (MmX86_Phys2VirtGetInformation tlbThreeMatches 2 0x1ffffffff 2 procPlain
      queryWideFrame5).cvaList = 2 ∧
    (MmX86_Phys2VirtGetInformation tlbThreeMatches 2 0x1ffffffff 2 procPlain
      queryWideFrame5).pvaList 0 = 0x1123 ∧
    MmX86_Virt2Phys tlbThreeMatches 2 0x1000 false 2 0x1123 0 = (true, 0x5000) ∧
    queryWideLarge.cvaList ≤ 2 ∧ queryWideLarge.paTarget ≤ 0x1ffffffff ∧
    Phys2Virt_LargePageBase 0x00c02087 = queryWideLarge.paTarget ∧
    Phys2Virt_Matches tlbExtendedLarge 0x1ffffffff procPlain queryWideLarge.paTarget =
      [0x01400000] ∧
    (MmX86_Phys2VirtGetInformation tlbExtendedLarge 2 0x1ffffffff 2 procPlain
      queryWideLarge).cvaList = 0 := by
  decide

/-- C12 (the code on targets in the 32-bit range): the code meets the claim wherever the
32-bit masks of lines 329 and 338 lose nothing. For every reverse-query state whose target
is at most `0xffffffff` and whose initial count `c` is at most the cap, after `MmX86_Phys2VirtGetInformation` with a
target not above the device maximum the count is `c + min(n, cap - c)` and the result list
is the initial list followed by the first `min(n, cap - c)` of the `n` matching virtual
addresses in scan order, every slot from the new count on is as before (no match after the
one that fills the list is appended); the count never exceeds the cap; the matches are in
ascending order of virtual address; and if the target is above the device maximum or the
list is already full the state is unchanged. -/
theorem C12_phys2virt_capped (tlb : Tlb) (cap paMax fuel : Nat) (pProcess : VMM_PROCESS)
    (p : VMMOB_PHYS2VIRT_INFORMATION) (hcap : cap < 2 ^ 32) (hc : p.cvaList ≤ cap)
    (ht : p.paTarget ≤ 0xffffffff) :
    (p.paTarget ≤ paMax →
      (MmX86_Phys2VirtGetInformation tlb cap paMax (fuel + 2) pProcess p).cvaList =
        p.cvaList +
          min (Phys2Virt_Matches tlb paMax pProcess p.paTarget).length (cap - p.cvaList) ∧
      (List.range (MmX86_Phys2VirtGetInformation tlb cap paMax (fuel + 2) pProcess p).cvaList).map
          (MmX86_Phys2VirtGetInformation tlb cap paMax (fuel + 2) pProcess p).pvaList =
        (List.range p.cvaList).map p.pvaList ++
          (Phys2Virt_Matches tlb paMax pProcess p.paTarget).take
            (min (Phys2Virt_Matches tlb paMax pProcess p.paTarget).length (cap - p.cvaList)) ∧
      ∀ k, (MmX86_Phys2VirtGetInformation tlb cap paMax (fuel + 2) pProcess p).cvaList ≤ k →
        (MmX86_Phys2VirtGetInformation tlb cap paMax (fuel + 2) pProcess p).pvaList k =
          p.pvaList k) ∧
    (MmX86_Phys2VirtGetInformation tlb cap paMax (fuel + 2) pProcess p).cvaList ≤ cap ∧
    (Phys2Virt_Matches tlb paMax pProcess p.paTarget).Pairwise (fun a b => a < b) ∧
    (p.paTarget > paMax ∨ p.cvaList = cap →
      MmX86_Phys2VirtGetInformation tlb cap paMax (fuel + 2) pProcess p = p) := by
  obtain ⟨h1, h2⟩ := Phys2Virt_result tlb cap paMax fuel hcap pProcess p hc ht
  have hlen : ((Phys2Virt_Matches tlb paMax pProcess p.paTarget).take (cap - p.cvaList)).length =
      min (Phys2Virt_Matches tlb paMax pProcess p.paTarget).length (cap - p.cvaList) := by
    rw [List.length_take, Nat.min_comm]
  have hb : p.cvaList +
      ((Phys2Virt_Matches tlb paMax pProcess p.paTarget).take (cap - p.cvaList)).length
        < 2 ^ 32 := by
    rw [hlen]; omega
  refine ⟨fun hmax => ?_, ?_, Phys2Virt_Matches_ascending tlb paMax pProcess p.paTarget,
    fun h => h2 (by rcases h with h | h; exact Or.inr h; exact Or.inl h)⟩
  · rw [h1 hmax, take_min_length]
    refine ⟨?_, Phys2Virt_AppendAll_list _ p hb, fun k hk => ?_⟩
    · rw [Phys2Virt_AppendAll_cvaList _ _ hb, hlen]
    · rw [Phys2Virt_AppendAll_cvaList _ _ hb] at hk
      exact (Phys2Virt_AppendAll_pvaList _ p hb).1 k (Or.inr hk)
  · by_cases hmax : p.paTarget ≤ paMax
    · rw [h1 hmax, Phys2Virt_AppendAll_cvaList _ _ hb, hlen]
      omega
    · rw [h2 (Or.inr (by omega))]
      exact hc

set_option maxRecDepth 100000 in
/-- C12 (witness): the scenario of the specification, cap 2 and three matching virtual
addresses `0x1123`, `0x2123`, `0x4123` for the target `0x5123`: the count grows by
`min(3, 2)`. -/
theorem C12_phys2virt_capped_witness :
    (MmX86_Phys2VirtGetInformation tlbThreeMatches 2 0xffffffff 2 procPlain
        queryFrame5).cvaList =
      queryFrame5.cvaList +
        min (Phys2Virt_Matches tlbThreeMatches 0xffffffff procPlain
          queryFrame5.paTarget).length (2 - queryFrame5.cvaList) ∧
    Phys2Virt_Matches tlbThreeMatches 0xffffffff procPlain queryFrame5.paTarget =
      [0x1123, 0x2123, 0x4123] ∧
    (MmX86_Phys2VirtGetInformation tlbThreeMatches 2 0xffffffff 2 procPlain
        queryFrame5).pvaList 2 = 0 :=
  ⟨((C12_phys2virt_capped tlbThreeMatches 2 0xffffffff 0 procPlain queryFrame5
      (by decide) (by decide) (by decide)).1 (by decide)).1, by decide, by decide⟩

set_option maxRecDepth 100000 in
/-- C11 (counterexample): the directory entry 5 is a 4MB page with frame `0x00c00000` and
the reserved bit 21 set. The reverse mapper, which does not look at the reserved bits,
appends the virtual address `0x01400000` for the target `0x00c00000`; the forward
translation of that address fails on the reserved bit. -/
theorem C11_counterexample :
    queryLargeFrame.paTarget ≤ 0xffffffff ∧
    (MmX86_Phys2VirtGetInformation tlbReservedBit21 2 0xffffffff 2 procPlain
      queryLargeFrame).cvaList = 1 ∧
    (MmX86_Phys2VirtGetInformation tlbReservedBit21 2 0xffffffff 2 procPlain
      queryLargeFrame).pvaList 0 = 0x01400000 ∧
    (MmX86_Virt2Phys tlbReservedBit21 2 procPlain.paDTB procPlain.fUserOnly 2
      0x01400000 0).1 = false := by
  decide

/-- C11 (amended): for a directory base and a target that are at most `0xffffffff` and an
initial count at most the cap, every virtual address that `MmX86_Phys2VirtGetInformation`
appends (the slots from the initial count up to the final count) translates forward to the
target: `MmX86_Virt2Phys` with the same directory base and privilege filter succeeds on it
and returns the 4KB page address of the target, provided that the directory entry of that
address is not a 4MB page with one of the reserved bits 17-21 set. -/
theorem C11_phys2virt_round_trip (tlb : Tlb) (cap paMax fuel fuel' : Nat)
    (pProcess : VMM_PROCESS) (p : VMMOB_PHYS2VIRT_INFORMATION) (iPML ppa k : Nat)
    (hl : iPML = 2 ∨ iPML = 255) (hcap : cap < 2 ^ 32) (hc : p.cvaList ≤ cap)
    (ht : p.paTarget ≤ 0xffffffff) (hdtb : pProcess.paDTB ≤ 0xffffffff)
    (hk1 : p.cvaList ≤ k)
    (hk2 : k < (MmX86_Phys2VirtGetInformation tlb cap paMax (fuel + 2) pProcess p).cvaList)
    (hres : ∀ pd, tlb (pProcess.paDTB &&& 0xfffff000) = some pd →
      pdw pd ((((MmX86_Phys2VirtGetInformation tlb cap paMax (fuel + 2) pProcess p).pvaList k)
        >>> 22) &&& 0x3ff) &&& 0x80 ≠ 0 →
      pdw pd ((((MmX86_Phys2VirtGetInformation tlb cap paMax (fuel + 2) pProcess p).pvaList k)
        >>> 22) &&& 0x3ff) &&& 0x003e0000 = 0) :
    MmX86_Virt2Phys tlb (fuel' + 2) pProcess.paDTB pProcess.fUserOnly iPML
        ((MmX86_Phys2VirtGetInformation tlb cap paMax (fuel + 2) pProcess p).pvaList k) ppa =
      (true, p.paTarget / 4096 * 4096) := by
  obtain ⟨h1, h2⟩ := Phys2Virt_result tlb cap paMax fuel hcap pProcess p hc ht
  by_cases hmax : p.paTarget ≤ paMax
  · have hlen : ((Phys2Virt_Matches tlb paMax pProcess p.paTarget).take
        (cap - p.cvaList)).length ≤ cap - p.cvaList := by
      rw [List.length_take]; omega
    have hb : p.cvaList +
        ((Phys2Virt_Matches tlb paMax pProcess p.paTarget).take (cap - p.cvaList)).length
          < 2 ^ 32 := by omega
    rw [h1 hmax] at hk2 hres ⊢
    rw [Phys2Virt_AppendAll_cvaList _ _ hb] at hk2
    have hget := (Phys2Virt_AppendAll_pvaList _ p hb).2 (k - p.cvaList) (by omega)
    have e : p.cvaList + (k - p.cvaList) = k := by omega
    rw [e] at hget
    have hmem : (Phys2Virt_AppendAll p
        ((Phys2Virt_Matches tlb paMax pProcess p.paTarget).take (cap - p.cvaList))).pvaList k ∈
        Phys2Virt_Matches tlb paMax pProcess p.paTarget :=
      List.mem_of_mem_take (List.getElem?_mem hget)
    exact Phys2Virt_Matches_forward tlb paMax fuel' pProcess p.paTarget iPML ppa _ hl hdtb
      hmem hres
  · rw [h2 (Or.inr (by omega))] at hk2
    omega

set_option maxRecDepth 100000 in
/-- C11 (witness): the first address appended for the target `0x5123`, found through a
4KB entry, translates forward to the page `0x5000` of the target. -/
theorem C11_phys2virt_round_trip_witness :
    MmX86_Virt2Phys tlbThreeMatches 2 procPlain.paDTB procPlain.fUserOnly 2
        ((MmX86_Phys2VirtGetInformation tlbThreeMatches 2 0xffffffff 2 procPlain
          queryFrame5).pvaList 0) 0 =
      (true, queryFrame5.paTarget / 4096 * 4096) :=
  C11_phys2virt_round_trip tlbThreeMatches 2 0xffffffff 0 0 procPlain queryFrame5 2 0 0
    (Or.inl rfl) (by decide) (by decide) (by decide) (by decide) (by decide) (by decide)
    (fun pd hpd => by
      have h2 : tlbThreeMatches (procPlain.paDTB &&& 0xfffff000) = some dirTableAt0 := rfl
      rw [h2] at hpd
      cases hpd
      decide)

/-! ## The extended-attributes walker: claims C15, C16 and C19 -/

theorem VadEx_Resolve_va (c : VadExConstants) (iPML pte : Nat) (e : VMM_MAP_VADEXENTRY) :
    (VadEx_Resolve c iPML pte e).va = e.va := by
  unfold VadEx_Resolve
  split_ifs <;> rfl

theorem VadEx_TableEntry_va (c : VadExConstants) (pt : Page) (e : VMM_MAP_VADEXENTRY) :
    (VadEx_TableEntry c pt e).va = e.va := by
  unfold VadEx_TableEntry
  exact VadEx_Resolve_va c 1 _ _

/-- One pass through `next_entry` at the page-table level. -/
theorem VadEx_NextEntry_level1 (c : VadExConstants)
    (recurse : Nat → VadExState → Option VadExState) (pt : Page) (fuel : Nat) (s : VadExState)
    (hi : s.piVadEx + 1 < 2 ^ 32) (hva : (s.pVadEx.pMap s.piVadEx).va ≤ 0xffffffff) :
    VadEx_NextEntry c recurse pt 1 (fuel + 1) s =
      if 0x3ff &&& ((s.pVadEx.pMap s.piVadEx).va >>> 12) < 0x3ff ∧
          s.piVadEx + 1 < s.pVadEx.cMap then
        if (s.pVadEx.pMap s.piVadEx).va + 0x1000 = (s.pVadEx.pMap (s.piVadEx + 1)).va then
          VadEx_NextEntry c recurse pt 1 fuel
            { pVadEx :=
                { s.pVadEx with
                  pMap := Function.update s.pVadEx.pMap s.piVadEx
                    (VadEx_TableEntry c pt (s.pVadEx.pMap s.piVadEx)) }
              piVadEx := s.piVadEx + 1
              accessed := s.accessed ++ [s.piVadEx] ++ [s.piVadEx + 1] }
        else
          some
            { pVadEx :=
                { s.pVadEx with
                  pMap := Function.update s.pVadEx.pMap s.piVadEx
                    (VadEx_TableEntry c pt (s.pVadEx.pMap s.piVadEx)) }
              piVadEx := s.piVadEx + 1
              accessed := s.accessed ++ [s.piVadEx] ++ [s.piVadEx + 1] }
      else
        some
          { pVadEx :=
              { s.pVadEx with
                pMap := Function.update s.pVadEx.pMap s.piVadEx
                  (VadEx_TableEntry c pt (s.pVadEx.pMap s.piVadEx)) }
            piVadEx := s.piVadEx + 1
            accessed := s.accessed ++ [s.piVadEx] } := by
  have h1 : (s.piVadEx + 1) % 2 ^ 32 = s.piVadEx + 1 := Nat.mod_eq_of_lt hi
  have h2 : ((s.pVadEx.pMap s.piVadEx).va + 0x1000) % 2 ^ 64 =
      (s.pVadEx.pMap s.piVadEx).va + 0x1000 := Nat.mod_eq_of_lt (by omega)
  have h3 : ¬ (MMX86_PTE_IS_VALID (pdw pt (0x3ff &&& ((s.pVadEx.pMap s.piVadEx).va >>>
      MMX86_PAGETABLEMAP_PML_REGION_SIZE 1))) ≠ 0 ∧
      pdw pt (0x3ff &&& ((s.pVadEx.pMap s.piVadEx).va >>>
        MMX86_PAGETABLEMAP_PML_REGION_SIZE 1)) &&& 0x04 ≠ 0 ∧ 1 = 2 ∧
      pdw pt (0x3ff &&& ((s.pVadEx.pMap s.piVadEx).va >>>
        MMX86_PAGETABLEMAP_PML_REGION_SIZE 1)) &&& 0x80 = 0) := fun h => absurd h.2.2.1 (by decide)
  have h4 : Function.update s.pVadEx.pMap s.piVadEx
      (VadEx_TableEntry c pt (s.pVadEx.pMap s.piVadEx)) (s.piVadEx + 1) =
      s.pVadEx.pMap (s.piVadEx + 1) := Function.update_noteq (by omega) _ _
  rw [VadEx_NextEntry]
  simp only []
  rw [if_neg h3, h1]
  have e12 : MMX86_PAGETABLEMAP_PML_REGION_SIZE 1 = 12 := rfl
  rw [e12]
  have hT : ({ VadEx_Resolve c 1 (pdw pt (0x3ff &&& ((s.pVadEx.pMap s.piVadEx).va >>> 12)))
        { s.pVadEx.pMap s.piVadEx with flags := 0 } with
      pte := pdw pt (0x3ff &&& ((s.pVadEx.pMap s.piVadEx).va >>> 12)), iPML := 1 } :
        VMM_MAP_VADEXENTRY) = VadEx_TableEntry c pt (s.pVadEx.pMap s.piVadEx) := rfl
  rw [hT, VadEx_Resolve_va, h2, h4]
  simp only [true_and]
theorem next_page_same_dir (v : Nat) (hv : v ≤ 0xffffffff)
    (h : 0x3ff &&& (v >>> 12) < 0x3ff) :
    v + 0x1000 ≤ 0xffffffff ∧ 0x3ff &&& ((v + 0x1000) >>> 22) = 0x3ff &&& (v >>> 22) := by
  rw [Nat.land_comm, land_3ff, Nat.shiftRight_eq_div_pow] at h
  rw [Nat.land_comm, land_3ff, Nat.land_comm, land_3ff, Nat.shiftRight_eq_div_pow,
    Nat.shiftRight_eq_div_pow]
  norm_num at h ⊢
  omega

/-- The passes through `next_entry` at the page-table level: with enough fuel the walk
ends, every entry it steps past holds the result of lines 245-269 for the table, and all
those entries have their addresses in the 32-bit range and in the 4MB window of the first
one. -/
theorem VadEx_NextEntry_table (c : VadExConstants)
    (recurse : Nat → VadExState → Option VadExState) (pt : Page) :
    ∀ (fuel : Nat) (s : VadExState), s.piVadEx < s.pVadEx.cMap → s.pVadEx.cMap < 2 ^ 32 →
      (s.pVadEx.pMap s.piVadEx).va ≤ 0xffffffff → s.pVadEx.cMap - s.piVadEx ≤ fuel →
      ∃ s', VadEx_NextEntry c recurse pt 1 fuel s = some s' ∧
        VadEx_Advanced (VadEx_TableEntry c pt) s s' ∧
        ∀ k, s.piVadEx ≤ k → k < s'.piVadEx →
          (s.pVadEx.pMap k).va ≤ 0xffffffff ∧
          0x3ff &&& ((s.pVadEx.pMap k).va >>> 22) =
            0x3ff &&& ((s.pVadEx.pMap s.piVadEx).va >>> 22) := by
  intro fuel
  induction fuel with
  | zero => intro s h1 _ _ h4; omega
  | succ fuel ih =>
    intro s h1 h2 h3 h4
    rw [VadEx_NextEntry_level1 c recurse pt fuel s (by omega) h3]
    have hdone : ∀ l : List Nat, (∀ k ∈ l, k < s.pVadEx.cMap) →
        VadEx_Advanced (VadEx_TableEntry c pt) s
          { pVadEx :=
              { s.pVadEx with
                pMap := Function.update s.pVadEx.pMap s.piVadEx
                  (VadEx_TableEntry c pt (s.pVadEx.pMap s.piVadEx)) }
            piVadEx := s.piVadEx + 1
            accessed := s.accessed ++ l } ∧
        ∀ k, s.piVadEx ≤ k → k < s.piVadEx + 1 →
          (s.pVadEx.pMap k).va ≤ 0xffffffff ∧
          0x3ff &&& ((s.pVadEx.pMap k).va >>> 22) =
            0x3ff &&& ((s.pVadEx.pMap s.piVadEx).va >>> 22) := by
      intro l hl
      refine ⟨⟨by show s.piVadEx < s.piVadEx + 1; omega, by show s.piVadEx + 1 ≤ _; omega,
        rfl, fun k => ?_, l, rfl, hl⟩, fun k hk1 hk2 => ?_⟩
      · show Function.update s.pVadEx.pMap s.piVadEx _ k =
          if s.piVadEx ≤ k ∧ k < s.piVadEx + 1 then _ else _
        by_cases hk : k = s.piVadEx
        · subst hk
          rw [Function.update_same, if_pos ⟨le_refl _, Nat.lt_succ_self _⟩]
        · rw [Function.update_noteq hk, if_neg (fun h => hk (by omega))]
      · have hk : k = s.piVadEx := by omega
        subst hk
        exact ⟨h3, rfl⟩
    by_cases hA : 0x3ff &&& ((s.pVadEx.pMap s.piVadEx).va >>> 12) < 0x3ff ∧
        s.piVadEx + 1 < s.pVadEx.cMap
    · rw [if_pos hA]
      by_cases hB : (s.pVadEx.pMap s.piVadEx).va + 0x1000 =
          (s.pVadEx.pMap (s.piVadEx + 1)).va
      · rw [if_pos hB]
        have hnp := next_page_same_dir _ h3 hA.1
        have hupd : ∀ k, k ≠ s.piVadEx →
            Function.update s.pVadEx.pMap s.piVadEx
              (VadEx_TableEntry c pt (s.pVadEx.pMap s.piVadEx)) k = s.pVadEx.pMap k :=
          fun k hk => Function.update_noteq hk _ _
        obtain ⟨s', hs', ⟨a1, a2, a3, a4, l, a5, a6⟩, hv⟩ := ih
          { pVadEx :=
              { s.pVadEx with
                pMap := Function.update s.pVadEx.pMap s.piVadEx
                  (VadEx_TableEntry c pt (s.pVadEx.pMap s.piVadEx)) }
            piVadEx := s.piVadEx + 1
            accessed := s.accessed ++ [s.piVadEx] ++ [s.piVadEx + 1] }
          hA.2 h2
          (by
            show (Function.update s.pVadEx.pMap s.piVadEx _ (s.piVadEx + 1)).va ≤ _
            rw [hupd _ (by omega), ← hB]; exact hnp.1)
          (by show s.pVadEx.cMap - (s.piVadEx + 1) ≤ fuel; omega)
        simp only [] at a1 a2 a3 a4 a5 a6 hv
        refine ⟨s', hs', ⟨by omega, a2, a3, fun k => ?_, [s.piVadEx] ++ [s.piVadEx + 1] ++ l,
          by rw [a5]; simp only [List.append_assoc], ?_⟩, fun k hk1 hk2 => ?_⟩
        · rw [a4 k]
          by_cases hk : k = s.piVadEx
          · subst hk
            rw [if_neg (by omega), Function.update_same, if_pos ⟨le_refl _, by omega⟩]
          · rw [hupd k hk]
            by_cases hr : s.piVadEx + 1 ≤ k ∧ k < s'.piVadEx
            · rw [if_pos hr, if_pos ⟨by omega, hr.2⟩]
            · rw [if_neg hr, if_neg (fun h => hr ⟨by omega, h.2⟩)]
        · intro k hk
          simp only [List.mem_append, List.mem_singleton] at hk
          rcases hk with (hk | hk) | hk
          · omega
          · omega
          · exact a6 k hk
        · by_cases hk : k = s.piVadEx
          · subst hk
            exact ⟨h3, rfl⟩
          · have := hv k (by omega) hk2
            rw [hupd k hk, hupd _ (by omega : s.piVadEx + 1 ≠ s.piVadEx), ← hB, hnp.2] at this
            exact this
      · rw [if_neg hB]
        obtain ⟨g1, g2⟩ := hdone ([s.piVadEx] ++ [s.piVadEx + 1]) (by
          intro k hk
          simp only [List.mem_append, List.mem_singleton] at hk
          omega)
        refine ⟨_, rfl, ?_, g2⟩
        rw [List.append_assoc]
        exact g1
    · rw [if_neg hA]
      obtain ⟨g1, g2⟩ := hdone [s.piVadEx] (by
        intro k hk
        simp only [List.mem_singleton] at hk
        omega)
      exact ⟨_, rfl, g1, g2⟩
/-- One pass through `next_entry` at the directory level: either the call of line 251 or
the stores of `next_check` and the return. -/
theorem VadEx_NextEntry_level2 (c : VadExConstants)
    (recurse : Nat → VadExState → Option VadExState) (pd : Page) (fuel : Nat) (s : VadExState)
    (hi : s.piVadEx + 1 < 2 ^ 32) :
    VadEx_NextEntry c recurse pd 2 (fuel + 1) s =
      if MMX86_PTE_IS_VALID (pdw pd (0x3ff &&& ((s.pVadEx.pMap s.piVadEx).va >>> 22))) ≠ 0 ∧
          pdw pd (0x3ff &&& ((s.pVadEx.pMap s.piVadEx).va >>> 22)) &&& 0x04 ≠ 0 ∧
          pdw pd (0x3ff &&& ((s.pVadEx.pMap s.piVadEx).va >>> 22)) &&& 0x80 = 0 then
        recurse (pdw pd (0x3ff &&& ((s.pVadEx.pMap s.piVadEx).va >>> 22)))
          { s with
            pVadEx :=
              { s.pVadEx with
                pMap := Function.update s.pVadEx.pMap s.piVadEx
                  { s.pVadEx.pMap s.piVadEx with flags := 0 } }
            accessed := s.accessed ++ [s.piVadEx] }
      else
        some
          { pVadEx :=
              { s.pVadEx with
                pMap := Function.update s.pVadEx.pMap s.piVadEx
                  { VadEx_Resolve c 2 (pdw pd (0x3ff &&& ((s.pVadEx.pMap s.piVadEx).va >>> 22)))
                      { s.pVadEx.pMap s.piVadEx with flags := 0 } with
                    pte := pdw pd (0x3ff &&& ((s.pVadEx.pMap s.piVadEx).va >>> 22))
                    iPML := 2 } }
            piVadEx := s.piVadEx + 1
            accessed := s.accessed ++ [s.piVadEx] } := by
  have h1 : (s.piVadEx + 1) % 2 ^ 32 = s.piVadEx + 1 := Nat.mod_eq_of_lt hi
  have e22 : MMX86_PAGETABLEMAP_PML_REGION_SIZE 2 = 22 := rfl
  rw [VadEx_NextEntry]
  simp only []
  rw [h1, e22]
  have h21 : ¬ ((2 : Nat) = 1) := by decide
  simp only [h21, false_and, if_false, true_and]

/-- The entry of a walk alone when the early-exit guard applies at the directory level. -/
theorem VadEx_DirEntry_skip (tlb : Tlb) (c : VadExConstants) (paPT : Nat)
    (e : VMM_MAP_VADEXENTRY)
    (h : e.va > 0xffffffff ∨ paPT > 0xffffffff ∨ tlb (paPT &&& 0xfffff000) = none) :
    VadEx_DirEntry tlb c paPT e = e := by
  unfold VadEx_DirEntry
  by_cases hg : e.va > 0xffffffff ∨ paPT > 0xffffffff
  · rw [if_pos hg]
  · rw [if_neg hg]
    rcases h with h | h | h
    · exact absurd (Or.inl h) hg
    · exact absurd (Or.inr h) hg
    · rw [h]

/-- The entry of a walk alone that ends at the directory level. -/
theorem VadEx_DirEntry_leaf (tlb : Tlb) (c : VadExConstants) (paPT : Nat)
    (e : VMM_MAP_VADEXENTRY) (pd : Page) (hva : e.va ≤ 0xffffffff) (hpa : paPT ≤ 0xffffffff)
    (hpd : tlb (paPT &&& 0xfffff000) = some pd)
    (hn : ¬ (MMX86_PTE_IS_VALID (pdw pd (0x3ff &&& (e.va >>> 22))) ≠ 0 ∧
      pdw pd (0x3ff &&& (e.va >>> 22)) &&& 0x04 ≠ 0 ∧
      pdw pd (0x3ff &&& (e.va >>> 22)) &&& 0x80 = 0)) :
    VadEx_DirEntry tlb c paPT e =
      { VadEx_Resolve c 2 (pdw pd (0x3ff &&& (e.va >>> 22))) { e with flags := 0 } with
        pte := pdw pd (0x3ff &&& (e.va >>> 22)), iPML := 2 } := by
  unfold VadEx_DirEntry
  rw [if_neg (by omega), hpd]
  simp only []
  rw [if_neg hn]

/-- The entry of a walk alone that goes down to the page-table level. -/
theorem VadEx_DirEntry_call (tlb : Tlb) (c : VadExConstants) (paPT : Nat)
    (e : VMM_MAP_VADEXENTRY) (pd : Page) (hva : e.va ≤ 0xffffffff) (hpa : paPT ≤ 0xffffffff)
    (hpd : tlb (paPT &&& 0xfffff000) = some pd)
    (hc : MMX86_PTE_IS_VALID (pdw pd (0x3ff &&& (e.va >>> 22))) ≠ 0 ∧
      pdw pd (0x3ff &&& (e.va >>> 22)) &&& 0x04 ≠ 0 ∧
      pdw pd (0x3ff &&& (e.va >>> 22)) &&& 0x80 = 0) :
    VadEx_DirEntry tlb c paPT e =
      match tlb (pdw pd (0x3ff &&& (e.va >>> 22)) &&& 0xfffff000) with
      | none => { e with flags := 0 }
      | some pt => VadEx_TableEntry c pt e := by
  unfold VadEx_DirEntry
  rw [if_neg (by omega), hpd]
  simp only []
  rw [if_pos hc]

/-- The call of `MmX86_Virt2PhysVadEx` at the page-table level: with enough fuel it
returns; when the early-exit guard applies it steps past one entry and leaves it as it is,
otherwise it steps past a run of entries of one 4MB window and gives each the result of
lines 245-269 for the table. -/
theorem VadEx_call_level1 (tlb : Tlb) (c : VadExConstants) (fuel paPT : Nat) (s : VadExState)
    (h1 : s.piVadEx < s.pVadEx.cMap) (h2 : s.pVadEx.cMap < 2 ^ 32)
    (hf : s.pVadEx.cMap - s.piVadEx ≤ fuel + 1) :
    ∃ s', MmX86_Virt2PhysVadEx tlb c (fuel + 1) paPT 1 s = some s' ∧
      (((s.pVadEx.pMap s.piVadEx).va > 0xffffffff ∨ paPT > 0xffffffff ∨
          tlb (paPT &&& 0xfffff000) = none) →
        VadEx_Advanced id s s' ∧ s'.piVadEx = s.piVadEx + 1) ∧
      (∀ pt, (s.pVadEx.pMap s.piVadEx).va ≤ 0xffffffff → paPT ≤ 0xffffffff →
        tlb (paPT &&& 0xfffff000) = some pt →
        VadEx_Advanced (VadEx_TableEntry c pt) s s' ∧
        ∀ k, s.piVadEx ≤ k → k < s'.piVadEx →
          (s.pVadEx.pMap k).va ≤ 0xffffffff ∧
          0x3ff &&& ((s.pVadEx.pMap k).va >>> 22) =
            0x3ff &&& ((s.pVadEx.pMap s.piVadEx).va >>> 22)) := by
  have hm : (s.piVadEx + 1) % 2 ^ 32 = s.piVadEx + 1 := Nat.mod_eq_of_lt (by omega)
  have hskip : VadEx_Advanced id s
      { s with piVadEx := s.piVadEx + 1, accessed := s.accessed ++ [s.piVadEx] } :=
    ⟨by show s.piVadEx < s.piVadEx + 1; omega, by show s.piVadEx + 1 ≤ _; omega, rfl,
      fun k => by
        show s.pVadEx.pMap k = if s.piVadEx ≤ k ∧ k < s.piVadEx + 1 then _ else _
        split_ifs <;> rfl,
      [s.piVadEx], rfl, fun k hk => by
        rw [List.mem_singleton] at hk; omega⟩
  rw [MmX86_Virt2PhysVadEx]
  rw [hm, if_neg (by decide : ¬ ((1 : Nat) = 255))]
  by_cases hg : (s.pVadEx.pMap s.piVadEx).va > 0xffffffff ∨ paPT > 0xffffffff
  · rw [if_pos hg]
    refine ⟨_, rfl, fun _ => ⟨hskip, rfl⟩, fun pt hva hpa _ => ?_⟩
    rcases hg with hg | hg <;> omega
  rw [if_neg hg]
  cases ht : tlb (paPT &&& 0xfffff000) with
  | none =>
    simp only []
    refine ⟨_, rfl, fun _ => ⟨hskip, rfl⟩, fun pt _ _ hpt => by cases hpt⟩
  | some pt =>
    simp only []
    obtain ⟨s', hs', ⟨a1, a2, a3, a4, l, a5, a6⟩, hv⟩ :=
      VadEx_NextEntry_table c (fun pte s' => MmX86_Virt2PhysVadEx tlb c fuel pte 1 s') pt
        (fuel + 1) { s with accessed := s.accessed ++ [s.piVadEx] } h1 h2
        (by show (s.pVadEx.pMap s.piVadEx).va ≤ _; omega) hf
    simp only [] at a1 a2 a3 a4 a5 a6 hv
    refine ⟨s', hs', fun h => ?_, fun pt' _ _ hpt' => ?_⟩
    · rcases h with h | h | h
      · exact absurd (Or.inl h) hg
      · exact absurd (Or.inr h) hg
      · cases h
    · cases hpt'
      refine ⟨⟨a1, a2, a3, a4, [s.piVadEx] ++ l, by rw [a5, List.append_assoc], ?_⟩, hv⟩
      intro k hk
      rw [List.mem_append, List.mem_singleton] at hk
      rcases hk with hk | hk
      · omega
      · exact a6 k hk
/-- The call of `MmX86_Virt2PhysVadEx` at the directory level: with enough fuel it
returns, the index has moved forward within the sequence, and every entry it stepped past
holds the result of the walk of that entry alone. -/
theorem VadEx_call_level2 (tlb : Tlb) (c : VadExConstants) (fuel paPT iPML : Nat)
    (s : VadExState) (hl : iPML = 2 ∨ iPML = 255)
    (h1 : s.piVadEx < s.pVadEx.cMap) (h2 : s.pVadEx.cMap < 2 ^ 32)
    (hf : s.pVadEx.cMap - s.piVadEx ≤ fuel + 1) :
    ∃ s', MmX86_Virt2PhysVadEx tlb c (fuel + 2) paPT iPML s = some s' ∧
      VadEx_Advanced (VadEx_DirEntry tlb c paPT) s s' := by
  have hm : (s.piVadEx + 1) % 2 ^ 32 = s.piVadEx + 1 := Nat.mod_eq_of_lt (by omega)
  have hlv : (if iPML = 255 then 2 else iPML) = 2 := by
    rcases hl with h | h <;> simp [h]
  have hone : ∀ (pMap : Nat → VMM_MAP_VADEXENTRY) (l : List Nat),
      pMap = Function.update s.pVadEx.pMap s.piVadEx
        (VadEx_DirEntry tlb c paPT (s.pVadEx.pMap s.piVadEx)) →
      (∀ k ∈ l, k < s.pVadEx.cMap) →
      VadEx_Advanced (VadEx_DirEntry tlb c paPT) s
        { pVadEx := { s.pVadEx with pMap := pMap }, piVadEx := s.piVadEx + 1,
          accessed := s.accessed ++ l } := by
    intro pMap l hp hl
    refine ⟨by show s.piVadEx < s.piVadEx + 1; omega, by show s.piVadEx + 1 ≤ _; omega, rfl,
      fun k => ?_, l, rfl, hl⟩
    show pMap k = if s.piVadEx ≤ k ∧ k < s.piVadEx + 1 then _ else _
    rw [hp]
    by_cases hk : k = s.piVadEx
    · subst hk
      rw [Function.update_same, if_pos ⟨le_refl _, Nat.lt_succ_self _⟩]
    · rw [Function.update_noteq hk, if_neg (fun h => hk (by omega))]
  have hself : ∀ k, k ∈ [s.piVadEx] → k < s.pVadEx.cMap := by
    intro k hk
    rw [List.mem_singleton] at hk; omega
  rw [MmX86_Virt2PhysVadEx]
  rw [hm, hlv]
  by_cases hg : (s.pVadEx.pMap s.piVadEx).va > 0xffffffff ∨ paPT > 0xffffffff
  · rw [if_pos hg]
    refine ⟨_, rfl, ?_⟩
    have hg3 : (s.pVadEx.pMap s.piVadEx).va > 0xffffffff ∨ paPT > 0xffffffff ∨
        tlb (paPT &&& 0xfffff000) = none := by
      rcases hg with h | h
      · exact Or.inl h
      · exact Or.inr (Or.inl h)
    have := hone s.pVadEx.pMap [s.piVadEx] (by
      rw [VadEx_DirEntry_skip tlb c paPT _ hg3, Function.update_eq_self]) hself
    exact this
  rw [if_neg hg]
  cases ht : tlb (paPT &&& 0xfffff000) with
  | none =>
    simp only []
    refine ⟨_, rfl, ?_⟩
    have := hone s.pVadEx.pMap [s.piVadEx] (by
      rw [VadEx_DirEntry_skip tlb c paPT _ (Or.inr (Or.inr ht)), Function.update_eq_self])
      hself
    exact this
  | some pd =>
    simp only []
    have hva : (s.pVadEx.pMap s.piVadEx).va ≤ 0xffffffff := by omega
    have hpa : paPT ≤ 0xffffffff := by omega
    rw [VadEx_NextEntry_level2 c _ pd (fuel + 1) _ (by show s.piVadEx + 1 < _; omega)]
    simp only []
    by_cases hc : MMX86_PTE_IS_VALID
          (pdw pd (0x3ff &&& ((s.pVadEx.pMap s.piVadEx).va >>> 22))) ≠ 0 ∧
        pdw pd (0x3ff &&& ((s.pVadEx.pMap s.piVadEx).va >>> 22)) &&& 0x04 ≠ 0 ∧
        pdw pd (0x3ff &&& ((s.pVadEx.pMap s.piVadEx).va >>> 22)) &&& 0x80 = 0
    · rw [if_pos hc]
      have hdir := VadEx_DirEntry_call tlb c paPT (s.pVadEx.pMap s.piVadEx) pd hva hpa ht hc
      have hupd : ∀ k, k ≠ s.piVadEx →
          Function.update s.pVadEx.pMap s.piVadEx
            ({ s.pVadEx.pMap s.piVadEx with flags := 0 } : VMM_MAP_VADEXENTRY) k =
              s.pVadEx.pMap k :=
        fun k hk => Function.update_noteq hk _ _
      obtain ⟨s', hs', hguard, htable⟩ := VadEx_call_level1 tlb c fuel
        (pdw pd (0x3ff &&& ((s.pVadEx.pMap s.piVadEx).va >>> 22)))
        { pVadEx :=
            { s.pVadEx with
              pMap := Function.update s.pVadEx.pMap s.piVadEx
                { s.pVadEx.pMap s.piVadEx with flags := 0 } }
          piVadEx := s.piVadEx
          accessed := s.accessed ++ [s.piVadEx] ++ [s.piVadEx] } h1 h2 hf
      simp only [Function.update_same] at hguard htable
      refine ⟨s', hs', ?_⟩
      cases htl : tlb (pdw pd (0x3ff &&& ((s.pVadEx.pMap s.piVadEx).va >>> 22)) &&&
          0xfffff000) with
      | none =>
        rw [htl] at hdir
        simp only [] at hdir
        obtain ⟨⟨a1, a2, a3, a4, l, a5, a6⟩, a7⟩ := hguard (Or.inr (Or.inr htl))
        simp only [] at a1 a2 a3 a4 a5 a6 a7
        refine ⟨a1, a2, a3, fun k => ?_, [s.piVadEx] ++ [s.piVadEx] ++ l,
          by rw [a5]; simp only [List.append_assoc], ?_⟩
        · rw [a4 k, a7]
          by_cases hk : k = s.piVadEx
          · subst hk
            rw [if_pos ⟨le_refl _, Nat.lt_succ_self _⟩, if_pos ⟨le_refl _, Nat.lt_succ_self _⟩,
              Function.update_same, hdir]
            rfl
          · rw [if_neg (fun h => hk (by omega)), if_neg (fun h => hk (by omega)), hupd k hk]
        · intro k hk
          simp only [List.mem_append, List.mem_singleton] at hk
          rcases hk with (hk | hk) | hk
          · omega
          · omega
          · exact a6 k hk
      | some pt =>
        rw [htl] at hdir
        simp only [] at hdir
        obtain ⟨⟨a1, a2, a3, a4, l, a5, a6⟩, hv⟩ :=
          htable pt hva (by have := pdw_lt pd (0x3ff &&& ((s.pVadEx.pMap s.piVadEx).va >>> 22));
                            omega) htl
        simp only [] at a1 a2 a3 a4 a5 a6 hv
        refine ⟨a1, a2, a3, fun k => ?_, [s.piVadEx] ++ [s.piVadEx] ++ l,
          by rw [a5]; simp only [List.append_assoc], ?_⟩
        · rw [a4 k]
          by_cases hk : k = s.piVadEx
          · subst hk
            rw [if_pos ⟨le_refl _, a1⟩, if_pos ⟨le_refl _, a1⟩, Function.update_same, hdir]
            rfl
          · rw [hupd k hk]
            by_cases hr : s.piVadEx ≤ k ∧ k < s'.piVadEx
            · rw [if_pos hr, if_pos hr]
              have hvk := hv k hr.1 hr.2
              rw [hupd k hk] at hvk
              have hck : MMX86_PTE_IS_VALID
                    (pdw pd (0x3ff &&& ((s.pVadEx.pMap k).va >>> 22))) ≠ 0 ∧
                  pdw pd (0x3ff &&& ((s.pVadEx.pMap k).va >>> 22)) &&& 0x04 ≠ 0 ∧
                  pdw pd (0x3ff &&& ((s.pVadEx.pMap k).va >>> 22)) &&& 0x80 = 0 := by
                rw [hvk.2]; exact hc
              rw [VadEx_DirEntry_call tlb c paPT (s.pVadEx.pMap k) pd hvk.1 hpa ht hck,
                hvk.2, htl]
            · rw [if_neg hr, if_neg hr]
        · intro k hk
          simp only [List.mem_append, List.mem_singleton] at hk
          rcases hk with (hk | hk) | hk
          · omega
          · omega
          · exact a6 k hk
    · rw [if_neg hc]
      refine ⟨_, rfl, ?_⟩
      have := hone (Function.update s.pVadEx.pMap s.piVadEx
        { VadEx_Resolve c 2 (pdw pd (0x3ff &&& ((s.pVadEx.pMap s.piVadEx).va >>> 22)))
            { s.pVadEx.pMap s.piVadEx with flags := 0 } with
          pte := pdw pd (0x3ff &&& ((s.pVadEx.pMap s.piVadEx).va >>> 22))
          iPML := 2 }) ([s.piVadEx] ++ [s.piVadEx]) (by
        rw [VadEx_DirEntry_leaf tlb c paPT _ pd hva hpa ht hc]) (by
        intro k hk
        simp only [List.mem_append, List.mem_singleton] at hk
        omega)
      rw [← List.append_assoc] at this
      exact this
/-- The caller's loop: with enough rounds and fuel it ends with the index at the entry
count, and every entry from the first index on holds the result of the walk of that entry
alone. -/
theorem VadEx_Drive_all (tlb : Tlb) (c : VadExConstants) (paDTB fuel : Nat) :
    ∀ (rounds : Nat) (s : VadExState), s.piVadEx ≤ s.pVadEx.cMap → s.pVadEx.cMap < 2 ^ 32 →
      s.pVadEx.cMap - s.piVadEx ≤ rounds → s.pVadEx.cMap + 1 ≤ fuel →
      ∃ s', VadEx_Drive tlb c paDTB fuel rounds s = some s' ∧
        s'.piVadEx = s.pVadEx.cMap ∧ s'.pVadEx.cMap = s.pVadEx.cMap ∧
        (∀ k, s'.pVadEx.pMap k =
          if s.piVadEx ≤ k ∧ k < s.pVadEx.cMap then VadEx_DirEntry tlb c paDTB (s.pVadEx.pMap k)
          else s.pVadEx.pMap k) ∧
        ∃ l, s'.accessed = s.accessed ++ l ∧ ∀ k ∈ l, k < s.pVadEx.cMap := by
  intro rounds
  induction rounds with
  | zero =>
    intro s h1 _ h3 _
    rw [VadEx_Drive, if_neg (by omega)]
    refine ⟨s, rfl, by omega, rfl, fun k => ?_, [], by rw [List.append_nil], fun k hk => by
      cases hk⟩
    rw [if_neg (by omega)]
  | succ rounds ih =>
    intro s h1 h2 h3 h4
    rw [VadEx_Drive]
    by_cases hlt : s.piVadEx < s.pVadEx.cMap
    · rw [if_pos hlt]
      obtain ⟨f, hfu⟩ : ∃ f, fuel = f + 2 := ⟨fuel - 2, by omega⟩
      subst hfu
      obtain ⟨s1, hs1, a1, a2, a3, a4, l1, a5, a6⟩ :=
        VadEx_call_level2 tlb c f paDTB 2 s (Or.inl rfl) hlt h2 (by omega)
      rw [hs1]
      simp only []
      obtain ⟨s', hs', b1, b2, b3, l2, b4, b5⟩ :=
        ih s1 (by omega) (by omega) (by omega) (by omega)
      refine ⟨s', hs', by omega, by omega, fun k => ?_, l1 ++ l2,
        by rw [b4, a5, List.append_assoc], ?_⟩
      · rw [b3 k, a4 k, a3]
        split_ifs <;> first | rfl | (exfalso; omega)
      · intro k hk
        rw [List.mem_append] at hk
        rcases hk with hk | hk
        · exact a6 k hk
        · have := b5 k hk
          omega
    · rw [if_neg hlt]
      refine ⟨s, rfl, by omega, rfl, fun k => ?_, [], by rw [List.append_nil], fun k hk => by
        cases hk⟩
      rw [if_neg (by omega)]

/-- C19: for every call of `MmX86_Virt2PhysVadEx` with paging level 1 or 2 (or the
default level `(BYTE)-1`), a current index strictly below the entry count and enough
fuel, the call returns, every entry index it has read or written is strictly below the
entry count, the index on return is strictly greater than on entry and at most the entry
count, and the count is unchanged; hence the caller's loop, called again from the current
index until the index reaches the count, ends with the index at the count. -/
theorem C19_vadex_index_safety (tlb : Tlb) (c : VadExConstants) (fuel paPT iPML : Nat)
    (s : VadExState) (hl : iPML = 1 ∨ iPML = 2 ∨ iPML = 255)
    (h1 : s.piVadEx < s.pVadEx.cMap) (h2 : s.pVadEx.cMap < 2 ^ 32)
    (hf : s.pVadEx.cMap - s.piVadEx + 1 ≤ fuel) :
    (∃ s', MmX86_Virt2PhysVadEx tlb c fuel paPT iPML s = some s' ∧
      s.piVadEx < s'.piVadEx ∧ s'.piVadEx ≤ s.pVadEx.cMap ∧
      s'.pVadEx.cMap = s.pVadEx.cMap ∧
      ∃ l, s'.accessed = s.accessed ++ l ∧ ∀ k ∈ l, k < s.pVadEx.cMap) ∧
    (∀ rounds fuel', s.pVadEx.cMap - s.piVadEx ≤ rounds → s.pVadEx.cMap + 1 ≤ fuel' →
      ∃ s', VadEx_Drive tlb c paPT fuel' rounds s = some s' ∧
        s'.piVadEx = s.pVadEx.cMap) := by
  refine ⟨?_, fun rounds fuel' hr hf' => ?_⟩
  · obtain ⟨f, hfu⟩ : ∃ f, fuel = f + 2 := ⟨fuel - 2, by omega⟩
    subst hfu
    rcases hl with hl | hl
    · subst hl
      obtain ⟨s', hs', hguard, htable⟩ :=
        VadEx_call_level1 tlb c (f + 1) paPT s h1 h2 (by omega)
      refine ⟨s', hs', ?_⟩
      by_cases hg : (s.pVadEx.pMap s.piVadEx).va > 0xffffffff ∨ paPT > 0xffffffff ∨
          tlb (paPT &&& 0xfffff000) = none
      · obtain ⟨⟨a1, a2, a3, -, a5⟩, -⟩ := hguard hg
        exact ⟨a1, a2, a3, a5⟩
      · cases ht : tlb (paPT &&& 0xfffff000) with
        | none => exact absurd (Or.inr (Or.inr ht)) hg
        | some pt =>
          obtain ⟨⟨a1, a2, a3, -, a5⟩, -⟩ := htable pt
            (by by_contra h; exact hg (Or.inl (by omega)))
            (by by_contra h; exact hg (Or.inr (Or.inl (by omega)))) ht
          exact ⟨a1, a2, a3, a5⟩
    · obtain ⟨s', hs', a1, a2, a3, -, a5⟩ :=
        VadEx_call_level2 tlb c f paPT iPML s hl h1 h2 (by omega)
      exact ⟨s', hs', a1, a2, a3, a5⟩
  · obtain ⟨s', hs', a1, -⟩ :=
      VadEx_Drive_all tlb c paPT fuel' rounds s (by omega) h2 hr hf'
    exact ⟨s', hs', a1⟩

set_option maxRecDepth 100000 in
/-- C19 (witness): the walk of three consecutive pages from the directory `dirNarrow`
returns with the index within the sequence, and the caller's loop ends at the count 3. -/
theorem C19_vadex_index_safety_witness :
    (∃ s', MmX86_Virt2PhysVadEx tlbNarrow vadExConstants 5 0x1000 2 vadExThree = some s' ∧
      vadExThree.piVadEx < s'.piVadEx ∧ s'.piVadEx ≤ vadExThree.pVadEx.cMap ∧
      s'.pVadEx.cMap = vadExThree.pVadEx.cMap ∧
      ∃ l, s'.accessed = vadExThree.accessed ++ l ∧ ∀ k ∈ l, k < vadExThree.pVadEx.cMap) ∧
    ∃ s', VadEx_Drive tlbNarrow vadExConstants 0x1000 5 3 vadExThree = some s' ∧
      s'.piVadEx = vadExThree.pVadEx.cMap :=
  ⟨(C19_vadex_index_safety tlbNarrow vadExConstants 5 0x1000 2 vadExThree
      (Or.inr (Or.inl rfl)) (by decide) (by decide) (by decide)).1,
   (C19_vadex_index_safety tlbNarrow vadExConstants 5 0x1000 2 vadExThree
      (Or.inr (Or.inl rfl)) (by decide) (by decide) (by decide)).2 3 5
      (by decide) (by decide)⟩

/-- C15: driving `MmX86_Virt2PhysVadEx` from the directory level over the sequence, called
again from the current index until the index reaches the entry count, ends with the index
at the count and gives every entry from the first index on exactly the content (physical
address, attribute flags, type, raw entry and paging level) that walking that entry alone
from the directory level in a one-entry sequence gives it; the consecutive-page fast path
changes no result. -/
theorem C15_vadex_sequence_eq_alone (tlb : Tlb) (c : VadExConstants)
    (paDTB fuel fuel' rounds : Nat) (s : VadExState)
    (h1 : s.piVadEx ≤ s.pVadEx.cMap) (h2 : s.pVadEx.cMap < 2 ^ 32)
    (hr : s.pVadEx.cMap - s.piVadEx ≤ rounds) (hf : s.pVadEx.cMap + 1 ≤ fuel) :
    ∃ s', VadEx_Drive tlb c paDTB fuel rounds s = some s' ∧
      s'.piVadEx = s.pVadEx.cMap ∧
      ∀ k, s.piVadEx ≤ k → k < s.pVadEx.cMap →
        ∃ a, MmX86_Virt2PhysVadEx tlb c (fuel' + 2) paDTB 2
            (VadEx_Alone (s.pVadEx.pMap k)) = some a ∧
          s'.pVadEx.pMap k = a.pVadEx.pMap 0 := by
  obtain ⟨s', hs', a1, -, a3, -⟩ := VadEx_Drive_all tlb c paDTB fuel rounds s h1 h2 hr hf
  refine ⟨s', hs', a1, fun k hk1 hk2 => ?_⟩
  obtain ⟨a, ha, b1, -, -, b4, -⟩ :=
    VadEx_call_level2 tlb c fuel' paDTB 2 (VadEx_Alone (s.pVadEx.pMap k)) (Or.inl rfl)
      (by show 0 < 1; omega) (by show 1 < 2 ^ 32; omega) (by show 1 - 0 ≤ fuel' + 1; omega)
  refine ⟨a, ha, ?_⟩
  rw [a3 k, if_pos ⟨hk1, hk2⟩, b4 0, if_pos ⟨le_refl _, b1⟩]
  rfl

set_option maxRecDepth 100000 in
/-- C15 (witness): in the sequence of the three consecutive pages `0x1000`, `0x2000` and
`0x3000`, the second entry, which the fast path resolves, gets the content of its walk
alone. -/
theorem C15_vadex_sequence_eq_alone_witness :
    ∃ s', VadEx_Drive tlbNarrow vadExConstants 0x1000 5 3 vadExThree = some s' ∧
      s'.piVadEx = vadExThree.pVadEx.cMap ∧
      ∀ k, vadExThree.piVadEx ≤ k → k < vadExThree.pVadEx.cMap →
        ∃ a, MmX86_Virt2PhysVadEx tlbNarrow vadExConstants 2 0x1000 2
            (VadEx_Alone (vadExThree.pVadEx.pMap k)) = some a ∧
          s'.pVadEx.pMap k = a.pVadEx.pMap 0 :=
  C15_vadex_sequence_eq_alone tlbNarrow vadExConstants 0x1000 5 0 3 vadExThree
    (by decide) (by decide) (by decide) (by decide)
/-- The raw-entry and paging-level fields of an entry after its walk alone: those of the
last paging entry read when the early-exit guard does not cut the walk short, the former
ones when it does. -/
theorem VadEx_DirEntry_last (tlb : Tlb) (c : VadExConstants) (paPT : Nat)
    (e : VMM_MAP_VADEXENTRY) :
    (∀ raw lvl, VadEx_LastEntry tlb paPT e.va = some (raw, lvl) →
      (VadEx_DirEntry tlb c paPT e).pte = raw ∧ (VadEx_DirEntry tlb c paPT e).iPML = lvl) ∧
    (VadEx_LastEntry tlb paPT e.va = none →
      (VadEx_DirEntry tlb c paPT e).pte = e.pte ∧
      (VadEx_DirEntry tlb c paPT e).iPML = e.iPML) := by
  unfold VadEx_LastEntry
  by_cases hg : e.va > 0xffffffff ∨ paPT > 0xffffffff
  · have hg3 : e.va > 0xffffffff ∨ paPT > 0xffffffff ∨ tlb (paPT &&& 0xfffff000) = none := by
      rcases hg with h | h
      · exact Or.inl h
      · exact Or.inr (Or.inl h)
    rw [if_pos hg, VadEx_DirEntry_skip tlb c paPT e hg3]
    exact ⟨fun _ _ h => (by cases h), fun _ => ⟨rfl, rfl⟩⟩
  rw [if_neg hg]
  cases ht : tlb (paPT &&& 0xfffff000) with
  | none =>
    simp only []
    rw [VadEx_DirEntry_skip tlb c paPT e (Or.inr (Or.inr ht))]
    exact ⟨fun _ _ h => (by cases h), fun _ => ⟨rfl, rfl⟩⟩
  | some pd =>
    simp only []
    by_cases hc : MMX86_PTE_IS_VALID (pdw pd (0x3ff &&& (e.va >>> 22))) ≠ 0 ∧
        pdw pd (0x3ff &&& (e.va >>> 22)) &&& 0x04 ≠ 0 ∧
        pdw pd (0x3ff &&& (e.va >>> 22)) &&& 0x80 = 0
    · rw [if_pos hc, VadEx_DirEntry_call tlb c paPT e pd (by omega) (by omega) ht hc]
      cases htl : tlb (pdw pd (0x3ff &&& (e.va >>> 22)) &&& 0xfffff000) with
      | none =>
        simp
      | some pt =>
        simp only []
        refine ⟨fun raw lvl h => ?_, fun h => by cases h⟩
        simp only [Option.some.injEq, Prod.mk.injEq] at h
        obtain ⟨hr, hl⟩ := h
        subst hr
        subst hl
        exact ⟨rfl, rfl⟩
    · rw [if_neg hc, VadEx_DirEntry_leaf tlb c paPT e pd (by omega) (by omega) ht hc]
      refine ⟨fun raw lvl h => ?_, fun h => by cases h⟩
      simp only [Option.some.injEq, Prod.mk.injEq] at h
      obtain ⟨hr, hl⟩ := h
      subst hr
      subst hl
      exact ⟨rfl, rfl⟩

set_option maxRecDepth 100000 in
/-- C16 (counterexample): the directory entry for the address `0x1000` is `0x2007`
(present, user, not a large page) and the page table at `0x2000` it points to is not
available. The call steps past entry 0 (the index goes from 0 to 1), the last paging entry
consulted for its address is the directory entry `0x2007` at level 2, and yet the
raw-entry field still holds the stale value `0x7007` and the paging-level field the stale
value 7. -/
theorem C16_counterexample :
    (vadExThree.pVadEx.pMap 0).va = 0x1000 ∧ vadExThree.piVadEx = 0 ∧
    (vadExThree.pVadEx.pMap 0).pte = 0x7007 ∧ (vadExThree.pVadEx.pMap 0).iPML = 7 ∧
    pdw dirNarrow (0x3ff &&& (0x1000 >>> 22)) = 0x2007 ∧
    (tlbDirOnly (0x2007 &&& 0xfffff000)).isNone = true ∧
    (MmX86_Virt2PhysVadEx tlbDirOnly vadExConstants 5 0x1000 2 vadExThree).map
        (fun s => (s.piVadEx, (s.pVadEx.pMap 0).pte, (s.pVadEx.pMap 0).iPML)) =
      some (1, 0x7007, 7) := by
  decide

/-- C16 (amended): for every entry that a call of `MmX86_Virt2PhysVadEx` at the directory
level steps past, if the early-exit guard of line 238 does not cut the walk for its
address short (address and table base at most `0xffffffff`, directory page available, and
page table available when the directory entry points to one), the raw-entry field holds
the raw value of the last paging entry read for its address and the paging-level field
the level of that entry, whether or not the entry was resolved; if the guard cuts the walk
short, both fields keep their former values. -/
theorem C16_vadex_raw_entry (tlb : Tlb) (c : VadExConstants) (fuel paPT iPML : Nat)
    (s : VadExState) (hl : iPML = 2 ∨ iPML = 255)
    (h1 : s.piVadEx < s.pVadEx.cMap) (h2 : s.pVadEx.cMap < 2 ^ 32)
    (hf : s.pVadEx.cMap - s.piVadEx + 1 ≤ fuel) :
    ∃ s', MmX86_Virt2PhysVadEx tlb c fuel paPT iPML s = some s' ∧
      ∀ k, s.piVadEx ≤ k → k < s'.piVadEx →
        (∀ raw lvl, VadEx_LastEntry tlb paPT (s.pVadEx.pMap k).va = some (raw, lvl) →
          (s'.pVadEx.pMap k).pte = raw ∧ (s'.pVadEx.pMap k).iPML = lvl) ∧
        (VadEx_LastEntry tlb paPT (s.pVadEx.pMap k).va = none →
          (s'.pVadEx.pMap k).pte = (s.pVadEx.pMap k).pte ∧
          (s'.pVadEx.pMap k).iPML = (s.pVadEx.pMap k).iPML) := by
  obtain ⟨f, hfu⟩ : ∃ f, fuel = f + 2 := ⟨fuel - 2, by omega⟩
  subst hfu
  obtain ⟨s', hs', -, -, -, a4, -⟩ :=
    VadEx_call_level2 tlb c f paPT iPML s hl h1 h2 (by omega)
  refine ⟨s', hs', fun k hk1 hk2 => ?_⟩
  rw [a4 k, if_pos ⟨hk1, hk2⟩]
  exact VadEx_DirEntry_last tlb c paPT (s.pVadEx.pMap k)

set_option maxRecDepth 100000 in
/-- C16 (witness): with the page tables of `tlbNarrow` available, the three entries of the
sequence are stepped past and carry the raw page-table entry and the level 1. -/
theorem C16_vadex_raw_entry_witness :
    ∃ s', MmX86_Virt2PhysVadEx tlbNarrow vadExConstants 5 0x1000 2 vadExThree = some s' ∧
      ∀ k, vadExThree.piVadEx ≤ k → k < s'.piVadEx →
        (∀ raw lvl,
          VadEx_LastEntry tlbNarrow 0x1000 (vadExThree.pVadEx.pMap k).va = some (raw, lvl) →
          (s'.pVadEx.pMap k).pte = raw ∧ (s'.pVadEx.pMap k).iPML = lvl) ∧
        (VadEx_LastEntry tlbNarrow 0x1000 (vadExThree.pVadEx.pMap k).va = none →
          (s'.pVadEx.pMap k).pte = (vadExThree.pVadEx.pMap k).pte ∧
          (s'.pVadEx.pMap k).iPML = (vadExThree.pVadEx.pMap k).iPML) :=
  C16_vadex_raw_entry tlbNarrow vadExConstants 5 0x1000 2 vadExThree (Or.inl rfl)
    (by decide) (by decide) (by decide)

end MmX86
